import Mathlib

/-!
Verification of the sudoku-solver engine (`sudoku-solver/src/lib.rs`,
`numbers.rs`, `strategies/hidden_single.rs`, `strategies/naked_pair.rs`,
plus the candidate-toggle protocol in `sudoku-bevy/src/main.rs`).

The embedding is shallow: the Rust `SudokuNumber` enum becomes `Fin 9`
(value = index + 1), the `[bool; 9]` bitset becomes a function
`Fin 9 → Bool`, the 9×9 array of blocks becomes a function
`BlockIndex → SudokuBlock`, and in-place mutation becomes explicit
state passing.  Fallible construction returns `Except`/`Option`
(`Option.none` models the `unwrap` panic in `SudokuBoard::from_u8`).
-/

set_option maxRecDepth 1000000

namespace Sudoku

/-- Sudoku domain number 1..9 from `numbers.rs`, as `Fin 9`; the
represented value is `val + 1`, matching `SudokuNumber::to_index`. -/
abbrev SudokuNumber := Fin 9

/-- `SudokuNumber::try_from(usize)`: accepts 1..=9, otherwise errors. -/
def SudokuNumber.tryFrom (v : Nat) : Option SudokuNumber :=
  if h : 1 ≤ v ∧ v ≤ 9 then some ⟨v - 1, by omega⟩ else none

/-- Modelled from the spec: `SudokuNumber::ALL` (used by the Naked Pair
strategy) is not under `src/`; §4.5 iterates every row, so it is the nine
domain numbers in ascending order. -/
def SudokuNumber.all : List SudokuNumber := List.finRange 9

/-- Modelled from the spec: `SudokuNumber::iter_numbers()` (used by the
Hidden Single strategy and `iter_block_indexes`) is not under `src/`;
§4.5 sweeps every cell of the 9×9 grid, so this is all (row, col) pairs
in row-major order. -/
def SudokuNumber.iter_numbers : List (SudokuNumber × SudokuNumber) :=
  (List.finRange 9).flatMap fun r => (List.finRange 9).map fun c => (r, c)

/-- The 9-slot bitset `SudokuNumbers` from `numbers.rs`
(`numbers: [bool; 9]`, `false` means not contained). -/
structure SudokuNumbers where
  numbers : Fin 9 → Bool

instance : DecidableEq SudokuNumbers := fun a b =>
  decidable_of_iff (a.numbers = b.numbers) (by cases a; cases b; simp)

/-- `SudokuNumbers::default()`: the empty set. -/
def SudokuNumbers.empty : SudokuNumbers := ⟨fun _ => false⟩

instance : Inhabited SudokuNumbers := ⟨SudokuNumbers.empty⟩

/-- `SudokuNumbers::set_number`. -/
def SudokuNumbers.set_number (s : SudokuNumbers) (n : SudokuNumber) : SudokuNumbers :=
  ⟨fun i => if i = n then true else s.numbers i⟩

/-- `SudokuNumbers::del_number`. -/
def SudokuNumbers.del_number (s : SudokuNumbers) (n : SudokuNumber) : SudokuNumbers :=
  ⟨fun i => if i = n then false else s.numbers i⟩

/-- `SudokuNumbers::has_number`. -/
def SudokuNumbers.has_number (s : SudokuNumbers) (n : SudokuNumber) : Bool :=
  s.numbers n

/-- `SudokuNumbers::count_numbers`: number of present values. -/
def SudokuNumbers.count_numbers (s : SudokuNumbers) : Nat :=
  ((List.finRange 9).filter fun i => s.numbers i).length

/-- `SudokuNumbers::get_numbers`: the present values in ascending order. -/
def SudokuNumbers.get_numbers (s : SudokuNumbers) : List SudokuNumber :=
  (List.finRange 9).filter fun i => s.numbers i

/-- Modelled from the spec: `SudokuNumbers::iter` is not under `src/`;
§4.1 `present()` is the present values, ascending (same as `get_numbers`). -/
def SudokuNumbers.iter (s : SudokuNumbers) : List SudokuNumber :=
  s.get_numbers

/-- Modelled from the spec: the `IntoIterator` impl for `SudokuNumbers`
(used in `get_block_possible_numbers`) is not under `src/`; §4.1 iteration
yields the present values, ascending. -/
def SudokuNumbers.into_iter (s : SudokuNumbers) : List SudokuNumber :=
  s.get_numbers

/-- `SudokuNumbers::get_missing_numbers`: the absent values, ascending. -/
def SudokuNumbers.get_missing_numbers (s : SudokuNumbers) : List SudokuNumber :=
  (List.finRange 9).filter fun i => !s.numbers i

/-- Modelled from the spec: `SudokuNumbers::del_numbers` is not under
`src/`; §4.1 `remove_all(values: iterable)` removes each value in turn. -/
def SudokuNumbers.del_numbers (s : SudokuNumbers) (l : List SudokuNumber) : SudokuNumbers :=
  l.foldl (fun acc n => acc.del_number n) s

/-- `SudokuNumbers::new`: inserts each produced number into the default set. -/
def SudokuNumbers.new (l : List SudokuNumber) : SudokuNumbers :=
  l.foldl (fun acc n => acc.set_number n) SudokuNumbers.empty

/-- `SudokuNumbers::new_all`: all nine values present. -/
def SudokuNumbers.new_all : SudokuNumbers := ⟨fun _ => true⟩

/-- `BlockIndex` from `lib.rs`: (row, col) pair of domain numbers. -/
structure BlockIndex where
  row : SudokuNumber
  col : SudokuNumber
deriving DecidableEq

/-- `SudokuBoard::square_number` / `BlockIndex::square_number`:
`((row-1)/3)*3 + (col-1)/3 + 1`, here 0-based as a `Fin 9`. -/
def BlockIndex.square_number (i : BlockIndex) : SudokuNumber :=
  ⟨(i.row.val / 3) * 3 + i.col.val / 3, by omega⟩

def blockIndexEquiv : (SudokuNumber × SudokuNumber) ≃ BlockIndex where
  toFun p := ⟨p.1, p.2⟩
  invFun i := (i.row, i.col)
  left_inv _ := rfl
  right_inv _ := rfl

instance : Fintype BlockIndex := Fintype.ofEquiv _ blockIndexEquiv

/-- `Conflicting` from `lib.rs`. -/
inductive Conflicting where
  | AffectedBy (block_index : BlockIndex)
  | AffectedByPossibilities (block_index : BlockIndex) (number : SudokuNumber)
  | Source
deriving DecidableEq

/-- `Conflicting::is_affected_by_and`. -/
def Conflicting.is_affected_by_and (c : Conflicting) (f : BlockIndex → Bool) : Bool :=
  match c with
  | .AffectedBy b => f b
  | _ => false

/-- `Conflicting::is_affected_by_possibilities_and`. -/
def Conflicting.is_affected_by_possibilities_and (c : Conflicting)
    (f : BlockIndex → SudokuNumber → Bool) : Bool :=
  match c with
  | .AffectedByPossibilities b n => f b n
  | _ => false

/-- `Strategy` from `strategies/mod.rs`. -/
inductive Strategy where
  | NakedSingle
  | HiddenSingle
  | NakedPair
deriving DecidableEq

/-- `StrategyEffect` from `strategies/mod.rs`. -/
inductive StrategyEffect where
  | Source
  | Effected
deriving DecidableEq

/-- `StrategyMarker` from `strategies/mod.rs`. -/
structure StrategyMarker where
  strategy : Strategy
  effect : StrategyEffect
deriving DecidableEq

/-- `Possibilities` from `lib.rs`: candidate set, candidate-conflict set,
and per-number strategy markers (the Rust `HashMap` becomes a finite map). -/
structure Possibilities where
  numbers : SudokuNumbers
  conflicting_numbers : SudokuNumbers
  strategy_markers : SudokuNumber → Option StrategyMarker

instance : DecidableEq Possibilities := fun a b =>
  decidable_of_iff (a.numbers = b.numbers ∧ a.conflicting_numbers = b.conflicting_numbers ∧
      a.strategy_markers = b.strategy_markers)
    (by cases a; cases b; simp)

/-- `Possibilities::default()`. -/
def Possibilities.empty : Possibilities :=
  ⟨SudokuNumbers.empty, SudokuNumbers.empty, fun _ => none⟩

instance : Inhabited Possibilities := ⟨Possibilities.empty⟩

/-- `Possibilities::new`. -/
def Possibilities.new (numbers : SudokuNumbers) : Possibilities :=
  ⟨numbers, SudokuNumbers.empty, fun _ => none⟩

/-- `Possibilities::is_conflicting`. -/
def Possibilities.is_conflicting (p : Possibilities) (number : SudokuNumber) : Bool :=
  p.numbers.has_number number && p.conflicting_numbers.has_number number

/-- `Possibilities::update_strategy_marker` (insert or overwrite). -/
def Possibilities.update_strategy_marker (p : Possibilities) (number : SudokuNumber)
    (marker : StrategyMarker) : Possibilities :=
  { p with strategy_markers := fun i => if i = number then some marker else p.strategy_markers i }

/-- `Possibilities::clear_strategy_marker` (the removed marker itself is
never used by callers, so only the resulting state is modelled). -/
def Possibilities.clear_strategy_marker (p : Possibilities) (number : SudokuNumber) :
    Possibilities :=
  { p with strategy_markers := fun i => if i = number then none else p.strategy_markers i }

/-- `SudokuBlockStatus` from `lib.rs`. -/
inductive SudokuBlockStatus where
  | Unresolved
  | Fixed (n : SudokuNumber)
  | Resolved (n : SudokuNumber)
  | Possibilities (p : Sudoku.Possibilities)
deriving DecidableEq

/-- `SudokuBlockStatus::is_unresolved`. -/
def SudokuBlockStatus.is_unresolved : SudokuBlockStatus → Bool
  | .Unresolved => true
  | _ => false

/-- `SudokuBlockStatus::is_fixed`. -/
def SudokuBlockStatus.is_fixed : SudokuBlockStatus → Bool
  | .Fixed _ => true
  | _ => false

/-- `SudokuBlockStatus::is_resolved`. -/
def SudokuBlockStatus.is_resolved : SudokuBlockStatus → Bool
  | .Resolved _ => true
  | _ => false

/-- `SudokuBlockStatus::is_possibilities`. -/
def SudokuBlockStatus.is_possibilities : SudokuBlockStatus → Bool
  | .Possibilities _ => true
  | _ => false

/-- `SudokuBlockStatus::as_possibilities`. -/
def SudokuBlockStatus.as_possibilities : SudokuBlockStatus → Option Sudoku.Possibilities
  | .Possibilities p => some p
  | _ => none

/-- `SudokuBlockStatus::as_resolved`. -/
def SudokuBlockStatus.as_resolved : SudokuBlockStatus → Option SudokuNumber
  | .Resolved n => some n
  | _ => none

/-- `SudokuBlockStatus::as_fixed`. -/
def SudokuBlockStatus.as_fixed : SudokuBlockStatus → Option SudokuNumber
  | .Fixed n => some n
  | _ => none

/-- `SudokuBlock` from `lib.rs`. -/
structure SudokuBlock where
  index : BlockIndex
  conflicting : Option Conflicting
  status : SudokuBlockStatus
deriving DecidableEq

/-- `SudokuBlock::new` (conflicting starts as `None`). -/
def SudokuBlock.new (row col : SudokuNumber) (status : SudokuBlockStatus) : SudokuBlock :=
  ⟨⟨row, col⟩, none, status⟩

def SudokuBlock.is_fixed (b : SudokuBlock) : Bool := b.status.is_fixed
def SudokuBlock.is_possibilities (b : SudokuBlock) : Bool := b.status.is_possibilities
def SudokuBlock.is_resolved (b : SudokuBlock) : Bool := b.status.is_resolved
def SudokuBlock.is_unresolved (b : SudokuBlock) : Bool := b.status.is_unresolved
def SudokuBlock.row (b : SudokuBlock) : SudokuNumber := b.index.row
def SudokuBlock.col (b : SudokuBlock) : SudokuNumber := b.index.col

/-- The match in `SudokuBoard::get_numbers` / `find_similar_in_container`:
the value of a `Fixed` or `Resolved` block, `None` otherwise. -/
def SudokuBlock.fixed_or_resolved (b : SudokuBlock) : Option SudokuNumber :=
  match b.status with
  | .Fixed n => some n
  | .Resolved n => some n
  | _ => none

/-- The 9×9 board `SudokuBoard`: the `[[SudokuBlock; 9]; 9]` array as a
function from (0-based) block positions. -/
abbrev SudokuBoard := BlockIndex → SudokuBlock

namespace SudokuBoard

/-- `SudokuBoard::get_block`. -/
def get_block (b : SudokuBoard) (index : BlockIndex) : SudokuBlock := b index

/-- Writing one array slot (`self.blocks[row][col] = blk` or a
`get_block_mut` assignment). -/
def set_block (b : SudokuBoard) (index : BlockIndex) (blk : SudokuBlock) : SudokuBoard :=
  fun p => if p = index then blk else b p

/-- Positions of `SudokuBoard::get_row`, in iteration order. -/
def row_indexes (r : SudokuNumber) : List BlockIndex :=
  (List.finRange 9).map fun c => ⟨r, c⟩

/-- Positions of `SudokuBoard::get_col`, in iteration order. -/
def col_indexes (c : SudokuNumber) : List BlockIndex :=
  (List.finRange 9).map fun r => ⟨r, c⟩

/-- Positions of `SudokuBoard::get_square` (`square_number_to_index` gives
the top-left corner; iteration is row-major over the 3×3 slice). -/
def square_indexes (sq : SudokuNumber) : List BlockIndex :=
  (List.finRange 3).flatMap fun dr => (List.finRange 3).map fun dc =>
    ⟨⟨(sq.val / 3) * 3 + dr.val, by omega⟩, ⟨(sq.val % 3) * 3 + dc.val, by omega⟩⟩

/-- All 81 positions in row-major order (the `for row in [One..Nine] for
col in [One..Nine]` loops, and `get_blocks`). -/
def all_indexes : List BlockIndex :=
  (List.finRange 9).flatMap fun r => (List.finRange 9).map fun c => ⟨r, c⟩

/-- `SudokuBoard::get_row`. -/
def get_row (b : SudokuBoard) (row_number : SudokuNumber) : List SudokuBlock :=
  (row_indexes row_number).map b

/-- `SudokuBoard::get_col`. -/
def get_col (b : SudokuBoard) (column_number : SudokuNumber) : List SudokuBlock :=
  (col_indexes column_number).map b

/-- `SudokuBoard::get_square`. -/
def get_square (b : SudokuBoard) (square_number : SudokuNumber) : List SudokuBlock :=
  (square_indexes square_number).map b

/-- `SudokuBoard::get_numbers`: values of the `Fixed`/`Resolved` blocks
of a container. -/
def get_numbers (blocks : List SudokuBlock) : SudokuNumbers :=
  SudokuNumbers.new (blocks.filterMap SudokuBlock.fixed_or_resolved)

/-- `SudokuBoard::get_block_possible_numbers`: all nine values minus the
chained row/column/square `get_numbers`. -/
def get_block_possible_numbers (b : SudokuBoard) (index : BlockIndex) : SudokuNumbers :=
  SudokuNumbers.del_numbers SudokuNumbers.new_all
    ((get_numbers (get_row b index.row)).into_iter ++
      (get_numbers (get_col b index.col)).into_iter ++
      (get_numbers (get_square b index.square_number)).into_iter)

/-- The loop body of `SudokuBoard::update_possibilities` for one cell. -/
def update_possibilities_step (bd : SudokuBoard) (index : BlockIndex) : SudokuBoard :=
  match (get_block bd index).status with
  | .Unresolved | .Possibilities _ =>
      set_block bd index
        { get_block bd index with
          status := .Possibilities (Possibilities.new (get_block_possible_numbers bd index)) }
  | _ => bd

/-- `SudokuBoard::update_possibilities`: every `Unresolved` or
`Possibilities` block gets a fresh `Possibilities` status from
`get_block_possible_numbers`, sweeping row-major. -/
def update_possibilities (b : SudokuBoard) : SudokuBoard :=
  all_indexes.foldl update_possibilities_step b

/-- Rust `Vec::dedup`: removes consecutive duplicate elements (an element
is dropped exactly when it equals its predecessor; since the recursive
result always starts with the tail's first element, comparing against
that head is the same test). -/
def dedupConsec {α : Type} [DecidableEq α] : List α → List α
  | [] => []
  | a :: t =>
    match dedupConsec t with
    | [] => [a]
    | b :: r => if a = b then b :: r else a :: b :: r

/-- `SudokuBoard::find_similar_in_container`: indexes of `Fixed`/`Resolved`
blocks holding `number`, skipping the block whose stored index equals the
ignored index (when no index is ignored, the `is_some_and` filter drops
every block). -/
def find_similar_in_container (number : SudokuNumber) (blocks : List SudokuBlock)
    (ignore_index : Option BlockIndex) : List BlockIndex :=
  ((((blocks.filter fun f => f.is_fixed || f.is_resolved).filter fun f =>
      match ignore_index with
      | some g => decide (f.index ≠ g)
      | none => false).filter fun f =>
      match f.status with
      | .Fixed n => decide (n = number)
      | .Resolved n => decide (n = number)
      | _ => false).map fun f => f.index)

/-- `SudokuBoard::find_mistakes`: chained row/col/square similar blocks,
deduplicated (consecutively), `None` when empty. -/
def find_mistakes (b : SudokuBoard) (index : BlockIndex) (number : SudokuNumber) :
    Option (List BlockIndex) :=
  let row_m := find_similar_in_container number (get_row b index.row) (some index)
  let col_m := find_similar_in_container number (get_col b index.col) (some index)
  let square_m := find_similar_in_container number (get_square b index.square_number) (some index)
  let mistakes := dedupConsec (row_m ++ col_m ++ square_m)
  if mistakes.isEmpty then none else some mistakes

/-- `SudokuBoard::find_resolved_block_mistakes`. -/
def find_resolved_block_mistakes (b : SudokuBoard) (index : BlockIndex) :
    Option (List BlockIndex) :=
  match (get_block b index).status.as_resolved with
  | some n => find_mistakes b index n
  | none => none

/-- `SudokuBoard::clear_all_previous_conflicts`: drop every conflict tag
that names `index` as its source (both `AffectedBy` and
`AffectedByPossibilities`). -/
def clear_all_previous_conflicts (b : SudokuBoard) (index : BlockIndex) : SudokuBoard :=
  fun p =>
    let f := b p
    if (match f.conflicting with
        | some conf =>
            conf.is_affected_by_and (fun g => decide (g = index)) ||
              conf.is_affected_by_possibilities_and (fun g _ => decide (g = index))
        | none => false) then
      { f with conflicting := none }
    else f

/-- The cleanup inside `mark_conflicts_possibilities` that drops only
plain `AffectedBy index` tags. -/
def clear_affected_by_conflicts (b : SudokuBoard) (index : BlockIndex) : SudokuBoard :=
  fun p =>
    let f := b p
    if (match f.conflicting with
        | some conf => conf.is_affected_by_and (fun g => decide (g = index))
        | none => false) then
      { f with conflicting := none }
    else f

/-- The cleanup inside `mark_conflicts_possibilities` that drops
`AffectedByPossibilities` tags naming `index` and `pos`. -/
def clear_affected_by_possibilities_conflicts (b : SudokuBoard) (index : BlockIndex)
    (pos : SudokuNumber) : SudokuBoard :=
  fun p =>
    let f := b p
    if (match f.conflicting with
        | some conf =>
            conf.is_affected_by_possibilities_and fun g n =>
              decide (g = index) && decide (n = pos)
        | none => false) then
      { f with conflicting := none }
    else f

/-- `SudokuBoard::mark_conflicts_unresolved`. -/
def mark_conflicts_unresolved (b : SudokuBoard) (index : BlockIndex) : SudokuBoard × Bool :=
  let b1 := set_block b index { get_block b index with conflicting := none }
  (clear_all_previous_conflicts b1 index, true)

/-- `SudokuBoard::mark_conflicts_resolved`. -/
def mark_conflicts_resolved (b : SudokuBoard) (index : BlockIndex) : SudokuBoard × Bool :=
  let b1 := clear_all_previous_conflicts b index
  match find_resolved_block_mistakes b1 index with
  | some affected_indexes =>
    let b2 := set_block b1 index { get_block b1 index with conflicting := some .Source }
    let b3 := affected_indexes.foldl
      (fun bd affected =>
        if affected = index then bd
        else set_block bd affected
          { get_block bd affected with conflicting := some (.AffectedBy index) })
      b2
    (b3, false)
  | none => (set_block b1 index { get_block b1 index with conflicting := none }, true)

/-- The `as_possibilities_mut().unwrap()` / if-let mutation sites: apply
`f` to the block's `Possibilities` payload.  At every call site the block
is either guaranteed to be in `Possibilities` status (so the `unwrap`
cannot panic) or guarded by an if-let that skips other statuses; both
agree with this no-op fallback. -/
def modify_possibilities (b : SudokuBoard) (index : BlockIndex)
    (f : Possibilities → Possibilities) : SudokuBoard :=
  match (get_block b index).status with
  | .Possibilities p =>
      set_block b index { get_block b index with status := .Possibilities (f p) }
  | _ => b

/-- The `count_numbers` read in `mark_conflicts_possibilities` (the block
is in `Possibilities` status whenever this is reached). -/
def possibilities_count (b : SudokuBoard) (index : BlockIndex) : Nat :=
  match (get_block b index).status.as_possibilities with
  | some p => p.numbers.count_numbers
  | none => 0

/-- The opening of the `!is_cleared` branch of
`mark_conflicts_possibilities`: when the candidate set has exactly one
member, stale `AffectedBy` tags naming this cell are dropped first. -/
def mcp_step1 (b : SudokuBoard) (index : BlockIndex) (is_cleared : Bool) : SudokuBoard :=
  if is_cleared then b
  else if possibilities_count b index = 1 then clear_affected_by_conflicts b index
  else b

/-- The `similar` list of `mark_conflicts_possibilities`: empty when the
candidate was cleared, otherwise the mistakes of the candidate value. -/
def mcp_similar (b : SudokuBoard) (index : BlockIndex) (pos : SudokuNumber)
    (is_cleared : Bool) : List BlockIndex :=
  if is_cleared then [] else (find_mistakes (mcp_step1 b index is_cleared) index pos).getD []

/-- The tail of `mark_conflicts_possibilities`: with no mistakes, the
candidate leaves the conflict set and its tags elsewhere are dropped;
with mistakes, it enters the conflict set and every similar block is
tagged `AffectedByPossibilities`. -/
def mcp_finish (step1 : SudokuBoard) (index : BlockIndex) (pos : SudokuNumber)
    (similar : List BlockIndex) : SudokuBoard × Bool :=
  if similar.isEmpty then
    let b2 := modify_possibilities step1 index fun poss =>
      { poss with conflicting_numbers := poss.conflicting_numbers.del_number pos }
    (clear_affected_by_possibilities_conflicts b2 index pos, true)
  else
    let b2 := modify_possibilities step1 index fun poss =>
      { poss with conflicting_numbers := poss.conflicting_numbers.set_number pos }
    let b3 := similar.foldl
      (fun bd block_index =>
        set_block bd block_index
          { get_block bd block_index with
            conflicting := some (.AffectedByPossibilities index pos) })
      b2
    (b3, false)

/-- `SudokuBoard::mark_conflicts_possibilities`. -/
def mark_conflicts_possibilities (b : SudokuBoard) (index : BlockIndex)
    (possibility_number_info : Option (SudokuNumber × Bool)) : SudokuBoard × Bool :=
  match possibility_number_info with
  | none => (b, true)
  | some (pos, is_cleared) =>
    mcp_finish (mcp_step1 b index is_cleared) index pos (mcp_similar b index pos is_cleared)

/-- `SudokuBoard::mark_conflicts`: dispatch on the block's current status. -/
def mark_conflicts (b : SudokuBoard) (index : BlockIndex)
    (possibility_number_info : Option (SudokuNumber × Bool)) : SudokuBoard × Bool :=
  match (get_block b index).status with
  | .Unresolved => mark_conflicts_unresolved b index
  | .Resolved _ => mark_conflicts_resolved b index
  | .Possibilities _ => mark_conflicts_possibilities b index possibility_number_info
  | .Fixed _ => (b, true)

/-- The loop body of `SudokuBoard::mark_all_conflicts` for one cell. -/
def mark_all_conflicts_step (acc : SudokuBoard × Bool) (index : BlockIndex) :
    SudokuBoard × Bool :=
  match (get_block acc.1 index).status with
  | .Resolved _ =>
      let r := mark_conflicts_resolved acc.1 index
      (r.1, acc.2 && r.2)
  | .Unresolved =>
      let r := mark_conflicts_unresolved acc.1 index
      (r.1, acc.2 && r.2)
  | _ => acc

/-- `SudokuBoard::mark_all_conflicts`: sweep the 81 cells, applying the
`Resolved`/`Unresolved` branches; the flag stays true only if every
application reported no conflict. -/
def mark_all_conflicts (b : SudokuBoard) : SudokuBoard × Bool :=
  all_indexes.foldl mark_all_conflicts_step (b, true)

/-- `SudokuBoard::verify_board`: false iff some `Resolved` block has
mistakes. -/
def verify_board (b : SudokuBoard) : Bool :=
  all_indexes.all fun index =>
    match (get_block b index).status with
    | .Resolved n => (find_mistakes b index n).isNone
    | _ => true

/-- The first loop body of `SudokuBoard::resolve_satisfied_blocks` for
one cell: a single-candidate `Possibilities` block becomes `Resolved`
with the first value yielded by `iter` (the smallest). -/
def resolve_satisfied_step (bd : SudokuBoard) (index : BlockIndex) : SudokuBoard :=
  match (get_block bd index).status with
  | .Possibilities possibles =>
      if possibles.numbers.count_numbers = 1 then
        match possibles.numbers.iter with
        | single_naked :: _ =>
            set_block bd index
              { get_block bd index with status := .Resolved single_naked }
        | [] => bd
      else bd
  | _ => bd

/-- `SudokuBoard::resolve_satisfied_blocks`: resolve the satisfied
cells, then `mark_all_conflicts`, then — only if that reported no
conflicts — `update_possibilities`. -/
def resolve_satisfied_blocks (b : SudokuBoard) : SudokuBoard :=
  let b1 := all_indexes.foldl resolve_satisfied_step b
  let r := mark_all_conflicts b1
  if r.2 then update_possibilities r.1 else r.1

/-- `SudokuBoard::reset`: non-`Fixed` blocks become `Unresolved`; every
conflict tag is cleared. -/
def reset (b : SudokuBoard) : SudokuBoard :=
  fun p =>
    let blk := b p
    { blk with
      status := if blk.is_fixed then blk.status else .Unresolved
      conflicting := none }

/-- `SudokuBoard::default()`: all blocks `Unresolved`, stored index equal
to the position. -/
def default_board : SudokuBoard :=
  fun p => SudokuBlock.new p.row p.col .Unresolved

/-- `SudokuBoard::fill_board`: overwrite every slot from the template
(`Some` ⇒ `Fixed`, `None` ⇒ `Unresolved`). -/
def fill_board (numbers : Fin 9 → Fin 9 → Option SudokuNumber) : SudokuBoard :=
  fun p =>
    match numbers p.row p.col with
    | some n => SudokuBlock.new p.row p.col (.Fixed n)
    | none => SudokuBlock.new p.row p.col .Unresolved

/-- `SudokuBoard::new`: default board filled from the template. -/
def new (numbers : Fin 9 → Fin 9 → Option SudokuNumber) : SudokuBoard :=
  fill_board numbers

/-- The loop body of `SudokuBoard::fill_board_u8`: overwrite slots in
row-major order, converting each raw value with `try_into`; the `?`
returns the error immediately, keeping the mutations made so far. -/
def fill_board_u8_go (numbers : Fin 9 → Fin 9 → Option Nat) :
    List BlockIndex → SudokuBoard → SudokuBoard × Except Unit Unit
  | [], bd => (bd, .ok ())
  | p :: rest, bd =>
    match numbers p.row p.col with
    | some v =>
      match SudokuNumber.tryFrom v with
      | some n =>
          fill_board_u8_go numbers rest
            (set_block bd p (SudokuBlock.new p.row p.col (.Fixed n)))
      | none => (bd, .error ())
    | none =>
        fill_board_u8_go numbers rest
          (set_block bd p (SudokuBlock.new p.row p.col .Unresolved))

/-- `SudokuBoard::fill_board_u8`. -/
def fill_board_u8 (b : SudokuBoard) (numbers : Fin 9 → Fin 9 → Option Nat) :
    SudokuBoard × Except Unit Unit :=
  fill_board_u8_go numbers all_indexes b

/-- `SudokuBoard::from_u8`: fills a default board and `unwrap`s the
result; `none` models the panic on an invalid input. -/
def from_u8 (numbers : Fin 9 → Fin 9 → Option Nat) : Option SudokuBoard :=
  let r := fill_board_u8 default_board numbers
  match r.2 with
  | .ok _ => some r.1
  | .error _ => none

end SudokuBoard

/-- `get_all_possible_numbers` from `strategies/hidden_single.rs`: union
of the candidate sets of the `Possibilities` blocks of a container. -/
def get_all_possible_numbers (blocks : List SudokuBlock) : SudokuNumbers :=
  (blocks.filterMap fun f => f.status.as_possibilities).foldl
    (fun acc fold => fold.numbers.iter.foldl (fun a f => a.set_number f) acc)
    SudokuNumbers.empty

/-- `get_hidden_single` from `strategies/hidden_single.rs`: the single
candidate of the block at (row, col) missing from the candidate union of
the other blocks of the container (blocks are compared by stored index). -/
def get_hidden_single (board : SudokuBoard) (row col : SudokuNumber)
    (container : List SudokuBlock) : Option SudokuNumber :=
  let block := SudokuBoard.get_block board ⟨row, col⟩
  match block.status.as_possibilities with
  | none => none
  | some possibles =>
    let row_pos := get_all_possible_numbers
      (container.filter fun x => !decide (x.index = block.index))
    let hidden := possibles.numbers.iter.filter fun f => !row_pos.has_number f
    match hidden with
    | [h] => some h
    | _ => none

/-- The peer mutation of the Hidden Single strategy: commit deletes the
hidden value and clears its marker; preview paints an `Effected` marker. -/
def hidden_peer_update (show_only_effect : Bool) (hidden : SudokuNumber)
    (possibilities : Possibilities) : Possibilities :=
  if !show_only_effect then
    Possibilities.clear_strategy_marker
      { possibilities with numbers := possibilities.numbers.del_number hidden } hidden
  else possibilities.update_strategy_marker hidden ⟨.HiddenSingle, .Effected⟩

/-- The `if let Some(row_hidden) ... else if let Some(col_hidden) ...`
chain of `HiddenSingleStrategy::update_possible_numbers`: the hidden
single of the first container (row, then column, then square) that has
one. -/
def hidden_number_choice (board : SudokuBoard) (row col : SudokuNumber) :
    Option SudokuNumber :=
  match get_hidden_single board row col (SudokuBoard.get_row board row) with
  | some row_hidden => some row_hidden
  | none =>
    match get_hidden_single board row col (SudokuBoard.get_col board col) with
    | some col_hidden => some col_hidden
    | none =>
        get_hidden_single board row col
          (SudokuBoard.get_square board (BlockIndex.square_number ⟨row, col⟩))

/-- One iteration of `HiddenSingleStrategy::update_possible_numbers` for
the cell at `rc`: find a hidden single (row first, then column, then
square) and commit it (or, in preview, paint markers). -/
def hidden_single_step (board : SudokuBoard) (rc : SudokuNumber × SudokuNumber)
    (show_only_effect : Bool) : SudokuBoard :=
  let row := rc.1
  let col := rc.2
  match hidden_number_choice board row col with
  | none => board
  | some hidden =>
    let bd1 := SudokuBoard.modify_possibilities board ⟨row, col⟩ fun possibilities =>
      if !show_only_effect then
        { Possibilities.empty with numbers := SudokuNumbers.empty.set_number hidden }
      else possibilities.update_strategy_marker hidden ⟨.HiddenSingle, .Source⟩
    let bd2 := (SudokuBoard.row_indexes row).foldl
      (fun acc p =>
        if (SudokuBoard.get_block acc p).col ≠ col then
          SudokuBoard.modify_possibilities acc p (hidden_peer_update show_only_effect hidden)
        else acc)
      bd1
    let bd3 := (SudokuBoard.col_indexes col).foldl
      (fun acc p =>
        if (SudokuBoard.get_block acc p).row ≠ row then
          SudokuBoard.modify_possibilities acc p (hidden_peer_update show_only_effect hidden)
        else acc)
      bd2
    (SudokuBoard.square_indexes (BlockIndex.square_number ⟨row, col⟩)).foldl
      (fun acc p =>
        if (SudokuBoard.get_block acc p).col ≠ col ∧ (SudokuBoard.get_block acc p).row ≠ row then
          SudokuBoard.modify_possibilities acc p (hidden_peer_update show_only_effect hidden)
        else acc)
      bd3

/-- `HiddenSingleStrategy::update_possible_numbers`: the full sweep over
all 81 cells. -/
def HiddenSingleStrategy.update_possible_numbers (board : SudokuBoard)
    (show_only_effect : Bool) : SudokuBoard :=
  SudokuNumber.iter_numbers.foldl (fun bd rc => hidden_single_step bd rc show_only_effect) board

/-- One row of `NakedPairStrategy::update_possible_numbers`.  The Rust
code groups the row's `Possibilities` blocks by candidate set in a
`HashMap` (iteration order unspecified) with a `HashSet` of their stored
indexes; the grouping is modelled by the deduplicated list of candidate
sets (any fixed processing order is a faithful determinization) and the
`HashSet` by the deduplicated index list, whose length is the number of
distinct indexes. -/
def naked_pair_row (board : SudokuBoard) (index : SudokuNumber)
    (show_only_effect : Bool) : SudokuBoard :=
  let entries : List (SudokuNumbers × BlockIndex) :=
    (SudokuBoard.get_row board index).filterMap fun b =>
      (b.status.as_possibilities).map fun f => (f.numbers, b.index)
  let keys : List SudokuNumbers := (entries.map Prod.fst).dedup
  keys.foldl
    (fun acc numbers =>
      let indexes : List BlockIndex :=
        ((entries.filter fun e => e.1 = numbers).map Prod.snd).dedup
      if numbers.count_numbers = indexes.length then
        (SudokuBoard.row_indexes index).foldl
          (fun acc2 p =>
            if (SudokuBoard.get_block acc2 p).is_possibilities then
              let block_index := (SudokuBoard.get_block acc2 p).index
              SudokuBoard.modify_possibilities acc2 p fun poss =>
                if block_index ∈ indexes then
                  numbers.iter.foldl
                    (fun ps number =>
                      if show_only_effect then
                        ps.update_strategy_marker number ⟨.NakedPair, .Source⟩
                      else ps.clear_strategy_marker number)
                    poss
                else
                  if !show_only_effect then
                    numbers.iter.foldl
                      (fun ps number => ps.clear_strategy_marker number)
                      { poss with numbers := poss.numbers.del_numbers numbers.iter }
                  else
                    numbers.iter.foldl
                      (fun ps number =>
                        ps.update_strategy_marker number ⟨.NakedPair, .Effected⟩)
                      poss
            else acc2)
          acc
      else acc)
    board

/-- `NakedPairStrategy::update_possible_numbers`: the sweep over all rows
(`SudokuNumber::ALL`). -/
def NakedPairStrategy.update_possible_numbers (board : SudokuBoard)
    (show_only_effect : Bool) : SudokuBoard :=
  SudokuNumber.all.foldl (fun bd r => naked_pair_row bd r show_only_effect) board

/-- `NakedSingleStrategy::update_possible_numbers` is a no-op. -/
def NakedSingleStrategy.update_possible_numbers (board : SudokuBoard)
    (_show_only_effect : Bool) : SudokuBoard :=
  board

/-- The candidate-toggle protocol from `sudoku-bevy/src/main.rs`
(`_update_block` in `Possibilities` selection mode, followed by the
`mark_conflicts` call of the command handler): flip `number` in the
block's candidate set (creating the `Possibilities` status or falling
back to `Unresolved` when the last candidate is removed; `Fixed` blocks
are skipped) and mark conflicts with the resulting change info. -/
def toggle_candidate (board : SudokuBoard) (index : BlockIndex) (number : SudokuNumber) :
    SudokuBoard :=
  match (SudokuBoard.get_block board index).status with
  | .Fixed _ => board
  | .Possibilities pos =>
    if pos.numbers.has_number number then
      let pos2 : Possibilities := { pos with numbers := pos.numbers.del_number number }
      if pos2.numbers.count_numbers = 0 then
        let b1 := SudokuBoard.set_block board index
          { SudokuBoard.get_block board index with status := .Unresolved }
        (SudokuBoard.mark_conflicts b1 index none).1
      else
        let b1 := SudokuBoard.set_block board index
          { SudokuBoard.get_block board index with status := .Possibilities pos2 }
        (SudokuBoard.mark_conflicts b1 index (some (number, true))).1
    else
      let b1 := SudokuBoard.set_block board index
        { SudokuBoard.get_block board index with
          status := .Possibilities { pos with numbers := pos.numbers.set_number number } }
      (SudokuBoard.mark_conflicts b1 index (some (number, false))).1
  | _ =>
    let b1 := SudokuBoard.set_block board index
      { SudokuBoard.get_block board index with
        status := .Possibilities (Possibilities.new (SudokuNumbers.new [number])) }
    (SudokuBoard.mark_conflicts b1 index (some (number, false))).1

/-- One engine operation, as quantified over by the reachability claims:
incremental and bulk conflict marking, candidate recomputation,
auto-resolution, strategy engagement (either phase of each of the three
strategies), reset, and the caller's candidate-toggle protocol. -/
inductive Step : SudokuBoard → SudokuBoard → Prop where
  | mark_conflicts (b : SudokuBoard) (index : BlockIndex)
      (info : Option (SudokuNumber × Bool)) :
      Step b (SudokuBoard.mark_conflicts b index info).1
  | mark_all_conflicts (b : SudokuBoard) : Step b (SudokuBoard.mark_all_conflicts b).1
  | update_possibilities (b : SudokuBoard) : Step b (SudokuBoard.update_possibilities b)
  | resolve_satisfied_blocks (b : SudokuBoard) : Step b (SudokuBoard.resolve_satisfied_blocks b)
  | hidden_single (b : SudokuBoard) (flag : Bool) :
      Step b (HiddenSingleStrategy.update_possible_numbers b flag)
  | naked_pair (b : SudokuBoard) (flag : Bool) :
      Step b (NakedPairStrategy.update_possible_numbers b flag)
  | naked_single (b : SudokuBoard) (flag : Bool) :
      Step b (NakedSingleStrategy.update_possible_numbers b flag)
  | reset (b : SudokuBoard) : Step b (SudokuBoard.reset b)
  | toggle_candidate (b : SudokuBoard) (index : BlockIndex) (number : SudokuNumber) :
      Step b (toggle_candidate b index number)

/-- A board as produced by construction (`SudokuBoard::new`, or a
successful `SudokuBoard::from_u8`). -/
inductive Constructed : SudokuBoard → Prop where
  | new (numbers : Fin 9 → Fin 9 → Option SudokuNumber) : Constructed (SudokuBoard.new numbers)
  | from_u8 (numbers : Fin 9 → Fin 9 → Option Nat) (b : SudokuBoard) :
      SudokuBoard.from_u8 numbers = some b → Constructed b

/-- Zero or more engine operations. -/
inductive ReachableFrom : SudokuBoard → SudokuBoard → Prop where
  | refl (b : SudokuBoard) : ReachableFrom b b
  | tail {a b c : SudokuBoard} : ReachableFrom a b → Step b c → ReachableFrom a c

/-- A board whose blocks store their own position as their index — true
of every board built by the constructors, and preserved by every engine
operation. -/
def IndexConsistent (b : SudokuBoard) : Prop := ∀ p : BlockIndex, (b p).index = p

instance (b : SudokuBoard) : Decidable (IndexConsistent b) :=
  inferInstanceAs (Decidable (∀ _p, _ = _))

/-- Build a board with consistent indexes, no conflict tags, and the
given statuses (used for concrete test boards). -/
def board_of (f : BlockIndex → SudokuBlockStatus) : SudokuBoard :=
  fun p => ⟨p, none, f p⟩

/-- A `Possibilities` status holding exactly the given candidates. -/
def poss_of (l : List SudokuNumber) : SudokuBlockStatus :=
  .Possibilities (Possibilities.new (SudokuNumbers.new l))

/-- Spec-side notion (from the claim's words, not from the code): value
`v` is hidden at cell (row, col) for the container given by the listed
positions — `v` is a candidate of that cell and lies in no other cell's
candidate set of the container. -/
def spec_hidden_in (b : SudokuBoard) (row col : SudokuNumber) (cont : List BlockIndex)
    (v : SudokuNumber) : Prop :=
  (match (b ⟨row, col⟩).status with
    | .Possibilities pp => pp.numbers.has_number v
    | _ => false) = true ∧
  ∀ q ∈ cont, q ≠ ⟨row, col⟩ →
    (match (b q).status with
      | .Possibilities pp => pp.numbers.has_number v
      | _ => false) = false

instance (b : SudokuBoard) (row col : SudokuNumber) (cont : List BlockIndex)
    (v : SudokuNumber) : Decidable (spec_hidden_in b row col cont v) :=
  inferInstanceAs (Decidable (_ ∧ ∀ q ∈ cont, _ → _ = _))

/-- Spec-side notion: `v` is the unique hidden value of the container. -/
def spec_unique_hidden (b : SudokuBoard) (row col : SudokuNumber) (cont : List BlockIndex)
    (v : SudokuNumber) : Prop :=
  spec_hidden_in b row col cont v ∧
    ∀ w : SudokuNumber, spec_hidden_in b row col cont w → w = v

/-- Mutation of one block's `Possibilities` payload (the per-block view
of `modify_possibilities`). -/
def blockModify (blk : SudokuBlock) (f : Possibilities → Possibilities) : SudokuBlock :=
  match blk.status with
  | .Possibilities pp => { blk with status := .Possibilities (f pp) }
  | _ => blk

/-! ### Concrete boards for counterexamples and witnesses -/

/-- Template with a single given 7 (index 6) at row 1, col 5. -/
def c1_grid : Fin 9 → Fin 9 → Option SudokuNumber :=
  fun r c => if r = 0 ∧ c = 4 then some 6 else none

/-- The board of `c1_grid` after `update_possibilities` and a
`mark_conflicts` call reporting candidate 7 set on the (empty) top-left
cell. -/
def c1_board : SudokuBoard :=
  (SudokuBoard.mark_conflicts
    (SudokuBoard.update_possibilities (SudokuBoard.new c1_grid)) ⟨0, 0⟩ (some (6, false))).1

/-- Board with a `Fixed` 7 at (1,1) and a `Resolved` 7 at (1,2). -/
def c5_board : SudokuBoard :=
  board_of fun p =>
    if p = ⟨0, 0⟩ then .Fixed 6
    else if p = ⟨0, 1⟩ then .Resolved 6
    else .Unresolved

/-- Board for the Hidden Single counterexample: (1,1) holds candidates
with values 4 and 5; value 4 is hidden in its row (the only other row
candidate cell (1,7) holds values 5,6) and value 5 is hidden in its
column (the only other column candidate cell (7,1) holds values 4,6). -/
def c3_board : SudokuBoard :=
  board_of fun p =>
    if p = ⟨0, 0⟩ then poss_of [3, 4]
    else if p = ⟨0, 6⟩ then poss_of [4, 5]
    else if p = ⟨6, 0⟩ then poss_of [3, 5]
    else .Unresolved

/-- Template for the candidate-conflict counterexample: row 1 has givens
1,2,3 in columns 4..6 and 7,8,9 in columns 7..9, leaving columns 1..3
with candidate values 4,5,6. -/
def c9_grid : Fin 9 → Fin 9 → Option SudokuNumber :=
  fun r c =>
    if r = 0 then
      if c = 3 then some 0
      else if c = 4 then some 1
      else if c = 5 then some 2
      else if c = 6 then some 6
      else if c = 7 then some 7
      else if c = 8 then some 8
      else none
    else none

/-- The `c9_grid` board after recomputing candidates, toggling candidate
7 into (1,1)..(1,3) (each recorded as a candidate conflict against the
given 7) and toggling 5 and 6 out of (1,2) and (1,3), leaving those two
cells with candidate values 4,7 — a naked pair. -/
def c9_board : SudokuBoard :=
  toggle_candidate
    (toggle_candidate
      (toggle_candidate
        (toggle_candidate
          (toggle_candidate
            (toggle_candidate
              (toggle_candidate
                (SudokuBoard.update_possibilities (SudokuBoard.new c9_grid))
                ⟨0, 0⟩ 6)
              ⟨0, 1⟩ 6)
            ⟨0, 1⟩ 4)
          ⟨0, 1⟩ 5)
        ⟨0, 2⟩ 6)
      ⟨0, 2⟩ 4)
    ⟨0, 2⟩ 5

/-- `c9_board` after committing the Naked Pair strategy: the pair (4,7)
at (1,2),(1,3) removes candidate 7 from (1,1), whose conflict set still
holds 7. -/
def c9_final : SudokuBoard :=
  NakedPairStrategy.update_possible_numbers c9_board false

/-- `c3_board` after committing the Hidden Single strategy. -/
def c3_final : SudokuBoard :=
  HiddenSingleStrategy.update_possible_numbers c3_board false

/-- A valid template: one given 5 at (1,1). -/
def c8_valid_grid : Fin 9 → Fin 9 → Option Nat :=
  fun r c => if r = 0 ∧ c = 0 then some 5 else none

/-- An invalid template: a raw 0 at (1,2), after a valid 5 at (1,1). -/
def c8_invalid_grid : Fin 9 → Fin 9 → Option Nat :=
  fun r c => if r = 0 ∧ c = 0 then some 5 else if r = 0 ∧ c = 1 then some 0 else none

/-- Board for the Hidden Single commit witness: (1,1) holds candidate
values 4,5 and its row peer (1,7) holds 5,6, so value 4 is hidden in the
row; (4,1) holds 4,6 as a column peer and (2,2) holds 4,5 as a box peer. -/
def c4_board : SudokuBoard :=
  board_of fun p =>
    if p = ⟨0, 0⟩ then poss_of [3, 4]
    else if p = ⟨0, 6⟩ then poss_of [4, 5]
    else if p = ⟨3, 0⟩ then poss_of [3, 5]
    else if p = ⟨1, 1⟩ then poss_of [3, 4]
    else .Unresolved

/-- Whether one raw template slot is acceptable to `try_into`
(`None`, or a value in 1..=9). -/
def cell_ok (o : Option Nat) : Bool :=
  match o with
  | some v => decide (1 ≤ v ∧ v ≤ 9)
  | none => true

/-- Every slot of a raw template is acceptable. -/
def grid_valid (g : Fin 9 → Fin 9 → Option Nat) : Prop :=
  ∀ r c : Fin 9, cell_ok (g r c) = true

instance (g : Fin 9 → Fin 9 → Option Nat) : Decidable (grid_valid g) :=
  inferInstanceAs (Decidable (∀ _r _c, _ = _))

/-! ### Basic lemmas about the number set -/

theorem SudokuNumbers.ext {a b : SudokuNumbers} (h : a.numbers = b.numbers) : a = b := by
  cases a; cases b; simpa using h

theorem SudokuNumbers.has_set_number (s : SudokuNumbers) (n i : SudokuNumber) :
    (s.set_number n).has_number i = true ↔ i = n ∨ s.has_number i = true := by
  simp only [SudokuNumbers.set_number, SudokuNumbers.has_number]
  by_cases h : i = n <;> simp [h]

theorem SudokuNumbers.has_del_number (s : SudokuNumbers) (n i : SudokuNumber) :
    (s.del_number n).has_number i = true ↔ i ≠ n ∧ s.has_number i = true := by
  simp only [SudokuNumbers.del_number, SudokuNumbers.has_number]
  by_cases h : i = n <;> simp [h]

theorem SudokuNumbers.has_foldl_set (l : List SudokuNumber) (s : SudokuNumbers)
    (i : SudokuNumber) :
    ((l.foldl (fun acc n => acc.set_number n) s).has_number i = true) ↔
      i ∈ l ∨ s.has_number i = true := by
  induction l generalizing s with
  | nil => simp
  | cons a t ih =>
      simp only [List.foldl_cons, ih, List.mem_cons, SudokuNumbers.has_set_number]
      tauto

theorem SudokuNumbers.has_new (l : List SudokuNumber) (i : SudokuNumber) :
    (SudokuNumbers.new l).has_number i = true ↔ i ∈ l := by
  rw [SudokuNumbers.new, SudokuNumbers.has_foldl_set]
  simp [SudokuNumbers.empty, SudokuNumbers.has_number]

theorem SudokuNumbers.has_del_numbers (s : SudokuNumbers) (l : List SudokuNumber)
    (i : SudokuNumber) :
    (s.del_numbers l).has_number i = true ↔ s.has_number i = true ∧ i ∉ l := by
  induction l generalizing s with
  | nil => simp [SudokuNumbers.del_numbers]
  | cons a t ih =>
      simp only [SudokuNumbers.del_numbers, List.foldl_cons] at ih ⊢
      rw [ih, SudokuNumbers.has_del_number]
      simp only [List.mem_cons]
      tauto

theorem SudokuNumbers.mem_get_numbers (s : SudokuNumbers) (i : SudokuNumber) :
    i ∈ s.get_numbers ↔ s.has_number i = true := by
  simp [SudokuNumbers.get_numbers, List.mem_filter, SudokuNumbers.has_number,
    List.mem_finRange]

theorem SudokuNumbers.mem_iter (s : SudokuNumbers) (i : SudokuNumber) :
    i ∈ s.iter ↔ s.has_number i = true :=
  SudokuNumbers.mem_get_numbers s i

theorem SudokuNumbers.mem_into_iter (s : SudokuNumbers) (i : SudokuNumber) :
    i ∈ s.into_iter ↔ s.has_number i = true :=
  SudokuNumbers.mem_get_numbers s i

theorem SudokuBlock.fixed_or_resolved_eq_some (blk : SudokuBlock) (v : SudokuNumber) :
    blk.fixed_or_resolved = some v ↔
      blk.status = .Fixed v ∨ blk.status = .Resolved v := by
  cases h : blk.status <;> simp [SudokuBlock.fixed_or_resolved, h]

/-! ### Container membership -/

theorem SudokuBoard.mem_row_indexes (r : SudokuNumber) (p : BlockIndex) :
    p ∈ SudokuBoard.row_indexes r ↔ p.row = r := by
  simp only [SudokuBoard.row_indexes, List.mem_map, List.mem_finRange]
  constructor
  · rintro ⟨c, -, rfl⟩; rfl
  · rintro rfl; exact ⟨p.col, trivial, rfl⟩

theorem SudokuBoard.mem_col_indexes (c : SudokuNumber) (p : BlockIndex) :
    p ∈ SudokuBoard.col_indexes c ↔ p.col = c := by
  simp only [SudokuBoard.col_indexes, List.mem_map, List.mem_finRange]
  constructor
  · rintro ⟨r, -, rfl⟩; rfl
  · rintro rfl; exact ⟨p.row, trivial, rfl⟩

theorem SudokuBoard.mem_square_indexes (sq : SudokuNumber) (p : BlockIndex) :
    p ∈ SudokuBoard.square_indexes sq ↔ p.square_number = sq := by
  simp only [SudokuBoard.square_indexes, List.mem_flatMap, List.mem_map, List.mem_finRange]
  constructor
  · rintro ⟨dr, -, dc, -, rfl⟩
    have hdr := dr.isLt
    have hdc := dc.isLt
    have hsq := sq.isLt
    simp only [BlockIndex.square_number]
    apply Fin.ext
    simp only
    omega
  · intro h
    cases p with
    | mk prow pcol =>
        have hr := prow.isLt
        have hc := pcol.isLt
        have hv : (prow.val / 3) * 3 + pcol.val / 3 = sq.val := congrArg Fin.val h
        refine ⟨⟨prow.val % 3, by omega⟩, trivial, ⟨pcol.val % 3, by omega⟩, trivial, ?_⟩
        simp only [BlockIndex.mk.injEq]
        refine ⟨Fin.ext ?_, Fin.ext ?_⟩ <;> simp only [Fin.val_mk] <;> omega

theorem SudokuBoard.mem_all_indexes (p : BlockIndex) : p ∈ SudokuBoard.all_indexes := by
  simp only [SudokuBoard.all_indexes, List.mem_flatMap, List.mem_map, List.mem_finRange]
  exact ⟨p.row, trivial, p.col, trivial, rfl⟩

/-- Membership in a container's `get_numbers`: exactly the values of
`Fixed`/`Resolved` blocks mapped from the given positions. -/
theorem SudokuBoard.has_get_numbers_map (b : SudokuBoard) (l : List BlockIndex)
    (v : SudokuNumber) :
    (SudokuBoard.get_numbers (l.map b)).has_number v = true ↔
      ∃ p ∈ l, (b p).status = .Fixed v ∨ (b p).status = .Resolved v := by
  rw [SudokuBoard.get_numbers, SudokuNumbers.has_new]
  simp only [List.mem_filterMap, List.mem_map]
  constructor
  · rintro ⟨blk, ⟨p, hp, rfl⟩, hfr⟩
    exact ⟨p, hp, (SudokuBlock.fixed_or_resolved_eq_some _ _).mp hfr⟩
  · rintro ⟨p, hp, hv⟩
    exact ⟨b p, ⟨p, hp, rfl⟩, (SudokuBlock.fixed_or_resolved_eq_some _ _).mpr hv⟩

/-- C2 (claim formalisation): `get_block_possible_numbers` is exactly all
nine values minus those held by `Fixed`/`Resolved` cells sharing the
row, column or box of the queried address. -/
theorem SudokuBoard.has_get_block_possible_numbers (b : SudokuBoard) (index : BlockIndex)
    (v : SudokuNumber) :
    (SudokuBoard.get_block_possible_numbers b index).has_number v = true ↔
      ¬ ∃ p : BlockIndex,
        (p.row = index.row ∨ p.col = index.col ∨ p.square_number = index.square_number) ∧
          ((b p).status = .Fixed v ∨ (b p).status = .Resolved v) := by
  rw [SudokuBoard.get_block_possible_numbers, SudokuNumbers.has_del_numbers]
  simp only [List.mem_append, SudokuNumbers.mem_into_iter, SudokuBoard.get_row,
    SudokuBoard.get_col, SudokuBoard.get_square, SudokuBoard.has_get_numbers_map,
    SudokuBoard.mem_row_indexes, SudokuBoard.mem_col_indexes,
    SudokuBoard.mem_square_indexes]
  simp only [show SudokuNumbers.new_all.has_number v = true from rfl, true_and]
  constructor
  · rintro h ⟨p, hcont, hval⟩
    rcases hcont with hc | hc | hc
    · exact h (Or.inl (Or.inl ⟨p, hc, hval⟩))
    · exact h (Or.inl (Or.inr ⟨p, hc, hval⟩))
    · exact h (Or.inr ⟨p, hc, hval⟩)
  · rintro h ((⟨p, hc, hval⟩ | ⟨p, hc, hval⟩) | ⟨p, hc, hval⟩)
    · exact h ⟨p, Or.inl hc, hval⟩
    · exact h ⟨p, Or.inr (Or.inl hc), hval⟩
    · exact h ⟨p, Or.inr (Or.inr hc), hval⟩

/-! ### find_mistakes / verify_board characterization -/

theorem SudokuBoard.dedupConsec_eq_nil_iff {α : Type} [DecidableEq α] (l : List α) :
    SudokuBoard.dedupConsec l = [] ↔ l = [] := by
  induction l with
  | nil => simp [SudokuBoard.dedupConsec]
  | cons a t _ =>
      cases h : SudokuBoard.dedupConsec t <;> simp only [SudokuBoard.dedupConsec, h]
      · simp
      · split <;> simp

theorem SudokuBlock.status_filter_iff (f : SudokuBlock) (n : SudokuNumber) :
    ((f.is_fixed || f.is_resolved) = true ∧
        (match f.status with
          | .Fixed m => decide (m = n)
          | .Resolved m => decide (m = n)
          | _ => false) = true) ↔
      (f.status = .Fixed n ∨ f.status = .Resolved n) := by
  cases h : f.status <;>
    simp [SudokuBlock.is_fixed, SudokuBlock.is_resolved, SudokuBlockStatus.is_fixed,
      SudokuBlockStatus.is_resolved, h]

theorem SudokuBoard.mem_find_similar (b : SudokuBoard) (n : SudokuNumber)
    (l : List BlockIndex) (g : BlockIndex) (q : BlockIndex) :
    q ∈ SudokuBoard.find_similar_in_container n (l.map b) (some g) ↔
      ∃ p ∈ l, (b p).index = q ∧ (b p).index ≠ g ∧
        ((b p).status = .Fixed n ∨ (b p).status = .Resolved n) := by
  unfold SudokuBoard.find_similar_in_container
  simp only [List.mem_map, List.mem_filter]
  constructor
  · rintro ⟨f, ⟨⟨⟨⟨p, hp, rfl⟩, hA⟩, hB⟩, hC⟩, hq⟩
    refine ⟨p, hp, hq, by simpa using hB, ?_⟩
    exact (SudokuBlock.status_filter_iff (b p) n).mp ⟨hA, hC⟩
  · rintro ⟨p, hp, hq, hne, hheld⟩
    obtain ⟨hA, hC⟩ := (SudokuBlock.status_filter_iff (b p) n).mpr hheld
    exact ⟨b p, ⟨⟨⟨⟨p, hp, rfl⟩, hA⟩, by simpa using hne⟩, hC⟩, hq⟩

theorem SudokuBoard.find_mistakes_eq_none_iff (b : SudokuBoard) (hic : IndexConsistent b)
    (index : BlockIndex) (n : SudokuNumber) :
    SudokuBoard.find_mistakes b index n = none ↔
      ¬ ∃ q : BlockIndex, q ≠ index ∧
        (q.row = index.row ∨ q.col = index.col ∨ q.square_number = index.square_number) ∧
        ((b q).status = .Fixed n ∨ (b q).status = .Resolved n) := by
  have hsim : ∀ (l : List BlockIndex) (q : BlockIndex),
      q ∈ SudokuBoard.find_similar_in_container n (l.map b) (some index) ↔
        q ∈ l ∧ q ≠ index ∧ ((b q).status = .Fixed n ∨ (b q).status = .Resolved n) := by
    intro l q
    rw [SudokuBoard.mem_find_similar]
    constructor
    · rintro ⟨p, hp, hpq, hne, hheld⟩
      rw [hic p] at hpq hne
      subst hpq
      exact ⟨hp, hne, hheld⟩
    · rintro ⟨hq, hne, hheld⟩
      refine ⟨q, hq, hic q, ?_, hheld⟩
      rw [hic q]
      exact hne
  unfold SudokuBoard.find_mistakes
  simp only [SudokuBoard.get_row, SudokuBoard.get_col, SudokuBoard.get_square]
  constructor
  · intro hnone
    have hempty : SudokuBoard.dedupConsec
        (SudokuBoard.find_similar_in_container n ((SudokuBoard.row_indexes index.row).map b)
            (some index) ++
          SudokuBoard.find_similar_in_container n ((SudokuBoard.col_indexes index.col).map b)
            (some index) ++
          SudokuBoard.find_similar_in_container n
            ((SudokuBoard.square_indexes index.square_number).map b) (some index)) = [] := by
      by_contra hne
      simp only [List.isEmpty_iff, hne, if_false] at hnone
      exact Option.some_ne_none _ hnone
    rw [SudokuBoard.dedupConsec_eq_nil_iff, List.append_eq_nil, List.append_eq_nil] at hempty
    rintro ⟨q, hqne, hcont, hheld⟩
    rcases hcont with hc | hc | hc
    · have : q ∈ SudokuBoard.find_similar_in_container n
          ((SudokuBoard.row_indexes index.row).map b) (some index) :=
        (hsim _ q).mpr ⟨(SudokuBoard.mem_row_indexes _ q).mpr hc, hqne, hheld⟩
      rw [hempty.1.1] at this
      exact absurd this (List.not_mem_nil q)
    · have : q ∈ SudokuBoard.find_similar_in_container n
          ((SudokuBoard.col_indexes index.col).map b) (some index) :=
        (hsim _ q).mpr ⟨(SudokuBoard.mem_col_indexes _ q).mpr hc, hqne, hheld⟩
      rw [hempty.1.2] at this
      exact absurd this (List.not_mem_nil q)
    · have : q ∈ SudokuBoard.find_similar_in_container n
          ((SudokuBoard.square_indexes index.square_number).map b) (some index) :=
        (hsim _ q).mpr ⟨(SudokuBoard.mem_square_indexes _ q).mpr hc, hqne, hheld⟩
      rw [hempty.2] at this
      exact absurd this (List.not_mem_nil q)
  · intro hno
    have hempty : (SudokuBoard.find_similar_in_container n
          ((SudokuBoard.row_indexes index.row).map b) (some index) ++
        SudokuBoard.find_similar_in_container n ((SudokuBoard.col_indexes index.col).map b)
          (some index) ++
        SudokuBoard.find_similar_in_container n
          ((SudokuBoard.square_indexes index.square_number).map b) (some index)) = [] := by
      rw [List.eq_nil_iff_forall_not_mem]
      intro q hq
      simp only [List.mem_append] at hq
      rcases hq with (hq | hq) | hq
      · obtain ⟨hmem, hqne, hheld⟩ := (hsim _ q).mp hq
        exact hno ⟨q, hqne, Or.inl ((SudokuBoard.mem_row_indexes _ q).mp hmem), hheld⟩
      · obtain ⟨hmem, hqne, hheld⟩ := (hsim _ q).mp hq
        exact hno ⟨q, hqne, Or.inr (Or.inl ((SudokuBoard.mem_col_indexes _ q).mp hmem)), hheld⟩
      · obtain ⟨hmem, hqne, hheld⟩ := (hsim _ q).mp hq
        exact hno ⟨q, hqne, Or.inr (Or.inr ((SudokuBoard.mem_square_indexes _ q).mp hmem)),
          hheld⟩
    rw [hempty]
    simp [SudokuBoard.dedupConsec]

/-! ### Claim C2 -/

/-- C2: for every board and address, `get_block_possible_numbers` returns
exactly the set of all nine values minus the union of the values held by
every `Fixed`/`Resolved` cell in that address's row, column, or box (so
in particular it never contains a value held by such a peer). -/
theorem c2_possible_values_exact (b : SudokuBoard) (index : BlockIndex) (v : SudokuNumber) :
    (SudokuBoard.get_block_possible_numbers b index).has_number v = true ↔
      ¬ ∃ p : BlockIndex,
        (p.row = index.row ∨ p.col = index.col ∨ p.square_number = index.square_number) ∧
          ((b p).status = .Fixed v ∨ (b p).status = .Resolved v) :=
  SudokuBoard.has_get_block_possible_numbers b index v

/-! ### Claim C5 -/

/-- C5 counterexample: on `c5_board`, `verify_board` is false although no
two distinct `Resolved` cells share a value in any container — the false
result comes from a `Resolved` cell duplicating a `Fixed` cell. -/
theorem c5_counterexample :
    SudokuBoard.verify_board c5_board = false ∧
      ¬ ∃ (i j : BlockIndex) (n : SudokuNumber), i ≠ j ∧
        (c5_board i).status = .Resolved n ∧ (c5_board j).status = .Resolved n ∧
        (i.row = j.row ∨ i.col = j.col ∨ i.square_number = j.square_number) := by
  refine ⟨by decide, ?_⟩
  rintro ⟨i, j, n, hij, hi, hj, -⟩
  have huniq : ∀ (p : BlockIndex) (m : SudokuNumber),
      (c5_board p).status = .Resolved m → p = ⟨0, 1⟩ := by decide
  exact hij ((huniq i n hi).trans (huniq j n hj).symm)

/-- C5 (amended): for every board with consistent stored indexes,
`verify_board` returns false iff some `Resolved` cell has a distinct
`Fixed`-or-`Resolved` peer in its row, column or box holding the same
value (a duplicate against a `Fixed` given also makes it false, not only
a pair of `Resolved` cells). -/
theorem c5_verify_board_false_iff (b : SudokuBoard) (hic : IndexConsistent b) :
    SudokuBoard.verify_board b = false ↔
      ∃ (index q : BlockIndex) (n : SudokuNumber),
        (b index).status = .Resolved n ∧ q ≠ index ∧
        (q.row = index.row ∨ q.col = index.col ∨ q.square_number = index.square_number) ∧
        ((b q).status = .Fixed n ∨ (b q).status = .Resolved n) := by
  constructor
  · intro hfalse
    have hne : ¬ (SudokuBoard.verify_board b = true) := by rw [hfalse]; simp
    rw [SudokuBoard.verify_board, List.all_eq_true] at hne
    push_neg at hne
    obtain ⟨index, -, hfail⟩ := hne
    rcases hstat : (b index).status with _ | m | m | pp
    · simp only [SudokuBoard.get_block, hstat] at hfail
      exact absurd rfl hfail
    · simp only [SudokuBoard.get_block, hstat] at hfail
      exact absurd rfl hfail
    · simp only [SudokuBoard.get_block, hstat] at hfail
      have hnn : ¬ ¬ ∃ q : BlockIndex, q ≠ index ∧
          (q.row = index.row ∨ q.col = index.col ∨
            q.square_number = index.square_number) ∧
          ((b q).status = .Fixed m ∨ (b q).status = .Resolved m) := by
        intro hno
        exact hfail (by
          rw [Option.isNone_iff_eq_none]
          exact (SudokuBoard.find_mistakes_eq_none_iff b hic index m).mpr hno)
      obtain ⟨q, hqne, hcont, hheld⟩ := not_not.mp hnn
      exact ⟨index, q, m, hstat, hqne, hcont, hheld⟩
    · simp only [SudokuBoard.get_block, hstat] at hfail
      exact absurd rfl hfail
  · rintro ⟨index, q, n, hres, hqne, hcont, hheld⟩
    cases hv : SudokuBoard.verify_board b with
    | false => rfl
    | true =>
        exfalso
        rw [SudokuBoard.verify_board, List.all_eq_true] at hv
        have hidx := hv index (SudokuBoard.mem_all_indexes index)
        simp only [SudokuBoard.get_block, hres] at hidx
        rw [Option.isNone_iff_eq_none] at hidx
        exact (SudokuBoard.find_mistakes_eq_none_iff b hic index n).mp hidx
          ⟨q, hqne, hcont, hheld⟩

/-- C5 witness: the amended characterization applied to `c5_board`. -/
theorem c5_witness :
    IndexConsistent c5_board ∧
      (SudokuBoard.verify_board c5_board = false ↔
        ∃ (index q : BlockIndex) (n : SudokuNumber),
          (c5_board index).status = .Resolved n ∧ q ≠ index ∧
          (q.row = index.row ∨ q.col = index.col ∨
            q.square_number = index.square_number) ∧
          ((c5_board q).status = .Fixed n ∨ (c5_board q).status = .Resolved n)) :=
  ⟨by decide, c5_verify_board_false_iff c5_board (by decide)⟩

/-! ### Construction: fill_board_u8 / from_u8 -/

theorem SudokuNumber.tryFrom_of_ok {v : Nat} (h : cell_ok (some v) = true) :
    ∃ n : SudokuNumber, SudokuNumber.tryFrom v = some n := by
  have hb : 1 ≤ v ∧ v ≤ 9 := by simpa [cell_ok] using h
  exact ⟨⟨v - 1, by omega⟩, by simp [SudokuNumber.tryFrom, hb]⟩

theorem SudokuNumber.tryFrom_eq_none {v : Nat} (h : cell_ok (some v) = false) :
    SudokuNumber.tryFrom v = none := by
  have hb : ¬ (1 ≤ v ∧ v ≤ 9) := by simpa [cell_ok] using h
  simp [SudokuNumber.tryFrom, hb]

/-- The per-slot template block written by `fill_board_u8` (under a valid
slot, `getD` never applies its default). -/
def fill_template (g : Fin 9 → Fin 9 → Option Nat) (q : BlockIndex) : SudokuBlock :=
  match g q.row q.col with
  | some v => SudokuBlock.new q.row q.col (.Fixed ((SudokuNumber.tryFrom v).getD 0))
  | none => SudokuBlock.new q.row q.col .Unresolved

theorem SudokuBoard.fill_go_ok_spec (g : Fin 9 → Fin 9 → Option Nat) (l : List BlockIndex)
    (bd : SudokuBoard) (h : ∀ p ∈ l, cell_ok (g p.row p.col) = true) :
    (SudokuBoard.fill_board_u8_go g l bd).2 = .ok () ∧
      ∀ q : BlockIndex, (SudokuBoard.fill_board_u8_go g l bd).1 q =
        if q ∈ l then fill_template g q else bd q := by
  induction l generalizing bd with
  | nil => simp [SudokuBoard.fill_board_u8_go]
  | cons p rest ih =>
      have hp := h p (List.mem_cons_self p rest)
      have hrest := fun q hq => h q (List.mem_cons_of_mem p hq)
      have hstep : ∀ blk : SudokuBlock, blk = fill_template g p →
          (SudokuBoard.fill_board_u8_go g rest (SudokuBoard.set_block bd p blk)).2 = .ok () ∧
            ∀ q : BlockIndex,
              (SudokuBoard.fill_board_u8_go g rest (SudokuBoard.set_block bd p blk)).1 q =
                if q ∈ p :: rest then fill_template g q else bd q := by
        rintro blk rfl
        obtain ⟨hok, hq⟩ := ih (SudokuBoard.set_block bd p (fill_template g p)) hrest
        refine ⟨hok, fun q => ?_⟩
        rw [hq q]
        by_cases hql : q ∈ rest
        · simp [hql, List.mem_cons]
        · by_cases hqp : q = p
          · subst hqp
            simp [hql, SudokuBoard.set_block, List.mem_cons]
          · simp [hql, hqp, SudokuBoard.set_block, List.mem_cons]
      cases hg : g p.row p.col with
      | none =>
          have := hstep (SudokuBlock.new p.row p.col .Unresolved)
            (by simp [fill_template, hg])
          simpa only [SudokuBoard.fill_board_u8_go, hg] using this
      | some v =>
          rw [hg] at hp
          obtain ⟨n, hn⟩ := SudokuNumber.tryFrom_of_ok hp
          have := hstep (SudokuBlock.new p.row p.col (.Fixed n))
            (by simp [fill_template, hg, hn])
          simpa only [SudokuBoard.fill_board_u8_go, hg, hn] using this

theorem SudokuBoard.fill_go_err (g : Fin 9 → Fin 9 → Option Nat) (l : List BlockIndex)
    (bd : SudokuBoard) (h : ∃ p ∈ l, cell_ok (g p.row p.col) = false) :
    (SudokuBoard.fill_board_u8_go g l bd).2 = .error () := by
  induction l generalizing bd with
  | nil => simp at h
  | cons p rest ih =>
      by_cases hp : cell_ok (g p.row p.col) = true
      · have hrest : ∃ q ∈ rest, cell_ok (g q.row q.col) = false := by
          obtain ⟨q, hq, hv⟩ := h
          rcases List.mem_cons.mp hq with rfl | hq'
          · exact absurd hp (by simp [hv])
          · exact ⟨q, hq', hv⟩
        cases hg : g p.row p.col with
        | none =>
            simpa only [SudokuBoard.fill_board_u8_go, hg] using ih _ hrest
        | some v =>
            rw [hg] at hp
            obtain ⟨n, hn⟩ := SudokuNumber.tryFrom_of_ok hp
            simpa only [SudokuBoard.fill_board_u8_go, hg, hn] using ih _ hrest
      · rw [Bool.not_eq_true] at hp
        cases hg : g p.row p.col with
        | none => rw [hg] at hp; simp [cell_ok] at hp
        | some v =>
            rw [hg] at hp
            have hn := SudokuNumber.tryFrom_eq_none hp
            simp only [SudokuBoard.fill_board_u8_go, hg, hn]

/-! ### Claim C8 -/

/-- C8 counterexample: `from_u8` does not reject the invalid template
with a typed error — it `unwrap`s the failing `fill_board_u8`, which is a
panic (modelled as `none`), even though the grid's only flaw is one
out-of-range raw value. -/
theorem c8_counterexample :
    SudokuBoard.from_u8 c8_invalid_grid = none ∧ c8_invalid_grid 0 1 = some 0 := by
  constructor
  · have herr : (SudokuBoard.fill_board_u8 SudokuBoard.default_board c8_invalid_grid).2 =
        .error () := by
      refine SudokuBoard.fill_go_err _ _ _ ⟨⟨0, 1⟩, SudokuBoard.mem_all_indexes _, ?_⟩
      decide
    rw [SudokuBoard.from_u8]
    simp only [herr]
  · decide

/-- C8 (amended): `fill_board_u8` returns a typed error exactly when the
template holds a value outside 1..=9, and on valid templates it succeeds
with the supplied cells `Fixed` and the rest `Unresolved`; `from_u8`
succeeds exactly on valid templates and panics (`unwrap`, modelled as
`none`) on invalid ones instead of returning the error. -/
theorem c8_construction_behavior (b : SudokuBoard) (g : Fin 9 → Fin 9 → Option Nat) :
    ((SudokuBoard.fill_board_u8 b g).2 = .error () ↔ ¬ grid_valid g) ∧
      (SudokuBoard.from_u8 g = none ↔ ¬ grid_valid g) ∧
      (grid_valid g →
        ∀ q : BlockIndex,
          match g q.row q.col with
          | some v => ∃ n, SudokuNumber.tryFrom v = some n ∧
              ((SudokuBoard.fill_board_u8 b g).1 q).status = .Fixed n
          | none => ((SudokuBoard.fill_board_u8 b g).1 q).status = .Unresolved) := by
  have hfill : ∀ bd : SudokuBoard, (SudokuBoard.fill_board_u8 bd g).2 = .error () ↔
      ¬ grid_valid g := by
    intro bd
    constructor
    · intro herr hval
      have := (SudokuBoard.fill_go_ok_spec g SudokuBoard.all_indexes bd
        (fun p _ => hval p.row p.col)).1
      rw [SudokuBoard.fill_board_u8] at herr
      rw [this] at herr
      exact Except.noConfusion herr
    · intro hval
      rw [grid_valid] at hval
      push_neg at hval
      obtain ⟨r, c, hrc⟩ := hval
      exact SudokuBoard.fill_go_err g _ bd
        ⟨⟨r, c⟩, SudokuBoard.mem_all_indexes _, Bool.not_eq_true _ ▸ hrc⟩
  refine ⟨hfill b, ?_, ?_⟩
  · constructor
    · intro hnone
      cases herr : (SudokuBoard.fill_board_u8 SudokuBoard.default_board g).2 with
      | ok u =>
          rw [SudokuBoard.from_u8] at hnone
          simp only [herr] at hnone
          exact Option.noConfusion hnone
      | error e =>
          cases e
          exact (hfill SudokuBoard.default_board).mp herr
    · intro hval
      rw [SudokuBoard.from_u8]
      simp only [(hfill SudokuBoard.default_board).mpr hval]
  · intro hval q
    obtain ⟨-, hspec⟩ := SudokuBoard.fill_go_ok_spec g SudokuBoard.all_indexes b
      (fun p _ => hval p.row p.col)
    have hq := hspec q
    rw [if_pos (SudokuBoard.mem_all_indexes q)] at hq
    rw [SudokuBoard.fill_board_u8, hq]
    cases hg : g q.row q.col with
    | none => simp [fill_template, hg, SudokuBlock.new]
    | some v =>
        have hv := hval q.row q.col
        rw [hg] at hv
        obtain ⟨n, hn⟩ := SudokuNumber.tryFrom_of_ok hv
        exact ⟨n, hn, by simp [fill_template, hg, hn, SudokuBlock.new]⟩

/-- C8 witness: the amended behaviour at a concrete valid template (a
given 5 at (1,1)) and the concrete prior board. -/
theorem c8_witness :
    grid_valid c8_valid_grid ∧
      (match c8_valid_grid (0 : Fin 9) (0 : Fin 9) with
        | some v => ∃ n, SudokuNumber.tryFrom v = some n ∧
            ((SudokuBoard.fill_board_u8 SudokuBoard.default_board c8_valid_grid).1
              ⟨0, 0⟩).status = .Fixed n
        | none => ((SudokuBoard.fill_board_u8 SudokuBoard.default_board c8_valid_grid).1
            ⟨0, 0⟩).status = .Unresolved) :=
  ⟨by decide,
    (c8_construction_behavior SudokuBoard.default_board c8_valid_grid).2.2 (by decide) ⟨0, 0⟩⟩

/-! ### Claim C10 -/

/-- C10: `fill_board_u8` is not atomic on failure — on the template with
a valid 5 at (1,1) followed by a raw 0 at (1,2) it returns the error,
yet the cell preceding the invalid entry (the only one, in row-major
order) has already been overwritten with the template's content, and no
other cell of the prior board was touched. -/
theorem c10_fill_board_u8_not_atomic :
    (SudokuBoard.fill_board_u8 SudokuBoard.default_board c8_invalid_grid).2 = .error () ∧
      ((SudokuBoard.fill_board_u8 SudokuBoard.default_board c8_invalid_grid).1
          ⟨0, 0⟩).status = .Fixed 4 ∧
      (SudokuBoard.default_board ⟨0, 0⟩).status = .Unresolved ∧
      (∀ p : BlockIndex, p ≠ ⟨0, 0⟩ →
        (SudokuBoard.fill_board_u8 SudokuBoard.default_board c8_invalid_grid).1 p =
          SudokuBoard.default_board p) := by
  refine ⟨?_, by decide, by decide, by decide⟩
  exact SudokuBoard.fill_go_err _ _ _ ⟨⟨0, 1⟩, SudokuBoard.mem_all_indexes _, by decide⟩

/-! ### Status and index preservation -/

/-- Two boards with the same statuses and stored indexes everywhere
(only conflict tags may differ). -/
def StatusIndexEq (b b' : SudokuBoard) : Prop :=
  ∀ p : BlockIndex, (b' p).status = (b p).status ∧ (b' p).index = (b p).index

theorem StatusIndexEq.refl (b : SudokuBoard) : StatusIndexEq b b := fun _ => ⟨rfl, rfl⟩

theorem StatusIndexEq.trans {a b c : SudokuBoard} (h1 : StatusIndexEq a b)
    (h2 : StatusIndexEq b c) : StatusIndexEq a c := fun p =>
  ⟨(h2 p).1.trans (h1 p).1, (h2 p).2.trans (h1 p).2⟩

theorem StatusIndexEq.clear_all_previous_conflicts (b : SudokuBoard) (index : BlockIndex) :
    StatusIndexEq b (SudokuBoard.clear_all_previous_conflicts b index) := by
  intro p
  unfold SudokuBoard.clear_all_previous_conflicts
  dsimp only
  split <;> exact ⟨rfl, rfl⟩

theorem StatusIndexEq.clear_affected_by_conflicts (b : SudokuBoard) (index : BlockIndex) :
    StatusIndexEq b (SudokuBoard.clear_affected_by_conflicts b index) := by
  intro p
  unfold SudokuBoard.clear_affected_by_conflicts
  dsimp only
  split <;> exact ⟨rfl, rfl⟩

theorem StatusIndexEq.clear_affected_by_possibilities_conflicts (b : SudokuBoard)
    (index : BlockIndex) (pos : SudokuNumber) :
    StatusIndexEq b (SudokuBoard.clear_affected_by_possibilities_conflicts b index pos) := by
  intro p
  unfold SudokuBoard.clear_affected_by_possibilities_conflicts
  dsimp only
  split <;> exact ⟨rfl, rfl⟩

theorem StatusIndexEq.set_conflicting (b : SudokuBoard) (index : BlockIndex)
    (c : Option Conflicting) :
    StatusIndexEq b
      (SudokuBoard.set_block b index { SudokuBoard.get_block b index with conflicting := c }) := by
  intro p
  unfold SudokuBoard.set_block SudokuBoard.get_block
  dsimp only
  split
  · next hp => subst hp; exact ⟨rfl, rfl⟩
  · exact ⟨rfl, rfl⟩

theorem StatusIndexEq.tag_foldl {β : Type} (l : List β) (pick : β → BlockIndex)
    (keep : β → Bool) (c : β → Option Conflicting) (b : SudokuBoard)
    (step : SudokuBoard → β → SudokuBoard)
    (hstep : ∀ bd x, step bd x = if keep x then
      SudokuBoard.set_block bd (pick x)
        { SudokuBoard.get_block bd (pick x) with conflicting := c x } else bd) :
    StatusIndexEq b (l.foldl step b) := by
  induction l generalizing b with
  | nil => exact StatusIndexEq.refl b
  | cons x t ih =>
      refine StatusIndexEq.trans ?_ (ih (step b x))
      rw [hstep b x]
      split
      · exact StatusIndexEq.set_conflicting b (pick x) (c x)
      · exact StatusIndexEq.refl b

theorem StatusIndexEq.mark_conflicts_resolved (b : SudokuBoard) (index : BlockIndex) :
    StatusIndexEq b (SudokuBoard.mark_conflicts_resolved b index).1 := by
  unfold SudokuBoard.mark_conflicts_resolved
  cases hfm : SudokuBoard.find_resolved_block_mistakes
      (SudokuBoard.clear_all_previous_conflicts b index) index with
  | none =>
      simp only [hfm]
      exact StatusIndexEq.trans (StatusIndexEq.clear_all_previous_conflicts b index)
        (StatusIndexEq.set_conflicting _ index none)
  | some affected =>
      simp only [hfm]
      refine StatusIndexEq.trans (StatusIndexEq.clear_all_previous_conflicts b index) ?_
      refine StatusIndexEq.trans (StatusIndexEq.set_conflicting _ index (some .Source)) ?_
      exact StatusIndexEq.tag_foldl affected id (fun a => !decide (a = index))
        (fun _ => some (.AffectedBy index)) _
        (fun bd affected =>
          if affected = index then bd
          else SudokuBoard.set_block bd affected
            { SudokuBoard.get_block bd affected with
              conflicting := some (.AffectedBy index) })
        (fun bd a => by by_cases ha : a = index <;> simp [ha])

theorem StatusIndexEq.mark_conflicts_unresolved (b : SudokuBoard) (index : BlockIndex) :
    StatusIndexEq b (SudokuBoard.mark_conflicts_unresolved b index).1 := by
  unfold SudokuBoard.mark_conflicts_unresolved
  dsimp only
  exact StatusIndexEq.trans (StatusIndexEq.set_conflicting b index none)
    (StatusIndexEq.clear_all_previous_conflicts _ index)

theorem StatusIndexEq.mark_all_conflicts_step (acc : SudokuBoard × Bool)
    (index : BlockIndex) :
    StatusIndexEq acc.1 (SudokuBoard.mark_all_conflicts_step acc index).1 := by
  unfold SudokuBoard.mark_all_conflicts_step
  rcases hstat : (SudokuBoard.get_block acc.1 index).status with _ | m | m | pp <;>
    simp only [hstat]
  · exact StatusIndexEq.mark_conflicts_unresolved acc.1 index
  · exact StatusIndexEq.refl acc.1
  · exact StatusIndexEq.mark_conflicts_resolved acc.1 index
  · exact StatusIndexEq.refl acc.1

theorem StatusIndexEq.mark_all_conflicts (b : SudokuBoard) :
    StatusIndexEq b (SudokuBoard.mark_all_conflicts b).1 := by
  unfold SudokuBoard.mark_all_conflicts
  have hgen : ∀ (l : List BlockIndex) (acc : SudokuBoard × Bool),
      StatusIndexEq acc.1 (l.foldl SudokuBoard.mark_all_conflicts_step acc).1 := by
    intro l
    induction l with
    | nil => exact fun acc => StatusIndexEq.refl acc.1
    | cons x t ih =>
        intro acc
        simp only [List.foldl_cons]
        exact StatusIndexEq.trans (StatusIndexEq.mark_all_conflicts_step acc x)
          (ih (SudokuBoard.mark_all_conflicts_step acc x))
  exact hgen SudokuBoard.all_indexes (b, true)

/-- One `update_possibilities` step either leaves the board unchanged or
replaces an `Unresolved`/`Possibilities` status at its cell. -/
theorem SudokuBoard.update_possibilities_step_eq (bd : SudokuBoard) (x : BlockIndex) :
    SudokuBoard.update_possibilities_step bd x = bd ∨
      (((bd x).status = .Unresolved ∨ ∃ q, (bd x).status = .Possibilities q) ∧
        SudokuBoard.update_possibilities_step bd x = SudokuBoard.set_block bd x
          { bd x with
            status := .Possibilities
              (Possibilities.new (SudokuBoard.get_block_possible_numbers bd x)) }) := by
  unfold SudokuBoard.update_possibilities_step SudokuBoard.get_block
  rcases hstat : (bd x).status with _ | m | m | pp
  · exact Or.inr ⟨Or.inl rfl, rfl⟩
  · exact Or.inl rfl
  · exact Or.inl rfl
  · exact Or.inr ⟨Or.inr ⟨pp, rfl⟩, rfl⟩

/-- What `update_possibilities` does to statuses: indexes and conflict
tags are untouched; a cell's status is unchanged unless it was
`Unresolved` or `Possibilities`, in which case it becomes a (fresh)
`Possibilities`. -/
theorem SudokuBoard.update_possibilities_shape (b : SudokuBoard) :
    ∀ p : BlockIndex,
      ((SudokuBoard.update_possibilities b) p).index = (b p).index ∧
      ((SudokuBoard.update_possibilities b) p).conflicting = (b p).conflicting ∧
      (((SudokuBoard.update_possibilities b) p).status = (b p).status ∨
        (((b p).status = .Unresolved ∨ ∃ q, (b p).status = .Possibilities q) ∧
          ∃ q, ((SudokuBoard.update_possibilities b) p).status = .Possibilities q)) := by
  unfold SudokuBoard.update_possibilities
  have hgen : ∀ (l : List BlockIndex) (bd : SudokuBoard),
      (∀ p : BlockIndex,
        (bd p).index = (b p).index ∧ (bd p).conflicting = (b p).conflicting ∧
        ((bd p).status = (b p).status ∨
          (((b p).status = .Unresolved ∨ ∃ q, (b p).status = .Possibilities q) ∧
            ∃ q, (bd p).status = .Possibilities q))) →
      ∀ p : BlockIndex,
        ((l.foldl SudokuBoard.update_possibilities_step bd) p).index = (b p).index ∧
        ((l.foldl SudokuBoard.update_possibilities_step bd) p).conflicting =
          (b p).conflicting ∧
        (((l.foldl SudokuBoard.update_possibilities_step bd) p).status = (b p).status ∨
          (((b p).status = .Unresolved ∨ ∃ q, (b p).status = .Possibilities q) ∧
            ∃ q, ((l.foldl SudokuBoard.update_possibilities_step bd) p).status =
              .Possibilities q)) := by
    intro l
    induction l with
    | nil => intro bd h p; exact h p
    | cons x t ih =>
        intro bd h p
        simp only [List.foldl_cons]
        apply ih
        intro r
        rcases SudokuBoard.update_possibilities_step_eq bd x with heq | ⟨horig, heq⟩
        · rw [heq]; exact h r
        · rw [heq]
          by_cases hrx : r = x
          · subst hrx
            have horig' : (b r).status = .Unresolved ∨ ∃ q, (b r).status = .Possibilities q := by
              rcases (h r).2.2 with hsame | hcase
              · rw [← hsame]; exact horig
              · exact hcase.1
            refine ⟨?_, ?_, Or.inr ⟨horig', ?_⟩⟩
            · simpa [SudokuBoard.set_block] using (h r).1
            · simpa [SudokuBoard.set_block] using (h r).2.1
            · exact ⟨Possibilities.new (SudokuBoard.get_block_possible_numbers bd r),
                by simp [SudokuBoard.set_block]⟩
          · simpa [SudokuBoard.set_block, hrx] using h r
  exact hgen SudokuBoard.all_indexes b (fun p => ⟨rfl, rfl, Or.inl rfl⟩)

/-! ### Claim C6 -/

theorem SudokuBoard.resolve_satisfied_step_eq_self (b : SudokuBoard) (x : BlockIndex)
    (h : (b x).status.is_possibilities = false) :
    SudokuBoard.resolve_satisfied_step b x = b := by
  unfold SudokuBoard.resolve_satisfied_step SudokuBoard.get_block
  rcases hstat : (b x).status with _ | m | m | pp
  · rfl
  · rfl
  · rfl
  · rw [hstat] at h
    simp [SudokuBlockStatus.is_possibilities] at h

theorem SudokuBoard.resolve_fold_eq_self (b : SudokuBoard)
    (h : ∀ p : BlockIndex, (b p).status.is_possibilities = false) (l : List BlockIndex) :
    l.foldl SudokuBoard.resolve_satisfied_step b = b := by
  induction l with
  | nil => rfl
  | cons x t ih =>
      rw [List.foldl_cons, SudokuBoard.resolve_satisfied_step_eq_self b x (h x), ih]

/-- C6 counterexample: the default board has no `Possibilities` cell, yet
`resolve_satisfied_blocks` does not leave it unchanged — the final
`update_possibilities` turns cell (1,1) from `Unresolved` into a
`Possibilities` cell. -/
theorem c6_counterexample :
    (∀ p : BlockIndex, (SudokuBoard.default_board p).status.is_possibilities = false) ∧
      SudokuBoard.resolve_satisfied_blocks SudokuBoard.default_board ≠
        SudokuBoard.default_board := by
  refine ⟨by decide, fun heq => ?_⟩
  have hne : ((SudokuBoard.resolve_satisfied_blocks SudokuBoard.default_board)
      ⟨0, 0⟩).status ≠ (SudokuBoard.default_board ⟨0, 0⟩).status := by decide
  exact hne (by rw [heq])

/-- C6 (amended): on a board with no `Possibilities` (CandidateSet)
cells, `resolve_satisfied_blocks` resolves nothing: every cell keeps its
stored index and its status, except that an `Unresolved` cell may become
a `Possibilities` cell (and conflict tags may be recomputed); in
particular every `Fixed` and `Resolved` cell is exactly preserved in
status, so the call is not a no-op in general. -/
theorem c6_resolve_satisfied_frame (b : SudokuBoard)
    (h : ∀ p : BlockIndex, (b p).status.is_possibilities = false) :
    ∀ p : BlockIndex,
      ((SudokuBoard.resolve_satisfied_blocks b) p).index = (b p).index ∧
      (((SudokuBoard.resolve_satisfied_blocks b) p).status = (b p).status ∨
        ((b p).status = .Unresolved ∧
          ∃ q, ((SudokuBoard.resolve_satisfied_blocks b) p).status = .Possibilities q)) := by
  intro p
  unfold SudokuBoard.resolve_satisfied_blocks
  rw [SudokuBoard.resolve_fold_eq_self b h]
  cases hflag : (SudokuBoard.mark_all_conflicts b).2 with
  | false =>
      have hsie := StatusIndexEq.mark_all_conflicts b p
      exact ⟨hsie.2, Or.inl hsie.1⟩
  | true =>
      have hsie := StatusIndexEq.mark_all_conflicts b
      obtain ⟨hidx, -, hstat⟩ :=
        SudokuBoard.update_possibilities_shape (SudokuBoard.mark_all_conflicts b).1 p
      refine ⟨hidx.trans (hsie p).2, ?_⟩
      rcases hstat with hsame | ⟨horig, q, hq⟩
      · exact Or.inl (hsame.trans (hsie p).1)
      · rcases horig with hunres | ⟨q', hq'⟩
        · exact Or.inr ⟨((hsie p).1.symm.trans hunres), q, hq⟩
        · exfalso
          have := h p
          rw [← (hsie p).1, hq'] at this
          simp [SudokuBlockStatus.is_possibilities] at this

/-- C6 witness: the frame property applied to a concrete board without
`Possibilities` cells (`c5_board`). -/
theorem c6_witness :
    (∀ p : BlockIndex, (c5_board p).status.is_possibilities = false) ∧
      ∀ p : BlockIndex,
        ((SudokuBoard.resolve_satisfied_blocks c5_board) p).index = (c5_board p).index ∧
        (((SudokuBoard.resolve_satisfied_blocks c5_board) p).status = (c5_board p).status ∨
          ((c5_board p).status = .Unresolved ∧
            ∃ q, ((SudokuBoard.resolve_satisfied_blocks c5_board) p).status =
              .Possibilities q)) :=
  ⟨by decide, c6_resolve_satisfied_frame c5_board (by decide)⟩

/-! ### Preservation of Fixed (Given) cells -/

/-- The block at `p` is a `Fixed` (given) cell holding `n`. -/
def FixedAt (b : SudokuBoard) (p : BlockIndex) (n : SudokuNumber) : Prop :=
  (b p).status = .Fixed n

theorem FixedAt.of_status_index_eq {b b' : SudokuBoard} (hsie : StatusIndexEq b b')
    {p : BlockIndex} {n : SudokuNumber} (h : FixedAt b p n) : FixedAt b' p n :=
  (hsie p).1.trans h

theorem FixedAt.set_block {b : SudokuBoard} {index : BlockIndex} {blk : SudokuBlock}
    {p : BlockIndex} {n : SudokuNumber} (h : FixedAt b p n)
    (hblk : blk.status = (b index).status ∨ (b index).status.is_fixed = false) :
    FixedAt (SudokuBoard.set_block b index blk) p n := by
  unfold FixedAt SudokuBoard.set_block
  split
  · next hp =>
      subst hp
      rcases hblk with hsame | hnf
      · rw [hsame]; exact h
      · rw [h] at hnf
        simp [SudokuBlockStatus.is_fixed] at hnf
  · exact h

theorem FixedAt.modify_possibilities {b : SudokuBoard} {index : BlockIndex}
    {f : Possibilities → Possibilities} {p : BlockIndex} {n : SudokuNumber}
    (h : FixedAt b p n) : FixedAt (SudokuBoard.modify_possibilities b index f) p n := by
  unfold SudokuBoard.modify_possibilities SudokuBoard.get_block
  rcases hstat : (b index).status with _ | m | m | pp
  · exact h
  · exact h
  · exact h
  · exact FixedAt.set_block h (Or.inr (by rw [hstat]; rfl))

theorem FixedAt.foldl {β : Type} {l : List β} {f : SudokuBoard → β → SudokuBoard}
    (hf : ∀ (bd : SudokuBoard) (x : β) (p : BlockIndex) (n : SudokuNumber),
      FixedAt bd p n → FixedAt (f bd x) p n)
    {b : SudokuBoard} {p : BlockIndex} {n : SudokuNumber} (h : FixedAt b p n) :
    FixedAt (l.foldl f b) p n := by
  induction l generalizing b with
  | nil => exact h
  | cons x t ih => exact ih (hf b x p n h)

theorem FixedAt.mcp_step1 {b : SudokuBoard} {index : BlockIndex} {is_cleared : Bool}
    {p : BlockIndex} {n : SudokuNumber} (h : FixedAt b p n) :
    FixedAt (SudokuBoard.mcp_step1 b index is_cleared) p n := by
  unfold SudokuBoard.mcp_step1
  split
  · exact h
  · split
    · exact FixedAt.of_status_index_eq (StatusIndexEq.clear_affected_by_conflicts b index) h
    · exact h

theorem FixedAt.mcp_finish {step1 : SudokuBoard} {index : BlockIndex} {pos : SudokuNumber}
    {similar : List BlockIndex} {p : BlockIndex} {n : SudokuNumber}
    (h : FixedAt step1 p n) :
    FixedAt (SudokuBoard.mcp_finish step1 index pos similar).1 p n := by
  unfold SudokuBoard.mcp_finish
  split
  · exact FixedAt.of_status_index_eq
      (StatusIndexEq.clear_affected_by_possibilities_conflicts _ index pos)
      (FixedAt.modify_possibilities h)
  · refine FixedAt.foldl ?_ (FixedAt.modify_possibilities h)
    intro bd x q m hq
    exact FixedAt.set_block hq (Or.inl rfl)

theorem FixedAt.mark_conflicts_possibilities {b : SudokuBoard} {index : BlockIndex}
    {info : Option (SudokuNumber × Bool)} {p : BlockIndex} {n : SudokuNumber}
    (h : FixedAt b p n) :
    FixedAt (SudokuBoard.mark_conflicts_possibilities b index info).1 p n := by
  unfold SudokuBoard.mark_conflicts_possibilities
  rcases info with _ | ⟨pos, is_cleared⟩
  · exact h
  · exact FixedAt.mcp_finish (FixedAt.mcp_step1 h)

theorem FixedAt.mark_conflicts {b : SudokuBoard} {index : BlockIndex}
    {info : Option (SudokuNumber × Bool)} {p : BlockIndex} {n : SudokuNumber}
    (h : FixedAt b p n) : FixedAt (SudokuBoard.mark_conflicts b index info).1 p n := by
  unfold SudokuBoard.mark_conflicts
  rcases hstat : (SudokuBoard.get_block b index).status with _ | m | m | pp
  · exact FixedAt.of_status_index_eq (StatusIndexEq.mark_conflicts_unresolved b index) h
  · exact h
  · exact FixedAt.of_status_index_eq (StatusIndexEq.mark_conflicts_resolved b index) h
  · exact FixedAt.mark_conflicts_possibilities h

theorem FixedAt.update_possibilities {b : SudokuBoard} {p : BlockIndex} {n : SudokuNumber}
    (h : FixedAt b p n) : FixedAt (SudokuBoard.update_possibilities b) p n := by
  obtain ⟨-, -, hstat⟩ := SudokuBoard.update_possibilities_shape b p
  rcases hstat with hsame | ⟨horig, -⟩
  · exact hsame.trans h
  · exfalso
    rcases horig with hu | ⟨q, hq⟩
    · rw [h] at hu; exact SudokuBlockStatus.noConfusion hu
    · rw [h] at hq; exact SudokuBlockStatus.noConfusion hq

theorem SudokuBoard.resolve_satisfied_step_cases (bd : SudokuBoard) (x : BlockIndex) :
    SudokuBoard.resolve_satisfied_step bd x = bd ∨
      ∃ (pp : Sudoku.Possibilities) (single : SudokuNumber),
        (bd x).status = .Possibilities pp ∧
          SudokuBoard.resolve_satisfied_step bd x =
            SudokuBoard.set_block bd x { bd x with status := .Resolved single } := by
  unfold SudokuBoard.resolve_satisfied_step SudokuBoard.get_block
  rcases hstat : (bd x).status with _ | m | m | pp
  · exact Or.inl rfl
  · exact Or.inl rfl
  · exact Or.inl rfl
  · dsimp only
    by_cases hcnt : pp.numbers.count_numbers = 1
    · rw [if_pos hcnt]
      cases hiter : pp.numbers.iter with
      | nil => exact Or.inl rfl
      | cons single tail => exact Or.inr ⟨pp, single, rfl, rfl⟩
    · rw [if_neg hcnt]
      exact Or.inl rfl

theorem FixedAt.resolve_satisfied_step {bd : SudokuBoard} {x p : BlockIndex}
    {n : SudokuNumber} (h : FixedAt bd p n) :
    FixedAt (SudokuBoard.resolve_satisfied_step bd x) p n := by
  rcases SudokuBoard.resolve_satisfied_step_cases bd x with heq | ⟨pp, single, hstat, heq⟩
  · rw [heq]; exact h
  · rw [heq]
    exact FixedAt.set_block h (Or.inr (by rw [hstat]; rfl))

theorem FixedAt.resolve_satisfied_blocks {b : SudokuBoard} {p : BlockIndex}
    {n : SudokuNumber} (h : FixedAt b p n) :
    FixedAt (SudokuBoard.resolve_satisfied_blocks b) p n := by
  unfold SudokuBoard.resolve_satisfied_blocks
  have h1 : FixedAt (SudokuBoard.all_indexes.foldl SudokuBoard.resolve_satisfied_step b) p n :=
    FixedAt.foldl (fun bd x q m hq => FixedAt.resolve_satisfied_step hq) h
  have h2 : FixedAt (SudokuBoard.mark_all_conflicts
      (SudokuBoard.all_indexes.foldl SudokuBoard.resolve_satisfied_step b)).1 p n :=
    FixedAt.of_status_index_eq (StatusIndexEq.mark_all_conflicts _) h1
  show FixedAt
    (if (SudokuBoard.mark_all_conflicts
        (SudokuBoard.all_indexes.foldl SudokuBoard.resolve_satisfied_step b)).2 = true then
      SudokuBoard.update_possibilities
        (SudokuBoard.mark_all_conflicts
          (SudokuBoard.all_indexes.foldl SudokuBoard.resolve_satisfied_step b)).1
    else
      (SudokuBoard.mark_all_conflicts
        (SudokuBoard.all_indexes.foldl SudokuBoard.resolve_satisfied_step b)).1) p n
  split
  · exact FixedAt.update_possibilities h2
  · exact h2

theorem FixedAt.reset {b : SudokuBoard} {p : BlockIndex} {n : SudokuNumber}
    (h : FixedAt b p n) : FixedAt (SudokuBoard.reset b) p n := by
  unfold FixedAt SudokuBoard.reset
  dsimp only
  rw [show (b p).is_fixed = true from by rw [SudokuBlock.is_fixed, h]; rfl]
  exact h

theorem FixedAt.hidden_single_step {b : SudokuBoard} {rc : SudokuNumber × SudokuNumber}
    {flag : Bool} {p : BlockIndex} {n : SudokuNumber} (h : FixedAt b p n) :
    FixedAt (hidden_single_step b rc flag) p n := by
  obtain ⟨row, col⟩ := rc
  unfold Sudoku.hidden_single_step
  dsimp only
  cases hidden_number_choice b row col with
  | none => exact h
  | some hidden =>
      dsimp only
      refine FixedAt.foldl ?_ (FixedAt.foldl ?_ (FixedAt.foldl ?_
        (FixedAt.modify_possibilities h))) <;>
        (intro bd2 x q m hq
         split <;> first
           | exact FixedAt.modify_possibilities hq
           | exact hq)

theorem FixedAt.hidden_single_update {b : SudokuBoard} {flag : Bool} {p : BlockIndex}
    {n : SudokuNumber} (h : FixedAt b p n) :
    FixedAt (HiddenSingleStrategy.update_possible_numbers b flag) p n := by
  unfold HiddenSingleStrategy.update_possible_numbers
  exact FixedAt.foldl (fun bd x q m hq => FixedAt.hidden_single_step hq) h

theorem FixedAt.naked_pair_row {b : SudokuBoard} {index : SudokuNumber} {flag : Bool}
    {p : BlockIndex} {n : SudokuNumber} (h : FixedAt b p n) :
    FixedAt (naked_pair_row b index flag) p n := by
  unfold Sudoku.naked_pair_row
  dsimp only
  refine FixedAt.foldl ?_ h
  intro bd numbers q m hq
  split
  · refine FixedAt.foldl ?_ hq
    intro bd2 x r mm hr
    split
    · exact FixedAt.modify_possibilities hr
    · exact hr
  · exact hq

theorem FixedAt.naked_pair_update {b : SudokuBoard} {flag : Bool} {p : BlockIndex}
    {n : SudokuNumber} (h : FixedAt b p n) :
    FixedAt (NakedPairStrategy.update_possible_numbers b flag) p n := by
  unfold NakedPairStrategy.update_possible_numbers
  exact FixedAt.foldl (fun bd x q m hq => FixedAt.naked_pair_row hq) h

theorem FixedAt.toggle_candidate {b : SudokuBoard} {index : BlockIndex}
    {number : SudokuNumber} {p : BlockIndex} {n : SudokuNumber} (h : FixedAt b p n) :
    FixedAt (toggle_candidate b index number) p n := by
  unfold Sudoku.toggle_candidate
  rcases hstat : (SudokuBoard.get_block b index).status with _ | m | m | pos
  · exact FixedAt.mark_conflicts (FixedAt.set_block h (Or.inr (by
      rw [SudokuBoard.get_block] at hstat
      rw [hstat]; rfl)))
  · exact h
  · exact FixedAt.mark_conflicts (FixedAt.set_block h (Or.inr (by
      rw [SudokuBoard.get_block] at hstat
      rw [hstat]; rfl)))
  · rw [SudokuBoard.get_block] at hstat
    show FixedAt
      (if pos.numbers.has_number number = true then
        if ({ pos with numbers := pos.numbers.del_number number} :
            Possibilities).numbers.count_numbers = 0 then
          (SudokuBoard.mark_conflicts
            (SudokuBoard.set_block b index
              { SudokuBoard.get_block b index with status := .Unresolved }) index none).1
        else
          (SudokuBoard.mark_conflicts
            (SudokuBoard.set_block b index
              { SudokuBoard.get_block b index with
                status := .Possibilities
                  { pos with numbers := pos.numbers.del_number number } }) index
            (some (number, true))).1
      else
        (SudokuBoard.mark_conflicts
          (SudokuBoard.set_block b index
            { SudokuBoard.get_block b index with
              status := .Possibilities
                { pos with numbers := pos.numbers.set_number number } }) index
          (some (number, false))).1) p n
    by_cases hhas : pos.numbers.has_number number = true
    · rw [if_pos hhas]
      by_cases hcnt :
          ({ pos with numbers := pos.numbers.del_number number} :
            Possibilities).numbers.count_numbers = 0
      · rw [if_pos hcnt]
        exact FixedAt.mark_conflicts (FixedAt.set_block h (Or.inr (by rw [hstat]; rfl)))
      · rw [if_neg hcnt]
        exact FixedAt.mark_conflicts (FixedAt.set_block h (Or.inr (by rw [hstat]; rfl)))
    · rw [if_neg hhas]
      exact FixedAt.mark_conflicts (FixedAt.set_block h (Or.inr (by rw [hstat]; rfl)))

theorem FixedAt.step {b b' : SudokuBoard} (hs : Step b b') {p : BlockIndex}
    {n : SudokuNumber} (h : FixedAt b p n) : FixedAt b' p n := by
  cases hs with
  | mark_conflicts index info => exact FixedAt.mark_conflicts h
  | mark_all_conflicts => exact FixedAt.of_status_index_eq (StatusIndexEq.mark_all_conflicts b) h
  | update_possibilities => exact FixedAt.update_possibilities h
  | resolve_satisfied_blocks => exact FixedAt.resolve_satisfied_blocks h
  | hidden_single flag => exact FixedAt.hidden_single_update h
  | naked_pair flag => exact FixedAt.naked_pair_update h
  | naked_single flag => exact h
  | reset => exact FixedAt.reset h
  | toggle_candidate index number => exact FixedAt.toggle_candidate h

/-! ### Claim C1 -/

/-- C1 counterexample: from the board constructed from `c1_grid`, the
engine operations `update_possibilities` followed by
`mark_conflicts((1,1), Some((7, set)))` produce a reachable board in
which the Given (`Fixed`) cell at (1,5) carries a conflict tag
(`AffectedByPossibilities`), refuting "a Given cell never carries a
conflict tag". -/
theorem c1_counterexample :
    Constructed (SudokuBoard.new c1_grid) ∧
      ReachableFrom (SudokuBoard.new c1_grid) c1_board ∧
      ((SudokuBoard.new c1_grid) ⟨0, 4⟩).status = .Fixed 6 ∧
      (c1_board ⟨0, 4⟩).status = .Fixed 6 ∧
      (c1_board ⟨0, 4⟩).conflicting = some (.AffectedByPossibilities ⟨0, 0⟩ 6) :=
  ⟨Constructed.new c1_grid,
    ReachableFrom.tail
      (ReachableFrom.tail (ReachableFrom.refl _)
        (Step.update_possibilities (SudokuBoard.new c1_grid)))
      (Step.mark_conflicts (SudokuBoard.update_possibilities (SudokuBoard.new c1_grid))
        ⟨0, 0⟩ (some (6, false))),
    by decide, by decide, by decide⟩

/-- C1 (amended): on every board reachable from construction by engine
operations, every cell that was `Fixed` (Given) still holds its original
`Fixed` value — its status is never mutated — but it may carry a
conflict tag, since conflict marking tags `Fixed` peers of a conflicting
resolved value or candidate. -/
theorem c1_given_cells_keep_value (b0 b : SudokuBoard) (_hc : Constructed b0)
    (hreach : ReachableFrom b0 b) (p : BlockIndex) (n : SudokuNumber)
    (hfix : (b0 p).status = .Fixed n) : (b p).status = .Fixed n := by
  induction hreach with
  | refl => exact hfix
  | tail hr hs ih => exact FixedAt.step hs ih

/-- C1 witness: the preservation theorem applied to the constructed board
of `c1_grid` and the two-operation reachable board `c1_board`. -/
theorem c1_witness :
    ((SudokuBoard.new c1_grid) ⟨0, 4⟩).status = .Fixed 6 ∧
      (c1_board ⟨0, 4⟩).status = .Fixed 6 :=
  ⟨by decide,
    c1_given_cells_keep_value (SudokuBoard.new c1_grid) c1_board
      (Constructed.new c1_grid)
      (ReachableFrom.tail
        (ReachableFrom.tail (ReachableFrom.refl _)
          (Step.update_possibilities (SudokuBoard.new c1_grid)))
        (Step.mark_conflicts (SudokuBoard.update_possibilities (SudokuBoard.new c1_grid))
          ⟨0, 0⟩ (some (6, false))))
      ⟨0, 4⟩ 6 (by decide)⟩

/-! ### Claim C9 -/

/-- C9 counterexample: `c9_final` is reachable from construction by
engine operations (candidate recomputation, seven candidate toggles with
`mark_conflicts`, and a Naked Pair commit), yet its CandidateSet cell
(1,1) stores candidate-conflict 7 while 7 is no longer in its candidate
set — the stored conflict set is not a subset of the candidate set. -/
theorem c9_counterexample :
    Constructed (SudokuBoard.new c9_grid) ∧
      ReachableFrom (SudokuBoard.new c9_grid) c9_final ∧
      (match (c9_final ⟨0, 0⟩).status with
        | .Possibilities pp =>
            pp.conflicting_numbers.has_number 6 && !pp.numbers.has_number 6
        | _ => false) = true := by
  refine ⟨Constructed.new c9_grid, ?_, by decide⟩
  refine ReachableFrom.tail (ReachableFrom.tail (ReachableFrom.tail (ReachableFrom.tail
    (ReachableFrom.tail (ReachableFrom.tail (ReachableFrom.tail (ReachableFrom.tail
      (ReachableFrom.tail (ReachableFrom.refl _)
        (Step.update_possibilities _))
      (Step.toggle_candidate _ ⟨0, 0⟩ 6))
      (Step.toggle_candidate _ ⟨0, 1⟩ 6))
      (Step.toggle_candidate _ ⟨0, 1⟩ 4))
      (Step.toggle_candidate _ ⟨0, 1⟩ 5))
      (Step.toggle_candidate _ ⟨0, 2⟩ 6))
      (Step.toggle_candidate _ ⟨0, 2⟩ 4))
      (Step.toggle_candidate _ ⟨0, 2⟩ 5))
    (Step.naked_pair _ false)

/-- C9 (amended): the stored candidate-conflict set of a CandidateSet
cell is not always a subset of its candidate set on reachable boards;
however the effective conflict check `Possibilities::is_conflicting`
reports a number as conflicting only when it is also a current
candidate, so a stale stored conflict is never surfaced. -/
theorem c9_is_conflicting_needs_candidate (p : Possibilities) (n : SudokuNumber)
    (h : p.is_conflicting n = true) : p.numbers.has_number n = true := by
  unfold Possibilities.is_conflicting at h
  exact (Bool.and_eq_true _ _ |>.mp h).1

/-- C9 witness: the effective-conflict guard at a concrete cell state. -/
theorem c9_witness :
    (⟨SudokuNumbers.new [3], SudokuNumbers.new [3], fun _ => none⟩ :
        Possibilities).is_conflicting 3 = true ∧
      (⟨SudokuNumbers.new [3], SudokuNumbers.new [3], fun _ => none⟩ :
        Possibilities).numbers.has_number 3 = true :=
  ⟨by decide, c9_is_conflicting_needs_candidate _ 3 (by decide)⟩

/-! ### Hidden single characterization (Claim C3) -/

theorem SudokuBlockStatus.as_possibilities_eq_some (s : SudokuBlockStatus)
    (pp : Sudoku.Possibilities) :
    s.as_possibilities = some pp ↔ s = .Possibilities pp := by
  cases s <;> simp [SudokuBlockStatus.as_possibilities]

theorem match_poss_has_eq_true_iff (s : SudokuBlockStatus) (w : SudokuNumber) :
    ((match s with
      | SudokuBlockStatus.Possibilities pp => pp.numbers.has_number w
      | _ => false) = true) ↔
      ∃ pp, s = .Possibilities pp ∧ pp.numbers.has_number w = true := by
  cases s <;> simp

theorem match_poss_has_eq_false_iff (s : SudokuBlockStatus) (w : SudokuNumber) :
    ((match s with
      | SudokuBlockStatus.Possibilities pp => pp.numbers.has_number w
      | _ => false) = false) ↔
      ∀ pp, s = .Possibilities pp → pp.numbers.has_number w = false := by
  cases s <;> simp

theorem get_all_possible_numbers_has (blocks : List SudokuBlock) (w : SudokuNumber) :
    (get_all_possible_numbers blocks).has_number w = true ↔
      ∃ blk ∈ blocks, ∃ pp : Possibilities, blk.status = .Possibilities pp ∧
        pp.numbers.has_number w = true := by
  unfold get_all_possible_numbers
  have hfold : ∀ (l : List Possibilities) (acc : SudokuNumbers),
      ((l.foldl (fun acc fold =>
          fold.numbers.iter.foldl (fun a f => a.set_number f) acc) acc).has_number w = true) ↔
        (∃ pp ∈ l, pp.numbers.has_number w = true) ∨ acc.has_number w = true := by
    intro l
    induction l with
    | nil => simp
    | cons a t ih =>
        intro acc
        rw [List.foldl_cons, ih, SudokuNumbers.has_foldl_set]
        simp only [SudokuNumbers.mem_iter, List.mem_cons]
        constructor
        · rintro (⟨pp, hpp, hw⟩ | (ha | hacc))
          · exact Or.inl ⟨pp, Or.inr hpp, hw⟩
          · exact Or.inl ⟨a, Or.inl rfl, ha⟩
          · exact Or.inr hacc
        · rintro (⟨pp, (rfl | hpp), hw⟩ | hacc)
          · exact Or.inr (Or.inl hw)
          · exact Or.inl ⟨pp, hpp, hw⟩
          · exact Or.inr (Or.inr hacc)
  rw [hfold]
  constructor
  · rintro (⟨pp, hpp, hw⟩ | hacc)
    · rw [List.mem_filterMap] at hpp
      obtain ⟨blk, hblk, hs⟩ := hpp
      rw [SudokuBlockStatus.as_possibilities_eq_some] at hs
      exact ⟨blk, hblk, pp, hs, hw⟩
    · simp [SudokuNumbers.empty, SudokuNumbers.has_number] at hacc
  · rintro ⟨blk, hblk, pp, hs, hw⟩
    refine Or.inl ⟨pp, ?_, hw⟩
    rw [List.mem_filterMap]
    exact ⟨blk, hblk, (SudokuBlockStatus.as_possibilities_eq_some _ _).mpr hs⟩

theorem list_eq_singleton_iff {α : Type} {l : List α} (hl : l.Nodup) (v : α) :
    l = [v] ↔ v ∈ l ∧ ∀ w ∈ l, w = v := by
  constructor
  · rintro rfl
    exact ⟨List.mem_singleton_self v, by simp⟩
  · rintro ⟨hv, hall⟩
    cases l with
    | nil => cases hv
    | cons a t =>
        have ha : a = v := hall a (List.mem_cons_self a t)
        subst ha
        cases t with
        | nil => rfl
        | cons b t2 =>
            have hb : b = a := hall b (by simp)
            rw [List.nodup_cons] at hl
            exact absurd (show a ∈ b :: t2 from by rw [hb]; exact List.mem_cons_self a t2)
              hl.1

theorem SudokuNumbers.iter_nodup (s : SudokuNumbers) : s.iter.Nodup :=
  (List.nodup_finRange 9).filter _

theorem match_singleton_eq_some_iff {α : Type} (l : List α) (v : α) :
    ((match l with
      | [h] => some h
      | _ => none) = some v) ↔ l = [v] := by
  match l with
  | [] => simp
  | [h] => simp
  | h :: h2 :: t => simp

theorem get_hidden_single_eq_some_iff (b : SudokuBoard) (hic : IndexConsistent b)
    (row col : SudokuNumber) (contIdx : List BlockIndex) (v : SudokuNumber) :
    get_hidden_single b row col (contIdx.map b) = some v ↔
      spec_unique_hidden b row col contIdx v := by
  unfold get_hidden_single SudokuBoard.get_block
  rcases hstat : (b ⟨row, col⟩).status with _ | m | m | pp
  · simp [spec_unique_hidden, spec_hidden_in, hstat, SudokuBlockStatus.as_possibilities]
  · simp [spec_unique_hidden, spec_hidden_in, hstat, SudokuBlockStatus.as_possibilities]
  · simp [spec_unique_hidden, spec_hidden_in, hstat, SudokuBlockStatus.as_possibilities]
  · simp only [hstat, SudokuBlockStatus.as_possibilities]
    unfold spec_unique_hidden
    have hmem : ∀ w : SudokuNumber,
        (w ∈ pp.numbers.iter.filter fun f =>
          !(get_all_possible_numbers ((contIdx.map b).filter fun x =>
              !decide (x.index = (b ⟨row, col⟩).index))).has_number f) ↔
          spec_hidden_in b row col contIdx w := by
      intro w
      rw [List.mem_filter, SudokuNumbers.mem_iter]
      unfold spec_hidden_in
      rw [hstat]
      constructor
      · rintro ⟨hw, hrp⟩
        refine ⟨hw, fun q hq hqne => ?_⟩
        rw [match_poss_has_eq_false_iff]
        intro pq hpq
        by_contra hne
        rw [Bool.not_eq_false] at hne
        have : (get_all_possible_numbers ((contIdx.map b).filter fun x =>
            !decide (x.index = (b ⟨row, col⟩).index))).has_number w = true := by
          rw [get_all_possible_numbers_has]
          refine ⟨b q, ?_, pq, hpq, hne⟩
          rw [List.mem_filter]
          refine ⟨List.mem_map_of_mem b hq, ?_⟩
          rw [hic q, hic ⟨row, col⟩]
          simpa using hqne
        rw [this] at hrp
        exact Bool.noConfusion hrp
      · rintro ⟨hw, hother⟩
        refine ⟨hw, ?_⟩
        rw [Bool.not_eq_true']
        rw [Bool.eq_false_iff]
        intro habs
        rw [get_all_possible_numbers_has] at habs
        obtain ⟨blk, hblk, pq, hpq, hhas⟩ := habs
        rw [List.mem_filter] at hblk
        obtain ⟨hmem2, hne2⟩ := hblk
        rw [List.mem_map] at hmem2
        obtain ⟨q, hq, rfl⟩ := hmem2
        rw [hic q, hic ⟨row, col⟩] at hne2
        have hqne : q ≠ ⟨row, col⟩ := by simpa using hne2
        have := hother q hq hqne
        rw [match_poss_has_eq_false_iff] at this
        rw [this pq hpq] at hhas
        exact Bool.noConfusion hhas
    have hnodup : (pp.numbers.iter.filter fun f =>
        !(get_all_possible_numbers ((contIdx.map b).filter fun x =>
            !decide (x.index = (b ⟨row, col⟩).index))).has_number f).Nodup :=
      (SudokuNumbers.iter_nodup pp.numbers).filter _
    generalize hl : (pp.numbers.iter.filter fun f =>
        !(get_all_possible_numbers ((contIdx.map b).filter fun x =>
            !decide (x.index = (b ⟨row, col⟩).index))).has_number f) = hiddenl
    rw [hl] at hmem hnodup
    cases hiddenl with
    | nil =>
        constructor
        · intro h
          exact Option.noConfusion h
        · rintro ⟨hv, -⟩
          exact absurd ((hmem v).mpr hv) (List.not_mem_nil v)
    | cons a t =>
        cases t with
        | nil =>
            constructor
            · intro h
              injection h with h
              subst h
              refine ⟨(hmem a).mp (by simp), fun w hw => ?_⟩
              simpa using (hmem w).mpr hw
            · rintro ⟨hv, -⟩
              have : v = a := by simpa using (hmem v).mpr hv
              rw [this]
        | cons a2 t2 =>
            constructor
            · intro h
              exact Option.noConfusion h
            · rintro ⟨hv, hall⟩
              have ha : a = v := hall a ((hmem a).mp (by simp))
              have ha2 : a2 = v := hall a2 ((hmem a2).mp (by simp))
              rw [List.nodup_cons] at hnodup
              exact absurd
                (show a ∈ a2 :: t2 from by rw [ha, ← ha2]; exact List.mem_cons_self _ _)
                hnodup.1

/-! ### Claim C3 -/

/-- C3 counterexample: on `c3_board`, value 4 is hidden at (1,1) in its
row and value 5 is hidden at (1,1) in its column — two distinct values
are hidden across the containers, so by the claim the cell has no hidden
single and must not be acted on — yet committing the strategy collapses
(1,1)'s candidate set to exactly the row value 4. -/
theorem c3_counterexample :
    spec_hidden_in c3_board 0 0 (SudokuBoard.row_indexes 0) 3 ∧
      spec_hidden_in c3_board 0 0 (SudokuBoard.col_indexes 0) 4 ∧
      (3 : SudokuNumber) ≠ 4 ∧
      (match (c3_board ⟨0, 0⟩).status with
        | .Possibilities pp => decide (pp.numbers.get_numbers = [3])
        | _ => false) = false ∧
      (match (c3_final ⟨0, 0⟩).status with
        | .Possibilities pp => decide (pp.numbers.get_numbers = [3])
        | _ => false) = true := by
  refine ⟨by decide, by decide, by decide, by decide, by decide⟩

/-- C3 (amended): the strategy acts on a CandidateSet cell exactly when
one of its containers, inspected in the order row, column, box, has a
unique hidden value, and the committed value is the unique hidden value
of the first such container — a value hidden in a later container does
not prevent action (so a cell with different values hidden in different
containers is still acted on). -/
theorem c3_hidden_choice_characterization (b : SudokuBoard) (hic : IndexConsistent b)
    (row col v : SudokuNumber) :
    hidden_number_choice b row col = some v ↔
      (spec_unique_hidden b row col (SudokuBoard.row_indexes row) v ∨
        ((∀ w, ¬ spec_unique_hidden b row col (SudokuBoard.row_indexes row) w) ∧
          (spec_unique_hidden b row col (SudokuBoard.col_indexes col) v ∨
            ((∀ w, ¬ spec_unique_hidden b row col (SudokuBoard.col_indexes col) w) ∧
              spec_unique_hidden b row col
                (SudokuBoard.square_indexes (BlockIndex.square_number ⟨row, col⟩)) v)))) := by
  unfold hidden_number_choice
  simp only [SudokuBoard.get_row, SudokuBoard.get_col, SudokuBoard.get_square]
  have hrow := fun w => get_hidden_single_eq_some_iff b hic row col
    (SudokuBoard.row_indexes row) w
  have hcol := fun w => get_hidden_single_eq_some_iff b hic row col
    (SudokuBoard.col_indexes col) w
  have hsq := fun w => get_hidden_single_eq_some_iff b hic row col
    (SudokuBoard.square_indexes (BlockIndex.square_number ⟨row, col⟩)) w
  cases hr : get_hidden_single b row col ((SudokuBoard.row_indexes row).map b) with
  | some h =>
      have hu := (hrow h).mp hr
      constructor
      · intro heq
        injection heq with heq
        subst heq
        exact Or.inl hu
      · rintro (hv | ⟨hnone, -⟩)
        · rw [hv.2 h hu.1]
        · exact absurd hu (hnone h)
  | none =>
      have hrnone : ∀ w, ¬ spec_unique_hidden b row col (SudokuBoard.row_indexes row) w := by
        intro w hw
        rw [← hrow w] at hw
        rw [hr] at hw
        exact Option.noConfusion hw
      have hiff1 : ∀ (P : Prop),
          ((∃ w, spec_unique_hidden b row col (SudokuBoard.row_indexes row) w) ∨ P) ↔ P := by
        intro P
        constructor
        · rintro (⟨w, hw⟩ | hp)
          · exact absurd hw (hrnone w)
          · exact hp
        · exact Or.inr
      cases hc : get_hidden_single b row col ((SudokuBoard.col_indexes col).map b) with
      | some h =>
          have hu := (hcol h).mp hc
          constructor
          · intro heq
            injection heq with heq
            subst heq
            exact Or.inr ⟨hrnone, Or.inl hu⟩
          · rintro (hv | ⟨-, hv | ⟨hcnone, -⟩⟩)
            · exact absurd hv (hrnone v)
            · rw [hv.2 h hu.1]
            · exact absurd hu (hcnone h)
      | none =>
          have hcnone : ∀ w,
              ¬ spec_unique_hidden b row col (SudokuBoard.col_indexes col) w := by
            intro w hw
            rw [← hcol w] at hw
            rw [hc] at hw
            exact Option.noConfusion hw
          rw [hsq v]
          constructor
          · intro hv
            exact Or.inr ⟨hrnone, Or.inr ⟨hcnone, hv⟩⟩
          · rintro (hv | ⟨-, hv | ⟨-, hv⟩⟩)
            · exact absurd hv (hrnone v)
            · exact absurd hv (hcnone v)
            · exact hv

/-- C3 witness: the characterization at `c3_board`, where the committed
value 4 is the unique hidden value of the row container. -/
theorem c3_witness :
    IndexConsistent c3_board ∧
      (hidden_number_choice c3_board 0 0 = some 3 ↔
        (spec_unique_hidden c3_board 0 0 (SudokuBoard.row_indexes 0) 3 ∨
          ((∀ w, ¬ spec_unique_hidden c3_board 0 0 (SudokuBoard.row_indexes 0) w) ∧
            (spec_unique_hidden c3_board 0 0 (SudokuBoard.col_indexes 0) 3 ∨
              ((∀ w, ¬ spec_unique_hidden c3_board 0 0 (SudokuBoard.col_indexes 0) w) ∧
                spec_unique_hidden c3_board 0 0
                  (SudokuBoard.square_indexes (BlockIndex.square_number ⟨0, 0⟩)) 3))))) :=
  ⟨by decide, c3_hidden_choice_characterization c3_board (by decide) 0 0 3⟩

/-! ### Evaluation of the Hidden Single commit (Claim C4) -/

theorem SudokuBoard.modify_possibilities_eval (b : SudokuBoard) (i : BlockIndex)
    (f : Possibilities → Possibilities) (q : BlockIndex) :
    (SudokuBoard.modify_possibilities b i f) q =
      if q = i then blockModify (b i) f else b q := by
  unfold SudokuBoard.modify_possibilities SudokuBoard.get_block
  rcases hstat : (b i).status with _ | m | m | pp
  · have hbm : blockModify (b i) f = b i := by unfold blockModify; rw [hstat]
    rw [hbm]
    split
    · next hq => subst hq; rfl
    · rfl
  · have hbm : blockModify (b i) f = b i := by unfold blockModify; rw [hstat]
    rw [hbm]
    split
    · next hq => subst hq; rfl
    · rfl
  · have hbm : blockModify (b i) f = b i := by unfold blockModify; rw [hstat]
    rw [hbm]
    split
    · next hq => subst hq; rfl
    · rfl
  · have hbm : blockModify (b i) f =
        { b i with status := .Possibilities (f pp) } := by
      unfold blockModify
      rw [hstat]
    rw [hbm]
    unfold SudokuBoard.set_block
    rfl

theorem blockModify_index (blk : SudokuBlock) (f : Possibilities → Possibilities) :
    (blockModify blk f).index = blk.index := by
  unfold blockModify
  rcases blk.status with _ | m | m | pp <;> rfl

theorem SudokuBoard.row_indexes_nodup : ∀ r : SudokuNumber,
    (SudokuBoard.row_indexes r).Nodup := by decide

theorem SudokuBoard.col_indexes_nodup : ∀ c : SudokuNumber,
    (SudokuBoard.col_indexes c).Nodup := by decide

theorem SudokuBoard.square_indexes_nodup : ∀ sq : SudokuNumber,
    (SudokuBoard.square_indexes sq).Nodup := by decide

theorem foldl_guard_modify_eval (f : Possibilities → Possibilities)
    (P : SudokuBlock → Prop) [DecidablePred P] (l : List BlockIndex) :
    ∀ (acc : SudokuBoard) (q : BlockIndex), l.Nodup →
      (l.foldl (fun a p => if P (SudokuBoard.get_block a p) then
          SudokuBoard.modify_possibilities a p f else a) acc) q =
        if q ∈ l ∧ P (acc q) then blockModify (acc q) f else acc q := by
  induction l with
  | nil => intro acc q _; simp
  | cons x t ih =>
      intro acc q hl
      rw [List.nodup_cons] at hl
      rw [List.foldl_cons]
      have hstep : (if P (SudokuBoard.get_block acc x) then
          SudokuBoard.modify_possibilities acc x f else acc) =
          (fun r => if r = x ∧ P (acc x) then blockModify (acc x) f else acc r) := by
        funext r
        rw [SudokuBoard.get_block]
        by_cases hP : P (acc x)
        · rw [if_pos hP, SudokuBoard.modify_possibilities_eval]
          by_cases hrx : r = x
          · rw [if_pos hrx, if_pos ⟨hrx, hP⟩]
          · rw [if_neg hrx, if_neg (fun hand => hrx hand.1)]
        · rw [if_neg hP, if_neg (fun hand => hP hand.2)]
      rw [hstep, ih _ q hl.2]
      by_cases hqx : q = x
      · subst hqx
        rw [if_neg (fun hand => hl.1 hand.1)]
        by_cases hP : P (acc q)
        · rw [if_pos ⟨rfl, hP⟩, if_pos ⟨List.mem_cons_self q t, hP⟩]
        · rw [if_neg (fun hand => hP hand.2), if_neg (fun hand => hP hand.2)]
      · have hself : (if q = x ∧ P (acc x) then blockModify (acc x) f else acc q) = acc q := by
          rw [if_neg (fun hand => hqx hand.1)]
        rw [hself]
        by_cases hqt : q ∈ t
        · by_cases hP : P (acc q)
          · rw [if_pos ⟨hqt, hP⟩, if_pos ⟨List.mem_cons_of_mem x hqt, hP⟩]
          · rw [if_neg (fun hand => hP hand.2), if_neg (fun hand => hP hand.2)]
        · rw [if_neg (fun hand => hqt hand.1),
            if_neg (fun hand => (List.mem_cons.mp hand.1).elim hqx hqt)]

/-- After the commit-mode peer mutation, the hidden value is gone. -/
theorem blockModify_peer_no_v (blk : SudokuBlock) (v : SudokuNumber)
    (pq : Possibilities)
    (h : (blockModify blk (hidden_peer_update false v)).status = .Possibilities pq) :
    pq.numbers.has_number v = false := by
  unfold blockModify at h
  rcases hstat : blk.status with _ | m | m | pp <;> rw [hstat] at h
  · have h' : blk.status = SudokuBlockStatus.Possibilities pq := h
    rw [hstat] at h'
    exact SudokuBlockStatus.noConfusion h'
  · have h' : blk.status = SudokuBlockStatus.Possibilities pq := h
    rw [hstat] at h'
    exact SudokuBlockStatus.noConfusion h'
  · have h' : blk.status = SudokuBlockStatus.Possibilities pq := h
    rw [hstat] at h'
    exact SudokuBlockStatus.noConfusion h'
  · have h' : SudokuBlockStatus.Possibilities (hidden_peer_update false v pp) =
        SudokuBlockStatus.Possibilities pq := h
    injection h' with h2
    subst h2
    unfold hidden_peer_update Possibilities.clear_strategy_marker
    simp [SudokuNumbers.del_number, SudokuNumbers.has_number]

theorem blockModify_col (blk : SudokuBlock) (f : Possibilities → Possibilities) :
    (blockModify blk f).col = blk.col := by
  unfold SudokuBlock.col
  rw [blockModify_index]

theorem blockModify_row (blk : SudokuBlock) (f : Possibilities → Possibilities) :
    (blockModify blk f).row = blk.row := by
  unfold SudokuBlock.row
  rw [blockModify_index]

theorem row_fold_eval (f : Possibilities → Possibilities) (col : SudokuNumber)
    (l : List BlockIndex) (acc : SudokuBoard) (q : BlockIndex) (hl : l.Nodup) :
    (l.foldl (fun a p => if (SudokuBoard.get_block a p).col ≠ col then
        SudokuBoard.modify_possibilities a p f else a) acc) q =
      if q ∈ l ∧ (acc q).col ≠ col then blockModify (acc q) f else acc q :=
  foldl_guard_modify_eval f (fun blk => blk.col ≠ col) l acc q hl

theorem col_fold_eval (f : Possibilities → Possibilities) (row : SudokuNumber)
    (l : List BlockIndex) (acc : SudokuBoard) (q : BlockIndex) (hl : l.Nodup) :
    (l.foldl (fun a p => if (SudokuBoard.get_block a p).row ≠ row then
        SudokuBoard.modify_possibilities a p f else a) acc) q =
      if q ∈ l ∧ (acc q).row ≠ row then blockModify (acc q) f else acc q :=
  foldl_guard_modify_eval f (fun blk => blk.row ≠ row) l acc q hl

theorem square_fold_eval (f : Possibilities → Possibilities) (col row : SudokuNumber)
    (l : List BlockIndex) (acc : SudokuBoard) (q : BlockIndex) (hl : l.Nodup) :
    (l.foldl (fun a p => if (SudokuBoard.get_block a p).col ≠ col ∧
          (SudokuBoard.get_block a p).row ≠ row then
        SudokuBoard.modify_possibilities a p f else a) acc) q =
      if q ∈ l ∧ ((acc q).col ≠ col ∧ (acc q).row ≠ row) then blockModify (acc q) f
      else acc q :=
  foldl_guard_modify_eval f (fun blk => blk.col ≠ col ∧ blk.row ≠ row) l acc q hl

/-! ### Claim C4 -/

/-- C4: when the Hidden Single strategy commits value v at a CandidateSet
cell (its per-cell action with `preview_only = false`), afterwards that
cell's candidate set is exactly the singleton v with its candidate
conflicts and strategy markers cleared, and v is absent from the
candidate set of every other CandidateSet cell of the cell's row, column
and box. -/
theorem c4_hidden_single_commit (b : SudokuBoard) (hic : IndexConsistent b)
    (row col v : SudokuNumber) (pp : Possibilities)
    (hposs : (b ⟨row, col⟩).status = .Possibilities pp)
    (hchoice : hidden_number_choice b row col = some v) :
    ((hidden_single_step b (row, col) false) ⟨row, col⟩).status =
        .Possibilities ⟨SudokuNumbers.empty.set_number v, SudokuNumbers.empty, fun _ => none⟩ ∧
      ∀ q : BlockIndex, q ≠ ⟨row, col⟩ →
        (q.row = row ∨ q.col = col ∨
          q.square_number = BlockIndex.square_number ⟨row, col⟩) →
        ∀ pq : Possibilities,
          ((hidden_single_step b (row, col) false) q).status = .Possibilities pq →
          pq.numbers.has_number v = false := by
  have hstep : hidden_single_step b (row, col) false =
      (SudokuBoard.square_indexes (BlockIndex.square_number ⟨row, col⟩)).foldl
        (fun acc p => if (SudokuBoard.get_block acc p).col ≠ col ∧
            (SudokuBoard.get_block acc p).row ≠ row then
          SudokuBoard.modify_possibilities acc p (hidden_peer_update false v) else acc)
        ((SudokuBoard.col_indexes col).foldl
          (fun acc p => if (SudokuBoard.get_block acc p).row ≠ row then
            SudokuBoard.modify_possibilities acc p (hidden_peer_update false v) else acc)
          ((SudokuBoard.row_indexes row).foldl
            (fun acc p => if (SudokuBoard.get_block acc p).col ≠ col then
              SudokuBoard.modify_possibilities acc p (hidden_peer_update false v) else acc)
            (SudokuBoard.modify_possibilities b ⟨row, col⟩ fun possibilities =>
              if !false then
                { Possibilities.empty with numbers := SudokuNumbers.empty.set_number v }
              else
                possibilities.update_strategy_marker v
                  ⟨Strategy.HiddenSingle, StrategyEffect.Source⟩))) := by
    unfold Sudoku.hidden_single_step
    dsimp only
    rw [hchoice]
  have hbcol : (b ⟨row, col⟩).col = col := by
    unfold SudokuBlock.col
    rw [hic]
  have hbrow : (b ⟨row, col⟩).row = row := by
    unfold SudokuBlock.row
    rw [hic]
  constructor
  · rw [hstep]
    rw [square_fold_eval _ col row _ _ _ (SudokuBoard.square_indexes_nodup _)]
    rw [col_fold_eval _ row _ _ _ (SudokuBoard.col_indexes_nodup _)]
    rw [row_fold_eval _ col _ _ _ (SudokuBoard.row_indexes_nodup _)]
    rw [SudokuBoard.modify_possibilities_eval]
    rw [if_pos rfl]
    have hc1 : ¬((⟨row, col⟩ : BlockIndex) ∈ SudokuBoard.row_indexes row ∧
        (blockModify (b ⟨row, col⟩) fun possibilities =>
          if !false then
            { Possibilities.empty with numbers := SudokuNumbers.empty.set_number v }
          else
            possibilities.update_strategy_marker v
              ⟨Strategy.HiddenSingle, StrategyEffect.Source⟩).col ≠ col) :=
      fun hand => hand.2 (by rw [blockModify_col, hbcol])
    rw [if_neg hc1]
    have hc2 : ¬((⟨row, col⟩ : BlockIndex) ∈ SudokuBoard.col_indexes col ∧
        (blockModify (b ⟨row, col⟩) fun possibilities =>
          if !false then
            { Possibilities.empty with numbers := SudokuNumbers.empty.set_number v }
          else
            possibilities.update_strategy_marker v
              ⟨Strategy.HiddenSingle, StrategyEffect.Source⟩).row ≠ row) :=
      fun hand => hand.2 (by rw [blockModify_row, hbrow])
    rw [if_neg hc2]
    have hc3 : ¬((⟨row, col⟩ : BlockIndex) ∈
          SudokuBoard.square_indexes (BlockIndex.square_number ⟨row, col⟩) ∧
        ((blockModify (b ⟨row, col⟩) fun possibilities =>
          if !false then
            { Possibilities.empty with numbers := SudokuNumbers.empty.set_number v }
          else
            possibilities.update_strategy_marker v
              ⟨Strategy.HiddenSingle, StrategyEffect.Source⟩).col ≠ col ∧
          (blockModify (b ⟨row, col⟩) fun possibilities =>
          if !false then
            { Possibilities.empty with numbers := SudokuNumbers.empty.set_number v }
          else
            possibilities.update_strategy_marker v
              ⟨Strategy.HiddenSingle, StrategyEffect.Source⟩).row ≠ row)) :=
      fun hand => hand.2.1 (by rw [blockModify_col, hbcol])
    rw [if_neg hc3]
    unfold blockModify
    rw [hposs]
    rfl
  · intro q hqne hcont pq hq
    rw [hstep] at hq
    rw [square_fold_eval _ col row _ _ _ (SudokuBoard.square_indexes_nodup _)] at hq
    rw [col_fold_eval _ row _ _ _ (SudokuBoard.col_indexes_nodup _)] at hq
    rw [row_fold_eval _ col _ _ _ (SudokuBoard.row_indexes_nodup _)] at hq
    rw [SudokuBoard.modify_possibilities_eval] at hq
    rw [if_neg hqne] at hq
    have hqcol : (b q).col = q.col := by
      unfold SudokuBlock.col
      rw [hic]
    have hqrow : (b q).row = q.row := by
      unfold SudokuBlock.row
      rw [hic]
    by_cases h1 : q ∈ SudokuBoard.row_indexes row ∧ (b q).col ≠ col
    · rw [if_pos h1] at hq
      by_cases h2 : q ∈ SudokuBoard.col_indexes col ∧
          (blockModify (b q) (hidden_peer_update false v)).row ≠ row
      · rw [if_pos h2] at hq
        by_cases h3 : q ∈ SudokuBoard.square_indexes (BlockIndex.square_number ⟨row, col⟩) ∧
            ((blockModify (blockModify (b q) (hidden_peer_update false v))
                (hidden_peer_update false v)).col ≠ col ∧
              (blockModify (blockModify (b q) (hidden_peer_update false v))
                (hidden_peer_update false v)).row ≠ row)
        · rw [if_pos h3] at hq
          exact blockModify_peer_no_v _ v pq hq
        · rw [if_neg h3] at hq
          exact blockModify_peer_no_v _ v pq hq
      · rw [if_neg h2] at hq
        by_cases h3 : q ∈ SudokuBoard.square_indexes (BlockIndex.square_number ⟨row, col⟩) ∧
            ((blockModify (b q) (hidden_peer_update false v)).col ≠ col ∧
              (blockModify (b q) (hidden_peer_update false v)).row ≠ row)
        · rw [if_pos h3] at hq
          exact blockModify_peer_no_v _ v pq hq
        · rw [if_neg h3] at hq
          exact blockModify_peer_no_v _ v pq hq
    · rw [if_neg h1] at hq
      by_cases h2 : q ∈ SudokuBoard.col_indexes col ∧ (b q).row ≠ row
      · rw [if_pos h2] at hq
        by_cases h3 : q ∈ SudokuBoard.square_indexes (BlockIndex.square_number ⟨row, col⟩) ∧
            ((blockModify (b q) (hidden_peer_update false v)).col ≠ col ∧
              (blockModify (b q) (hidden_peer_update false v)).row ≠ row)
        · rw [if_pos h3] at hq
          exact blockModify_peer_no_v _ v pq hq
        · rw [if_neg h3] at hq
          exact blockModify_peer_no_v _ v pq hq
      · rw [if_neg h2] at hq
        by_cases h3 : q ∈ SudokuBoard.square_indexes (BlockIndex.square_number ⟨row, col⟩) ∧
            ((b q).col ≠ col ∧ (b q).row ≠ row)
        · rw [if_pos h3] at hq
          exact blockModify_peer_no_v _ v pq hq
        · rw [if_neg h3] at hq
          exfalso
          rw [SudokuBoard.mem_row_indexes, hqcol] at h1
          rw [SudokuBoard.mem_col_indexes, hqrow] at h2
          rw [SudokuBoard.mem_square_indexes, hqcol, hqrow] at h3
          have hqext : q.row = row → q.col = col → False := by
            intro hr hc
            apply hqne
            cases q with
            | mk qr qc => cases hr; cases hc; rfl
          rcases hcont with hr | hc | hsq
          · by_cases hc : q.col = col
            · exact hqext hr hc
            · exact h1 ⟨hr, hc⟩
          · by_cases hr : q.row = row
            · exact hqext hr hc
            · exact h2 ⟨hc, hr⟩
          · by_cases hc : q.col = col
            · by_cases hr : q.row = row
              · exact hqext hr hc
              · exact h2 ⟨hc, hr⟩
            · by_cases hr : q.row = row
              · exact h1 ⟨hr, hc⟩
              · exact h3 ⟨hsq, hc, hr⟩

/-- C4 witness: the commit postcondition on `c4_board`, whose cell (1,1)
has hidden single value 4 in its row. -/
theorem c4_witness :
    IndexConsistent c4_board ∧
      hidden_number_choice c4_board 0 0 = some 3 ∧
      (((hidden_single_step c4_board (0, 0) false) ⟨0, 0⟩).status =
          .Possibilities
            ⟨SudokuNumbers.empty.set_number 3, SudokuNumbers.empty, fun _ => none⟩ ∧
        ∀ q : BlockIndex, q ≠ ⟨0, 0⟩ →
          (q.row = 0 ∨ q.col = 0 ∨ q.square_number = BlockIndex.square_number ⟨0, 0⟩) →
          ∀ pq : Possibilities,
            ((hidden_single_step c4_board (0, 0) false) q).status = .Possibilities pq →
            pq.numbers.has_number 3 = false) :=
  ⟨by decide, by decide,
    c4_hidden_single_commit c4_board (by decide) 0 0 3
      (Possibilities.new (SudokuNumbers.new [3, 4])) rfl (by decide)⟩

/-! ### Infrastructure for mark_conflicts idempotence (C7) -/

/-- The tag test inside `clear_all_previous_conflicts`, as a function of
the stored conflict tag. -/
def confTagAll (i : BlockIndex) (c : Option Conflicting) : Bool :=
  match c with
  | some conf =>
      conf.is_affected_by_and (fun g => decide (g = i)) ||
        conf.is_affected_by_possibilities_and (fun g _ => decide (g = i))
  | none => false

/-- The tag test inside the `clear_affected_by_conflicts` cleanup. -/
def confTagAff (i : BlockIndex) (c : Option Conflicting) : Bool :=
  match c with
  | some conf => conf.is_affected_by_and (fun g => decide (g = i))
  | none => false

/-- The tag test inside the `clear_affected_by_possibilities_conflicts`
cleanup. -/
def confTagPoss (i : BlockIndex) (pos : SudokuNumber) (c : Option Conflicting) : Bool :=
  match c with
  | some conf =>
      conf.is_affected_by_possibilities_and fun g n =>
        decide (g = i) && decide (n = pos)
  | none => false

theorem SudokuBoard.clear_all_eval (b : SudokuBoard) (i p : BlockIndex) :
    SudokuBoard.clear_all_previous_conflicts b i p =
      if confTagAll i (b p).conflicting then { b p with conflicting := none } else b p := rfl

theorem SudokuBoard.clear_aff_eval (b : SudokuBoard) (i p : BlockIndex) :
    SudokuBoard.clear_affected_by_conflicts b i p =
      if confTagAff i (b p).conflicting then { b p with conflicting := none } else b p := rfl

theorem SudokuBoard.clear_poss_eval (b : SudokuBoard) (i : BlockIndex) (pos : SudokuNumber)
    (p : BlockIndex) :
    SudokuBoard.clear_affected_by_possibilities_conflicts b i pos p =
      if confTagPoss i pos (b p).conflicting then { b p with conflicting := none } else b p := rfl

theorem confTagAll_clear (b : SudokuBoard) (i p : BlockIndex) :
    confTagAll i ((SudokuBoard.clear_all_previous_conflicts b i p).conflicting) = false := by
  rw [SudokuBoard.clear_all_eval]
  cases hc : confTagAll i (b p).conflicting
  · exact hc
  · rfl

theorem confTagAff_clear (b : SudokuBoard) (i p : BlockIndex) :
    confTagAff i ((SudokuBoard.clear_affected_by_conflicts b i p).conflicting) = false := by
  rw [SudokuBoard.clear_aff_eval]
  cases hc : confTagAff i (b p).conflicting
  · exact hc
  · rfl

theorem confTagPoss_clear (b : SudokuBoard) (i : BlockIndex) (pos : SudokuNumber)
    (p : BlockIndex) :
    confTagPoss i pos
      ((SudokuBoard.clear_affected_by_possibilities_conflicts b i pos p).conflicting) = false := by
  rw [SudokuBoard.clear_poss_eval]
  cases hc : confTagPoss i pos (b p).conflicting
  · exact hc
  · rfl

theorem SudokuBoard.clear_all_of_stable (d : SudokuBoard) (i : BlockIndex)
    (h : ∀ p, confTagAll i ((d p).conflicting) = false) :
    SudokuBoard.clear_all_previous_conflicts d i = d := by
  funext p
  rw [SudokuBoard.clear_all_eval, if_neg (by rw [h p]; exact Bool.false_ne_true)]

theorem SudokuBoard.clear_aff_of_stable (d : SudokuBoard) (i : BlockIndex)
    (h : ∀ p, confTagAff i ((d p).conflicting) = false) :
    SudokuBoard.clear_affected_by_conflicts d i = d := by
  funext p
  rw [SudokuBoard.clear_aff_eval, if_neg (by rw [h p]; exact Bool.false_ne_true)]

theorem SudokuBoard.clear_poss_of_stable (d : SudokuBoard) (i : BlockIndex)
    (pos : SudokuNumber) (h : ∀ p, confTagPoss i pos ((d p).conflicting) = false) :
    SudokuBoard.clear_affected_by_possibilities_conflicts d i pos = d := by
  funext p
  rw [SudokuBoard.clear_poss_eval, if_neg (by rw [h p]; exact Bool.false_ne_true)]

theorem SudokuBoard.clear_all_conflicting_cases (b : SudokuBoard) (i p : BlockIndex) :
    (SudokuBoard.clear_all_previous_conflicts b i p).conflicting = none ∨
      (SudokuBoard.clear_all_previous_conflicts b i p).conflicting = (b p).conflicting := by
  rw [SudokuBoard.clear_all_eval]
  split
  · exact Or.inl rfl
  · exact Or.inr rfl

theorem SudokuBoard.clear_aff_conflicting_cases (b : SudokuBoard) (i p : BlockIndex) :
    (SudokuBoard.clear_affected_by_conflicts b i p).conflicting = none ∨
      (SudokuBoard.clear_affected_by_conflicts b i p).conflicting = (b p).conflicting := by
  rw [SudokuBoard.clear_aff_eval]
  split
  · exact Or.inl rfl
  · exact Or.inr rfl

theorem SudokuBoard.clear_poss_conflicting_cases (b : SudokuBoard) (i : BlockIndex)
    (pos : SudokuNumber) (p : BlockIndex) :
    (SudokuBoard.clear_affected_by_possibilities_conflicts b i pos p).conflicting = none ∨
      (SudokuBoard.clear_affected_by_possibilities_conflicts b i pos p).conflicting =
        (b p).conflicting := by
  rw [SudokuBoard.clear_poss_eval]
  split
  · exact Or.inl rfl
  · exact Or.inr rfl

theorem SudokuBoard.set_block_eval (b : SudokuBoard) (i : BlockIndex) (blk : SudokuBlock)
    (p : BlockIndex) :
    SudokuBoard.set_block b i blk p = if p = i then blk else b p := rfl

theorem SudokuBoard.set_block_self (b : SudokuBoard) (i : BlockIndex) :
    SudokuBoard.set_block b i (b i) = b := by
  funext p
  rw [SudokuBoard.set_block_eval]
  by_cases h : p = i
  · rw [if_pos h, h]
  · rw [if_neg h]

theorem SudokuNumbers.del_number_idem (s : SudokuNumbers) (n : SudokuNumber) :
    (s.del_number n).del_number n = s.del_number n := by
  apply SudokuNumbers.ext
  funext i
  show (if i = n then false else if i = n then false else s.numbers i) =
    (if i = n then false else s.numbers i)
  by_cases h : i = n
  · rw [if_pos h, if_pos h]
  · rw [if_neg h, if_neg h]

theorem SudokuNumbers.set_number_idem (s : SudokuNumbers) (n : SudokuNumber) :
    (s.set_number n).set_number n = s.set_number n := by
  apply SudokuNumbers.ext
  funext i
  show (if i = n then true else if i = n then true else s.numbers i) =
    (if i = n then true else s.numbers i)
  by_cases h : i = n
  · rw [if_pos h, if_pos h]
  · rw [if_neg h, if_neg h]

theorem blockModify_conflicting (blk : SudokuBlock) (f : Possibilities → Possibilities) :
    (blockModify blk f).conflicting = blk.conflicting := by
  unfold blockModify
  rcases blk.status with _ | m | m | pp <;> rfl

theorem blockModify_fixed_or_resolved (blk : SudokuBlock)
    (f : Possibilities → Possibilities) :
    (blockModify blk f).fixed_or_resolved = blk.fixed_or_resolved := by
  unfold blockModify SudokuBlock.fixed_or_resolved
  cases hst : blk.status <;> simp [hst]

theorem SudokuBoard.modify_conflicting (b : SudokuBoard) (i : BlockIndex)
    (f : Possibilities → Possibilities) (p : BlockIndex) :
    (SudokuBoard.modify_possibilities b i f p).conflicting = (b p).conflicting := by
  rw [SudokuBoard.modify_possibilities_eval]
  by_cases h : p = i
  · rw [if_pos h, h, blockModify_conflicting]
  · rw [if_neg h]

theorem SudokuBoard.modify_status_at (b : SudokuBoard) (i : BlockIndex)
    (f : Possibilities → Possibilities) (pp : Possibilities)
    (hst : (b i).status = .Possibilities pp) :
    ((SudokuBoard.modify_possibilities b i f) i).status = .Possibilities (f pp) := by
  rw [SudokuBoard.modify_possibilities_eval, if_pos rfl]
  unfold blockModify
  simp only [hst]

theorem SudokuBoard.modify_possibilities_self (d : SudokuBoard) (i : BlockIndex)
    (f : Possibilities → Possibilities) (pp : Possibilities)
    (hst : (d i).status = .Possibilities pp) (hf : f pp = pp) :
    SudokuBoard.modify_possibilities d i f = d := by
  funext p
  rw [SudokuBoard.modify_possibilities_eval]
  by_cases h : p = i
  · rw [if_pos h, h]
    unfold blockModify
    simp only [hst, hf]
    rw [← hst]
  · rw [if_neg h]

theorem SudokuBoard.possibilities_count_eq (d : SudokuBoard) (i : BlockIndex)
    (pp : Possibilities) (hst : (d i).status = .Possibilities pp) :
    SudokuBoard.possibilities_count d i = pp.numbers.count_numbers := by
  unfold SudokuBoard.possibilities_count SudokuBoard.get_block
  rw [hst]
  rfl

theorem SudokuBoard.mcp_step1_true (d : SudokuBoard) (i : BlockIndex) :
    SudokuBoard.mcp_step1 d i true = d := rfl

theorem SudokuBoard.mcp_step1_false (d : SudokuBoard) (i : BlockIndex) :
    SudokuBoard.mcp_step1 d i false =
      if SudokuBoard.possibilities_count d i = 1 then
        SudokuBoard.clear_affected_by_conflicts d i
      else d := rfl

theorem SudokuBoard.mcp_similar_false (d : SudokuBoard) (i : BlockIndex)
    (pos : SudokuNumber) :
    SudokuBoard.mcp_similar d i pos false =
      (SudokuBoard.find_mistakes (SudokuBoard.mcp_step1 d i false) i pos).getD [] := rfl

theorem SudokuBoard.mcp_finish_nil (s : SudokuBoard) (i : BlockIndex) (pos : SudokuNumber) :
    SudokuBoard.mcp_finish s i pos [] =
      (SudokuBoard.clear_affected_by_possibilities_conflicts
        (SudokuBoard.modify_possibilities s i fun poss =>
          { poss with conflicting_numbers := poss.conflicting_numbers.del_number pos }) i pos,
        true) := rfl

theorem SudokuBoard.mcp_finish_cons (s : SudokuBoard) (i : BlockIndex) (pos : SudokuNumber)
    (q : BlockIndex) (rest : List BlockIndex) :
    SudokuBoard.mcp_finish s i pos (q :: rest) =
      ((q :: rest).foldl
        (fun bd block_index =>
          SudokuBoard.set_block bd block_index
            { SudokuBoard.get_block bd block_index with
              conflicting := some (.AffectedByPossibilities i pos) })
        (SudokuBoard.modify_possibilities s i fun poss =>
          { poss with conflicting_numbers := poss.conflicting_numbers.set_number pos }),
        false) := rfl

theorem SudokuBoard.mark_conflicts_possibilities_some (d : SudokuBoard) (i : BlockIndex)
    (pos : SudokuNumber) (ic : Bool) :
    SudokuBoard.mark_conflicts_possibilities d i (some (pos, ic)) =
      SudokuBoard.mcp_finish (SudokuBoard.mcp_step1 d i ic) i pos
        (SudokuBoard.mcp_similar d i pos ic) := rfl

theorem StatusIndexEq.mcp_step1_sie (b : SudokuBoard) (idx : BlockIndex) (ic : Bool) :
    StatusIndexEq b (SudokuBoard.mcp_step1 b idx ic) := by
  cases ic
  · rw [SudokuBoard.mcp_step1_false]
    split
    · exact StatusIndexEq.clear_affected_by_conflicts b idx
    · exact StatusIndexEq.refl b
  · exact StatusIndexEq.refl b

theorem SudokuBoard.mcp_step1_stable (C : SudokuBoard) (idx : BlockIndex) (ic : Bool)
    (haff : ic = false → SudokuBoard.possibilities_count C idx = 1 →
      ∀ p, confTagAff idx ((C p).conflicting) = false) :
    SudokuBoard.mcp_step1 C idx ic = C := by
  cases ic
  · rw [SudokuBoard.mcp_step1_false]
    by_cases h : SudokuBoard.possibilities_count C idx = 1
    · rw [if_pos h]
      exact SudokuBoard.clear_aff_of_stable C idx (haff rfl h)
    · rw [if_neg h]
  · rfl

/-- Boards agreeing on every stored index and every Fixed/Resolved
content: exactly the data `find_mistakes` reads. -/
def FrEq (b d : SudokuBoard) : Prop :=
  ∀ p : BlockIndex, (b p).index = (d p).index ∧
    (b p).fixed_or_resolved = (d p).fixed_or_resolved

theorem FrEq.fr_refl (b : SudokuBoard) : FrEq b b := fun _ => ⟨rfl, rfl⟩

theorem FrEq.symm {b d : SudokuBoard} (h : FrEq b d) : FrEq d b := fun p =>
  ⟨(h p).1.symm, (h p).2.symm⟩

theorem FrEq.fr_trans {a b c : SudokuBoard} (h1 : FrEq a b) (h2 : FrEq b c) : FrEq a c :=
  fun p => ⟨(h1 p).1.trans (h2 p).1, (h1 p).2.trans (h2 p).2⟩

theorem FrEq.of_statusIndexEq {b d : SudokuBoard} (h : StatusIndexEq b d) : FrEq b d :=
  fun p => ⟨(h p).2.symm, by unfold SudokuBlock.fixed_or_resolved; rw [(h p).1]⟩

theorem FrEq.modify_possibilities_fr (b : SudokuBoard) (i : BlockIndex)
    (f : Possibilities → Possibilities) :
    FrEq b (SudokuBoard.modify_possibilities b i f) := by
  intro p
  rw [SudokuBoard.modify_possibilities_eval]
  by_cases h : p = i
  · rw [if_pos h, h, blockModify_index, blockModify_fixed_or_resolved]
    exact ⟨rfl, rfl⟩
  · rw [if_neg h]
    exact ⟨rfl, rfl⟩

theorem fr_filter_one (f g : SudokuBlock) (h : f.fixed_or_resolved = g.fixed_or_resolved) :
    (f.is_fixed || f.is_resolved) = (g.is_fixed || g.is_resolved) := by
  cases hf : f.status <;> cases hg : g.status <;>
    simp_all [SudokuBlock.fixed_or_resolved, SudokuBlock.is_fixed, SudokuBlock.is_resolved,
      SudokuBlockStatus.is_fixed, SudokuBlockStatus.is_resolved]

theorem fr_filter_three (f g : SudokuBlock) (h : f.fixed_or_resolved = g.fixed_or_resolved)
    (n : SudokuNumber) :
    (match f.status with
      | .Fixed m => decide (m = n)
      | .Resolved m => decide (m = n)
      | _ => false) =
    (match g.status with
      | .Fixed m => decide (m = n)
      | .Resolved m => decide (m = n)
      | _ => false) := by
  cases hf : f.status <;> cases hg : g.status <;>
    simp_all [SudokuBlock.fixed_or_resolved]

theorem find_similar_cons (n : SudokuNumber) (ig : Option BlockIndex) (f : SudokuBlock)
    (t : List SudokuBlock) :
    SudokuBoard.find_similar_in_container n (f :: t) ig =
      if ((f.is_fixed || f.is_resolved) &&
          (match ig with | some g => decide (f.index ≠ g) | none => false) &&
          (match f.status with
            | .Fixed m => decide (m = n)
            | .Resolved m => decide (m = n)
            | _ => false)) = true
      then f.index :: SudokuBoard.find_similar_in_container n t ig
      else SudokuBoard.find_similar_in_container n t ig := by
  unfold SudokuBoard.find_similar_in_container
  simp only [List.filter_cons]
  by_cases h1 : (f.is_fixed || f.is_resolved) = true
  · rw [if_pos h1]
    simp only [List.filter_cons]
    by_cases h2 : (match ig with | some g => decide (f.index ≠ g) | none => false) = true
    · rw [if_pos h2]
      simp only [List.filter_cons]
      by_cases h3 : (match f.status with
          | .Fixed m => decide (m = n)
          | .Resolved m => decide (m = n)
          | _ => false) = true
      · rw [if_pos h3, List.map_cons, if_pos (by rw [h1, h2, h3]; rfl)]
      · rw [if_neg h3, if_neg (by
          intro hc
          simp only [Bool.and_eq_true] at hc
          exact h3 hc.2)]
    · rw [if_neg h2, if_neg (by
        intro hc
        simp only [Bool.and_eq_true] at hc
        exact h2 hc.1.2)]
  · rw [if_neg h1, if_neg (by
      intro hc
      simp only [Bool.and_eq_true] at hc
      exact h1 hc.1.1)]

theorem find_similar_map_congr (n : SudokuNumber) (ig : Option BlockIndex)
    (b d : SudokuBoard) (h : FrEq b d) :
    ∀ l : List BlockIndex,
      SudokuBoard.find_similar_in_container n (l.map b) ig =
        SudokuBoard.find_similar_in_container n (l.map d) ig := by
  intro l
  induction l with
  | nil => rfl
  | cons p t ih =>
      rw [List.map_cons, List.map_cons, find_similar_cons, find_similar_cons, ih,
        (h p).1, fr_filter_one (b p) (d p) (h p).2, fr_filter_three (b p) (d p) (h p).2 n]

theorem SudokuBoard.find_mistakes_congr (b d : SudokuBoard) (h : FrEq b d)
    (idx : BlockIndex) (n : SudokuNumber) :
    SudokuBoard.find_mistakes b idx n = SudokuBoard.find_mistakes d idx n := by
  unfold SudokuBoard.find_mistakes
  simp only [SudokuBoard.get_row, SudokuBoard.get_col, SudokuBoard.get_square]
  rw [find_similar_map_congr n (some idx) b d h (SudokuBoard.row_indexes idx.row),
    find_similar_map_congr n (some idx) b d h (SudokuBoard.col_indexes idx.col),
    find_similar_map_congr n (some idx) b d h (SudokuBoard.square_indexes idx.square_number)]

theorem SudokuBoard.find_resolved_congr (b d : SudokuBoard) (h : FrEq b d)
    (idx : BlockIndex) (hst : (b idx).status = (d idx).status) :
    SudokuBoard.find_resolved_block_mistakes b idx =
      SudokuBoard.find_resolved_block_mistakes d idx := by
  unfold SudokuBoard.find_resolved_block_mistakes SudokuBoard.get_block
  rw [hst]
  cases hr : (d idx).status.as_resolved
  · rfl
  · exact SudokuBoard.find_mistakes_congr b d h idx _

theorem SudokuBoard.mem_dedupConsec {α : Type} [DecidableEq α] (l : List α) (x : α)
    (h : x ∈ SudokuBoard.dedupConsec l) : x ∈ l := by
  induction l with
  | nil => exact absurd h (List.not_mem_nil x)
  | cons a t ih =>
      cases hd : SudokuBoard.dedupConsec t with
      | nil =>
          have heq : SudokuBoard.dedupConsec (a :: t) = [a] := by
            unfold SudokuBoard.dedupConsec
            rw [hd]
          rw [heq] at h
          rw [List.mem_singleton.mp h]
          exact List.mem_cons_self a t
      | cons b r =>
          have heq : SudokuBoard.dedupConsec (a :: t) =
              if a = b then b :: r else a :: b :: r := by
            unfold SudokuBoard.dedupConsec
            rw [hd]
          rw [heq] at h
          by_cases hab : a = b
          · rw [if_pos hab] at h
            rw [← hd] at h
            exact List.mem_cons_of_mem a (ih h)
          · rw [if_neg hab] at h
            rcases List.mem_cons.mp h with h1 | h2
            · rw [h1]
              exact List.mem_cons_self a t
            · rw [← hd] at h2
              exact List.mem_cons_of_mem a (ih h2)

theorem SudokuBoard.find_mistakes_mem_ne (d : SudokuBoard) (i : BlockIndex)
    (n : SudokuNumber) (l : List BlockIndex)
    (h : SudokuBoard.find_mistakes d i n = some l) (q : BlockIndex) (hq : q ∈ l) :
    q ≠ i := by
  unfold SudokuBoard.find_mistakes at h
  simp only [SudokuBoard.get_row, SudokuBoard.get_col, SudokuBoard.get_square] at h
  by_cases he : (SudokuBoard.dedupConsec
      (SudokuBoard.find_similar_in_container n ((SudokuBoard.row_indexes i.row).map d)
          (some i) ++
        SudokuBoard.find_similar_in_container n ((SudokuBoard.col_indexes i.col).map d)
          (some i) ++
        SudokuBoard.find_similar_in_container n
          ((SudokuBoard.square_indexes i.square_number).map d) (some i))).isEmpty = true
  · rw [if_pos he] at h
    exact Option.noConfusion h
  · rw [if_neg he] at h
    injection h with hl
    rw [← hl] at hq
    have hq2 := SudokuBoard.mem_dedupConsec _ q hq
    rcases List.mem_append.mp hq2 with hq3 | hq3
    · rcases List.mem_append.mp hq3 with hq4 | hq4
      · obtain ⟨p, _, hpq, hpne, _⟩ := (SudokuBoard.mem_find_similar d n _ i q).mp hq4
        rw [hpq] at hpne
        exact hpne
      · obtain ⟨p, _, hpq, hpne, _⟩ := (SudokuBoard.mem_find_similar d n _ i q).mp hq4
        rw [hpq] at hpne
        exact hpne
    · obtain ⟨p, _, hpq, hpne, _⟩ := (SudokuBoard.mem_find_similar d n _ i q).mp hq3
      rw [hpq] at hpne
      exact hpne

theorem SudokuBoard.find_resolved_mem_ne (d : SudokuBoard) (i : BlockIndex)
    (l : List BlockIndex) (h : SudokuBoard.find_resolved_block_mistakes d i = some l)
    (q : BlockIndex) (hq : q ∈ l) : q ≠ i := by
  unfold SudokuBoard.find_resolved_block_mistakes at h
  cases hr : (SudokuBoard.get_block d i).status.as_resolved with
  | none =>
      rw [hr] at h
      exact Option.noConfusion h
  | some n =>
      rw [hr] at h
      exact SudokuBoard.find_mistakes_mem_ne d i n l h q hq

theorem tag_fold_eval (t : Option Conflicting) :
    ∀ (l : List BlockIndex) (d : SudokuBoard) (p : BlockIndex),
      (l.foldl (fun bd block_index => SudokuBoard.set_block bd block_index
          { SudokuBoard.get_block bd block_index with conflicting := t }) d) p =
        if p ∈ l then { d p with conflicting := t } else d p := by
  intro l
  induction l with
  | nil =>
      intro d p
      exact (if_neg (List.not_mem_nil p)).symm
  | cons a rest ih =>
      intro d p
      rw [List.foldl_cons, ih]
      simp only []
      rw [SudokuBoard.set_block_eval]
      by_cases hpr : p ∈ rest
      · rw [if_pos hpr, if_pos (List.mem_cons_of_mem a hpr)]
        by_cases hpa : p = a
        · rw [if_pos hpa, hpa]
          rfl
        · rw [if_neg hpa]
      · rw [if_neg hpr]
        by_cases hpa : p = a
        · rw [if_pos hpa, if_pos (by rw [hpa]; exact List.mem_cons_self a rest), hpa]
          rfl
        · rw [if_neg hpa, if_neg (by
            intro hmem
            rcases List.mem_cons.mp hmem with h1 | h1
            · exact hpa h1
            · exact hpr h1)]

theorem tag_fold_skip_eval (i : BlockIndex) :
    ∀ (l : List BlockIndex) (d : SudokuBoard) (p : BlockIndex),
      (l.foldl (fun bd affected => if affected = i then bd
          else SudokuBoard.set_block bd affected
            { SudokuBoard.get_block bd affected with
              conflicting := some (.AffectedBy i) }) d) p =
        if p ∈ l ∧ p ≠ i then { d p with conflicting := some (.AffectedBy i) } else d p := by
  intro l
  induction l with
  | nil =>
      intro d p
      exact (if_neg (fun hc => List.not_mem_nil p hc.1)).symm
  | cons a rest ih =>
      intro d p
      rw [List.foldl_cons, ih]
      simp only []
      by_cases hai : a = i
      · rw [if_pos hai]
        by_cases hpr : p ∈ rest ∧ p ≠ i
        · rw [if_pos hpr,
            if_pos (show p ∈ a :: rest ∧ p ≠ i from ⟨List.mem_cons_of_mem a hpr.1, hpr.2⟩)]
        · rw [if_neg hpr, if_neg (by
            intro hc
            apply hpr
            rcases List.mem_cons.mp hc.1 with h1 | h1
            · exact absurd (h1.trans hai) hc.2
            · exact ⟨h1, hc.2⟩)]
      · rw [if_neg hai, SudokuBoard.set_block_eval]
        by_cases hpr : p ∈ rest ∧ p ≠ i
        · rw [if_pos hpr,
            if_pos (show p ∈ a :: rest ∧ p ≠ i from ⟨List.mem_cons_of_mem a hpr.1, hpr.2⟩)]
          by_cases hpa : p = a
          · rw [if_pos hpa, hpa]
            rfl
          · rw [if_neg hpa]
        · rw [if_neg hpr]
          by_cases hpa : p = a
          · rw [if_pos hpa,
              if_pos (show p ∈ a :: rest ∧ p ≠ i from
                ⟨by rw [hpa]; exact List.mem_cons_self a rest,
                  by rw [hpa]; exact hai⟩), hpa]
            rfl
          · rw [if_neg hpa, if_neg (by
              intro hc
              apply hpr
              rcases List.mem_cons.mp hc.1 with h1 | h1
              · exact absurd h1 hpa
              · exact ⟨h1, hc.2⟩)]

theorem SudokuBlock.conflicting_collapse (x : SudokuBlock) (c1 c2 : Option Conflicting) :
    ({ ({ x with conflicting := c1 } : SudokuBlock) with conflicting := c2 } : SudokuBlock) =
      { x with conflicting := c2 } := rfl

theorem SudokuBoard.clear_all_apply_stable (b : SudokuBoard) (i p : BlockIndex)
    (h : confTagAll i ((b p).conflicting) = false) :
    SudokuBoard.clear_all_previous_conflicts b i p = b p := by
  rw [SudokuBoard.clear_all_eval, if_neg (by rw [h]; exact Bool.false_ne_true)]

theorem SudokuBoard.clear_all_apply_hit (b : SudokuBoard) (i p : BlockIndex)
    (h : confTagAll i ((b p).conflicting) = true) :
    SudokuBoard.clear_all_previous_conflicts b i p = { b p with conflicting := none } := by
  rw [SudokuBoard.clear_all_eval, if_pos h]

theorem SudokuBoard.mark_conflicts_unresolved_eq (d : SudokuBoard) (i : BlockIndex) :
    SudokuBoard.mark_conflicts_unresolved d i =
      (SudokuBoard.clear_all_previous_conflicts
        (SudokuBoard.set_block d i { d i with conflicting := none }) i, true) := rfl

theorem SudokuBoard.mark_conflicts_unresolved_idem (d : SudokuBoard) (i : BlockIndex) :
    SudokuBoard.mark_conflicts_unresolved (SudokuBoard.mark_conflicts_unresolved d i).1 i =
      SudokuBoard.mark_conflicts_unresolved d i := by
  rw [SudokuBoard.mark_conflicts_unresolved_eq d i]
  show SudokuBoard.mark_conflicts_unresolved
      (SudokuBoard.clear_all_previous_conflicts
        (SudokuBoard.set_block d i { d i with conflicting := none }) i) i =
    (SudokuBoard.clear_all_previous_conflicts
      (SudokuBoard.set_block d i { d i with conflicting := none }) i, true)
  rw [SudokuBoard.mark_conflicts_unresolved_eq]
  have h1 : (SudokuBoard.set_block d i { d i with conflicting := none }) i =
      { d i with conflicting := none } := by
    rw [SudokuBoard.set_block_eval, if_pos rfl]
  have h2 : confTagAll i
      (((SudokuBoard.set_block d i { d i with conflicting := none }) i).conflicting) =
        false :=
    (congrArg (fun blk => confTagAll i blk.conflicting) h1).trans rfl
  have hEi : SudokuBoard.clear_all_previous_conflicts
      (SudokuBoard.set_block d i { d i with conflicting := none }) i i =
      { d i with conflicting := none } :=
    (SudokuBoard.clear_all_apply_stable _ i i h2).trans h1
  have hcoll : { (SudokuBoard.clear_all_previous_conflicts
      (SudokuBoard.set_block d i { d i with conflicting := none }) i i) with
        conflicting := none } =
      SudokuBoard.clear_all_previous_conflicts
        (SudokuBoard.set_block d i { d i with conflicting := none }) i i :=
    ((congrArg (fun blk => { blk with conflicting := none }) hEi).trans
      (SudokuBlock.conflicting_collapse (d i) none none)).trans hEi.symm
  rw [hcoll, SudokuBoard.set_block_self,
    SudokuBoard.clear_all_of_stable _ i
      (fun p => confTagAll_clear (SudokuBoard.set_block d i { d i with conflicting := none })
        i p)]

theorem SudokuBoard.mark_conflicts_resolved_eq_none (d : SudokuBoard) (i : BlockIndex)
    (h : SudokuBoard.find_resolved_block_mistakes
        (SudokuBoard.clear_all_previous_conflicts d i) i = none) :
    SudokuBoard.mark_conflicts_resolved d i =
      (SudokuBoard.set_block (SudokuBoard.clear_all_previous_conflicts d i) i
        { SudokuBoard.clear_all_previous_conflicts d i i with conflicting := none },
        true) := by
  simp only [SudokuBoard.mark_conflicts_resolved]
  rw [h]
  rfl

theorem SudokuBoard.mark_conflicts_resolved_eq_some (d : SudokuBoard) (i : BlockIndex)
    (aff : List BlockIndex)
    (h : SudokuBoard.find_resolved_block_mistakes
        (SudokuBoard.clear_all_previous_conflicts d i) i = some aff) :
    SudokuBoard.mark_conflicts_resolved d i =
      (aff.foldl
        (fun bd affected => if affected = i then bd
          else SudokuBoard.set_block bd affected
            { SudokuBoard.get_block bd affected with conflicting := some (.AffectedBy i) })
        (SudokuBoard.set_block (SudokuBoard.clear_all_previous_conflicts d i) i
          { SudokuBoard.clear_all_previous_conflicts d i i with
            conflicting := some .Source }),
        false) := by
  simp only [SudokuBoard.mark_conflicts_resolved]
  rw [h]
  rfl

theorem SudokuBoard.mark_conflicts_resolved_idem (d : SudokuBoard) (i : BlockIndex) :
    SudokuBoard.mark_conflicts_resolved (SudokuBoard.mark_conflicts_resolved d i).1 i =
      SudokuBoard.mark_conflicts_resolved d i := by
  cases hf : SudokuBoard.find_resolved_block_mistakes
      (SudokuBoard.clear_all_previous_conflicts d i) i with
  | none =>
      rw [SudokuBoard.mark_conflicts_resolved_eq_none d i hf]
      show SudokuBoard.mark_conflicts_resolved
          (SudokuBoard.set_block (SudokuBoard.clear_all_previous_conflicts d i) i
            { SudokuBoard.clear_all_previous_conflicts d i i with conflicting := none }) i =
        (SudokuBoard.set_block (SudokuBoard.clear_all_previous_conflicts d i) i
          { SudokuBoard.clear_all_previous_conflicts d i i with conflicting := none },
          true)
      have hCi : (SudokuBoard.set_block (SudokuBoard.clear_all_previous_conflicts d i) i
          { SudokuBoard.clear_all_previous_conflicts d i i with conflicting := none }) i =
          { SudokuBoard.clear_all_previous_conflicts d i i with conflicting := none } := by
        rw [SudokuBoard.set_block_eval, if_pos rfl]
      have hCne : ∀ p, p ≠ i →
          (SudokuBoard.set_block (SudokuBoard.clear_all_previous_conflicts d i) i
            { SudokuBoard.clear_all_previous_conflicts d i i with conflicting := none }) p =
          SudokuBoard.clear_all_previous_conflicts d i p := fun p hp => by
        rw [SudokuBoard.set_block_eval, if_neg hp]
      have hstab : ∀ p, confTagAll i
          (((SudokuBoard.set_block (SudokuBoard.clear_all_previous_conflicts d i) i
            { SudokuBoard.clear_all_previous_conflicts d i i with
              conflicting := none }) p).conflicting) = false := by
        intro p
        by_cases hp : p = i
        · rw [hp]
          exact (congrArg (fun blk => confTagAll i blk.conflicting) hCi).trans rfl
        · exact (congrArg (fun blk => confTagAll i blk.conflicting) (hCne p hp)).trans
            (confTagAll_clear d i p)
      have hclr : SudokuBoard.clear_all_previous_conflicts
          (SudokuBoard.set_block (SudokuBoard.clear_all_previous_conflicts d i) i
            { SudokuBoard.clear_all_previous_conflicts d i i with conflicting := none }) i =
          SudokuBoard.set_block (SudokuBoard.clear_all_previous_conflicts d i) i
            { SudokuBoard.clear_all_previous_conflicts d i i with conflicting := none } :=
        SudokuBoard.clear_all_of_stable _ i hstab
      have hsie : StatusIndexEq (SudokuBoard.clear_all_previous_conflicts d i)
          (SudokuBoard.set_block (SudokuBoard.clear_all_previous_conflicts d i) i
            { SudokuBoard.clear_all_previous_conflicts d i i with conflicting := none }) :=
        StatusIndexEq.set_conflicting (SudokuBoard.clear_all_previous_conflicts d i) i none
      have hstc : ((SudokuBoard.set_block (SudokuBoard.clear_all_previous_conflicts d i) i
          { SudokuBoard.clear_all_previous_conflicts d i i with
            conflicting := none }) i).status =
          (SudokuBoard.clear_all_previous_conflicts d i i).status :=
        (congrArg SudokuBlock.status hCi).trans rfl
      have hf2 : SudokuBoard.find_resolved_block_mistakes
          (SudokuBoard.clear_all_previous_conflicts
            (SudokuBoard.set_block (SudokuBoard.clear_all_previous_conflicts d i) i
              { SudokuBoard.clear_all_previous_conflicts d i i with
                conflicting := none }) i) i = none := by
        rw [hclr]
        rw [SudokuBoard.find_resolved_congr _ (SudokuBoard.clear_all_previous_conflicts d i)
          (FrEq.symm (FrEq.of_statusIndexEq hsie)) i hstc]
        exact hf
      rw [SudokuBoard.mark_conflicts_resolved_eq_none _ i hf2, hclr]
      have hcoll : { (SudokuBoard.set_block (SudokuBoard.clear_all_previous_conflicts d i) i
          { SudokuBoard.clear_all_previous_conflicts d i i with
            conflicting := none }) i with conflicting := none } =
          (SudokuBoard.set_block (SudokuBoard.clear_all_previous_conflicts d i) i
            { SudokuBoard.clear_all_previous_conflicts d i i with
              conflicting := none }) i :=
        ((congrArg (fun blk => { blk with conflicting := none }) hCi).trans
          (SudokuBlock.conflicting_collapse
            (SudokuBoard.clear_all_previous_conflicts d i i) none none)).trans hCi.symm
      rw [hcoll, SudokuBoard.set_block_self]
  | some aff =>
      rw [SudokuBoard.mark_conflicts_resolved_eq_some d i aff hf]
      show SudokuBoard.mark_conflicts_resolved
          (aff.foldl
            (fun bd affected => if affected = i then bd
              else SudokuBoard.set_block bd affected
                { SudokuBoard.get_block bd affected with
                  conflicting := some (.AffectedBy i) })
            (SudokuBoard.set_block (SudokuBoard.clear_all_previous_conflicts d i) i
              { SudokuBoard.clear_all_previous_conflicts d i i with
                conflicting := some .Source })) i =
        (aff.foldl
          (fun bd affected => if affected = i then bd
            else SudokuBoard.set_block bd affected
              { SudokuBoard.get_block bd affected with
                conflicting := some (.AffectedBy i) })
          (SudokuBoard.set_block (SudokuBoard.clear_all_previous_conflicts d i) i
            { SudokuBoard.clear_all_previous_conflicts d i i with
              conflicting := some .Source }),
          false)
      have hB2i : (SudokuBoard.set_block (SudokuBoard.clear_all_previous_conflicts d i) i
          { SudokuBoard.clear_all_previous_conflicts d i i with
            conflicting := some .Source }) i =
          { SudokuBoard.clear_all_previous_conflicts d i i with
            conflicting := some .Source } := by
        rw [SudokuBoard.set_block_eval, if_pos rfl]
      have hB2ne : ∀ p, p ≠ i →
          (SudokuBoard.set_block (SudokuBoard.clear_all_previous_conflicts d i) i
            { SudokuBoard.clear_all_previous_conflicts d i i with
              conflicting := some .Source }) p =
          SudokuBoard.clear_all_previous_conflicts d i p := fun p hp => by
        rw [SudokuBoard.set_block_eval, if_neg hp]
      have hCp : ∀ p,
          (aff.foldl
            (fun bd affected => if affected = i then bd
              else SudokuBoard.set_block bd affected
                { SudokuBoard.get_block bd affected with
                  conflicting := some (.AffectedBy i) })
            (SudokuBoard.set_block (SudokuBoard.clear_all_previous_conflicts d i) i
              { SudokuBoard.clear_all_previous_conflicts d i i with
                conflicting := some .Source })) p =
          if p ∈ aff ∧ p ≠ i then
            { (SudokuBoard.set_block (SudokuBoard.clear_all_previous_conflicts d i) i
              { SudokuBoard.clear_all_previous_conflicts d i i with
                conflicting := some .Source }) p with
              conflicting := some (.AffectedBy i) }
          else
            (SudokuBoard.set_block (SudokuBoard.clear_all_previous_conflicts d i) i
              { SudokuBoard.clear_all_previous_conflicts d i i with
                conflicting := some .Source }) p :=
        fun p => tag_fold_skip_eval i aff _ p
      have hCi : (aff.foldl
          (fun bd affected => if affected = i then bd
            else SudokuBoard.set_block bd affected
              { SudokuBoard.get_block bd affected with
                conflicting := some (.AffectedBy i) })
          (SudokuBoard.set_block (SudokuBoard.clear_all_previous_conflicts d i) i
            { SudokuBoard.clear_all_previous_conflicts d i i with
              conflicting := some .Source })) i =
          { SudokuBoard.clear_all_previous_conflicts d i i with
            conflicting := some .Source } := by
        rw [hCp i, if_neg (fun hc => hc.2 rfl), hB2i]
      have hCmem : ∀ p, p ∈ aff → p ≠ i →
          (aff.foldl
            (fun bd affected => if affected = i then bd
              else SudokuBoard.set_block bd affected
                { SudokuBoard.get_block bd affected with
                  conflicting := some (.AffectedBy i) })
            (SudokuBoard.set_block (SudokuBoard.clear_all_previous_conflicts d i) i
              { SudokuBoard.clear_all_previous_conflicts d i i with
                conflicting := some .Source })) p =
          { SudokuBoard.clear_all_previous_conflicts d i p with
            conflicting := some (.AffectedBy i) } := fun p hm hp => by
        rw [hCp p, if_pos (show p ∈ aff ∧ p ≠ i from ⟨hm, hp⟩), hB2ne p hp]
      have hCout : ∀ p, ¬(p ∈ aff ∧ p ≠ i) →
          (aff.foldl
            (fun bd affected => if affected = i then bd
              else SudokuBoard.set_block bd affected
                { SudokuBoard.get_block bd affected with
                  conflicting := some (.AffectedBy i) })
            (SudokuBoard.set_block (SudokuBoard.clear_all_previous_conflicts d i) i
              { SudokuBoard.clear_all_previous_conflicts d i i with
                conflicting := some .Source })) p =
          (SudokuBoard.set_block (SudokuBoard.clear_all_previous_conflicts d i) i
            { SudokuBoard.clear_all_previous_conflicts d i i with
              conflicting := some .Source }) p := fun p hc => by
        rw [hCp p, if_neg hc]
      have hDi : SudokuBoard.clear_all_previous_conflicts
          (aff.foldl
            (fun bd affected => if affected = i then bd
              else SudokuBoard.set_block bd affected
                { SudokuBoard.get_block bd affected with
                  conflicting := some (.AffectedBy i) })
            (SudokuBoard.set_block (SudokuBoard.clear_all_previous_conflicts d i) i
              { SudokuBoard.clear_all_previous_conflicts d i i with
                conflicting := some .Source })) i i =
          (aff.foldl
            (fun bd affected => if affected = i then bd
              else SudokuBoard.set_block bd affected
                { SudokuBoard.get_block bd affected with
                  conflicting := some (.AffectedBy i) })
            (SudokuBoard.set_block (SudokuBoard.clear_all_previous_conflicts d i) i
              { SudokuBoard.clear_all_previous_conflicts d i i with
                conflicting := some .Source })) i :=
        SudokuBoard.clear_all_apply_stable _ i i
          ((congrArg (fun blk => confTagAll i blk.conflicting) hCi).trans rfl)
      have hDmem : ∀ p, p ∈ aff → p ≠ i →
          SudokuBoard.clear_all_previous_conflicts
            (aff.foldl
              (fun bd affected => if affected = i then bd
                else SudokuBoard.set_block bd affected
                  { SudokuBoard.get_block bd affected with
                    conflicting := some (.AffectedBy i) })
              (SudokuBoard.set_block (SudokuBoard.clear_all_previous_conflicts d i) i
                { SudokuBoard.clear_all_previous_conflicts d i i with
                  conflicting := some .Source })) i p =
          { SudokuBoard.clear_all_previous_conflicts d i p with conflicting := none } :=
        fun p hm hp =>
          (SudokuBoard.clear_all_apply_hit _ i p
            ((congrArg (fun blk => confTagAll i blk.conflicting) (hCmem p hm hp)).trans
              (by simp [confTagAll, Conflicting.is_affected_by_and,
                Conflicting.is_affected_by_possibilities_and]))).trans
            ((congrArg (fun blk => { blk with conflicting := none }) (hCmem p hm hp)).trans
              (SudokuBlock.conflicting_collapse
                (SudokuBoard.clear_all_previous_conflicts d i p)
                (some (.AffectedBy i)) none))
      have hDout : ∀ p, ¬(p ∈ aff ∧ p ≠ i) → p ≠ i →
          SudokuBoard.clear_all_previous_conflicts
            (aff.foldl
              (fun bd affected => if affected = i then bd
                else SudokuBoard.set_block bd affected
                  { SudokuBoard.get_block bd affected with
                    conflicting := some (.AffectedBy i) })
              (SudokuBoard.set_block (SudokuBoard.clear_all_previous_conflicts d i) i
                { SudokuBoard.clear_all_previous_conflicts d i i with
                  conflicting := some .Source })) i p =
          SudokuBoard.clear_all_previous_conflicts d i p := fun p hc hp =>
        (SudokuBoard.clear_all_apply_stable _ i p
          ((congrArg (fun blk => confTagAll i blk.conflicting)
            ((hCout p hc).trans (hB2ne p hp))).trans (confTagAll_clear d i p))).trans
          ((hCout p hc).trans (hB2ne p hp))
      have hsie1 : StatusIndexEq (SudokuBoard.clear_all_previous_conflicts d i)
          (SudokuBoard.set_block (SudokuBoard.clear_all_previous_conflicts d i) i
            { SudokuBoard.clear_all_previous_conflicts d i i with
              conflicting := some .Source }) :=
        StatusIndexEq.set_conflicting (SudokuBoard.clear_all_previous_conflicts d i) i
          (some .Source)
      have hsie2 : StatusIndexEq
          (SudokuBoard.set_block (SudokuBoard.clear_all_previous_conflicts d i) i
            { SudokuBoard.clear_all_previous_conflicts d i i with
              conflicting := some .Source })
          (aff.foldl
            (fun bd affected => if affected = i then bd
              else SudokuBoard.set_block bd affected
                { SudokuBoard.get_block bd affected with
                  conflicting := some (.AffectedBy i) })
            (SudokuBoard.set_block (SudokuBoard.clear_all_previous_conflicts d i) i
              { SudokuBoard.clear_all_previous_conflicts d i i with
                conflicting := some .Source })) :=
        StatusIndexEq.tag_foldl aff id (fun a => !decide (a = i))
          (fun _ => some (.AffectedBy i)) _
          (fun bd affected =>
            if affected = i then bd
            else SudokuBoard.set_block bd affected
              { SudokuBoard.get_block bd affected with
                conflicting := some (.AffectedBy i) })
          (fun bd a => by by_cases ha : a = i <;> simp [ha])
      have hsieD : StatusIndexEq (SudokuBoard.clear_all_previous_conflicts d i)
          (SudokuBoard.clear_all_previous_conflicts
            (aff.foldl
              (fun bd affected => if affected = i then bd
                else SudokuBoard.set_block bd affected
                  { SudokuBoard.get_block bd affected with
                    conflicting := some (.AffectedBy i) })
              (SudokuBoard.set_block (SudokuBoard.clear_all_previous_conflicts d i) i
                { SudokuBoard.clear_all_previous_conflicts d i i with
                  conflicting := some .Source })) i) :=
        StatusIndexEq.trans (StatusIndexEq.trans hsie1 hsie2)
          (StatusIndexEq.clear_all_previous_conflicts _ i)
      have hf2 : SudokuBoard.find_resolved_block_mistakes
          (SudokuBoard.clear_all_previous_conflicts
            (aff.foldl
              (fun bd affected => if affected = i then bd
                else SudokuBoard.set_block bd affected
                  { SudokuBoard.get_block bd affected with
                    conflicting := some (.AffectedBy i) })
              (SudokuBoard.set_block (SudokuBoard.clear_all_previous_conflicts d i) i
                { SudokuBoard.clear_all_previous_conflicts d i i with
                  conflicting := some .Source })) i) i = some aff := by
        rw [SudokuBoard.find_resolved_congr _ (SudokuBoard.clear_all_previous_conflicts d i)
          (FrEq.symm (FrEq.of_statusIndexEq hsieD)) i ((hsieD i).1)]
        exact hf
      rw [SudokuBoard.mark_conflicts_resolved_eq_some _ i aff hf2]
      refine congrArg (fun x => (x, false)) ?_
      funext p
      rw [tag_fold_skip_eval i, SudokuBoard.set_block_eval]
      by_cases hpi : p = i
      · rw [if_neg (fun hc => hc.2 hpi), if_pos hpi, hpi, hDi, hCi]
      · by_cases hpa : p ∈ aff
        · rw [if_pos (show p ∈ aff ∧ p ≠ i from ⟨hpa, hpi⟩), if_neg hpi,
            hDmem p hpa hpi, hCmem p hpa hpi]
        · rw [if_neg (fun hc => hpa hc.1), if_neg hpi,
            hDout p (fun hc => hpa hc.1) hpi, hCout p (fun hc => hpa hc.1), hB2ne p hpi]

theorem SudokuBoard.mcp_board_status (b : SudokuBoard) (idx : BlockIndex)
    (pos : SudokuNumber) (ic : Bool) (pp : Possibilities)
    (hst : (b idx).status = .Possibilities pp) :
    ∃ pq, (((SudokuBoard.mark_conflicts_possibilities b idx (some (pos, ic))).1) idx).status =
      SudokuBlockStatus.Possibilities pq := by
  have hstS1 : ((SudokuBoard.mcp_step1 b idx ic) idx).status = .Possibilities pp :=
    ((StatusIndexEq.mcp_step1_sie b idx ic) idx).1.trans hst
  cases hsim : SudokuBoard.mcp_similar b idx pos ic with
  | nil =>
      refine ⟨{ pp with conflicting_numbers := pp.conflicting_numbers.del_number pos }, ?_⟩
      rw [SudokuBoard.mark_conflicts_possibilities_some, hsim, SudokuBoard.mcp_finish_nil]
      exact ((StatusIndexEq.clear_affected_by_possibilities_conflicts
          (SudokuBoard.modify_possibilities (SudokuBoard.mcp_step1 b idx ic) idx fun poss =>
            { poss with conflicting_numbers := poss.conflicting_numbers.del_number pos })
          idx pos) idx).1.trans
        (SudokuBoard.modify_status_at (SudokuBoard.mcp_step1 b idx ic) idx _ pp hstS1)
  | cons q rest =>
      refine ⟨{ pp with conflicting_numbers := pp.conflicting_numbers.set_number pos }, ?_⟩
      rw [SudokuBoard.mark_conflicts_possibilities_some, hsim, SudokuBoard.mcp_finish_cons]
      exact ((StatusIndexEq.tag_foldl (q :: rest) id (fun _ => true)
          (fun _ => some (.AffectedByPossibilities idx pos))
          (SudokuBoard.modify_possibilities (SudokuBoard.mcp_step1 b idx ic) idx fun poss =>
            { poss with conflicting_numbers := poss.conflicting_numbers.set_number pos })
          (fun bd block_index =>
            SudokuBoard.set_block bd block_index
              { SudokuBoard.get_block bd block_index with
                conflicting := some (.AffectedByPossibilities idx pos) })
          (fun bd x => rfl)) idx).1.trans
        (SudokuBoard.modify_status_at (SudokuBoard.mcp_step1 b idx ic) idx _ pp hstS1)

theorem mcp_idem_of_similar_nil (b S1 : SudokuBoard) (idx : BlockIndex) (pos : SudokuNumber)
    (ic : Bool) (pp : Possibilities)
    (hst : (b idx).status = .Possibilities pp)
    (hS1 : SudokuBoard.mcp_step1 b idx ic = S1)
    (hsim : SudokuBoard.mcp_similar b idx pos ic = [])
    (haffb : ic = false → SudokuBoard.possibilities_count b idx = 1 →
      ∀ p, confTagAff idx ((S1 p).conflicting) = false) :
    SudokuBoard.mark_conflicts_possibilities
        (SudokuBoard.mark_conflicts_possibilities b idx (some (pos, ic))).1 idx
        (some (pos, ic)) =
      SudokuBoard.mark_conflicts_possibilities b idx (some (pos, ic)) := by
  have hstS1 : (S1 idx).status = .Possibilities pp := by
    rw [← hS1]
    exact ((StatusIndexEq.mcp_step1_sie b idx ic) idx).1.trans hst
  have hfirst : SudokuBoard.mark_conflicts_possibilities b idx (some (pos, ic)) =
      (SudokuBoard.clear_affected_by_possibilities_conflicts
        (SudokuBoard.modify_possibilities S1 idx fun poss =>
          { poss with conflicting_numbers := poss.conflicting_numbers.del_number pos })
        idx pos, true) := by
    rw [SudokuBoard.mark_conflicts_possibilities_some, hS1, hsim, SudokuBoard.mcp_finish_nil]
  rw [hfirst]
  show SudokuBoard.mark_conflicts_possibilities
      (SudokuBoard.clear_affected_by_possibilities_conflicts
        (SudokuBoard.modify_possibilities S1 idx fun poss =>
          { poss with conflicting_numbers := poss.conflicting_numbers.del_number pos })
        idx pos) idx (some (pos, ic)) =
    (SudokuBoard.clear_affected_by_possibilities_conflicts
      (SudokuBoard.modify_possibilities S1 idx fun poss =>
        { poss with conflicting_numbers := poss.conflicting_numbers.del_number pos })
      idx pos, true)
  have hCst : ((SudokuBoard.clear_affected_by_possibilities_conflicts
      (SudokuBoard.modify_possibilities S1 idx fun poss =>
        { poss with conflicting_numbers := poss.conflicting_numbers.del_number pos })
      idx pos) idx).status =
      .Possibilities { pp with
        conflicting_numbers := pp.conflicting_numbers.del_number pos } :=
    ((StatusIndexEq.clear_affected_by_possibilities_conflicts
      (SudokuBoard.modify_possibilities S1 idx fun poss =>
        { poss with conflicting_numbers := poss.conflicting_numbers.del_number pos })
      idx pos) idx).1.trans
      (SudokuBoard.modify_status_at S1 idx _ pp hstS1)
  have hcnt : SudokuBoard.possibilities_count
      (SudokuBoard.clear_affected_by_possibilities_conflicts
        (SudokuBoard.modify_possibilities S1 idx fun poss =>
          { poss with conflicting_numbers := poss.conflicting_numbers.del_number pos })
        idx pos) idx = SudokuBoard.possibilities_count b idx :=
    (SudokuBoard.possibilities_count_eq _ idx _ hCst).trans
      (SudokuBoard.possibilities_count_eq b idx pp hst).symm
  have haffC : ic = false → SudokuBoard.possibilities_count
      (SudokuBoard.clear_affected_by_possibilities_conflicts
        (SudokuBoard.modify_possibilities S1 idx fun poss =>
          { poss with conflicting_numbers := poss.conflicting_numbers.del_number pos })
        idx pos) idx = 1 →
      ∀ p, confTagAff idx
        (((SudokuBoard.clear_affected_by_possibilities_conflicts
          (SudokuBoard.modify_possibilities S1 idx fun poss =>
            { poss with conflicting_numbers := poss.conflicting_numbers.del_number pos })
          idx pos) p).conflicting) = false := by
    intro hic h1 p
    have h1b : SudokuBoard.possibilities_count b idx = 1 := by rw [← hcnt]; exact h1
    rcases SudokuBoard.clear_poss_conflicting_cases
        (SudokuBoard.modify_possibilities S1 idx fun poss =>
          { poss with conflicting_numbers := poss.conflicting_numbers.del_number pos })
        idx pos p with hc | hc
    · rw [hc]
      rfl
    · rw [hc, SudokuBoard.modify_conflicting]
      exact haffb hic h1b p
  have hS1C : SudokuBoard.mcp_step1
      (SudokuBoard.clear_affected_by_possibilities_conflicts
        (SudokuBoard.modify_possibilities S1 idx fun poss =>
          { poss with conflicting_numbers := poss.conflicting_numbers.del_number pos })
        idx pos) idx ic =
      SudokuBoard.clear_affected_by_possibilities_conflicts
        (SudokuBoard.modify_possibilities S1 idx fun poss =>
          { poss with conflicting_numbers := poss.conflicting_numbers.del_number pos })
        idx pos :=
    SudokuBoard.mcp_step1_stable _ idx ic haffC
  have hfr : FrEq S1
      (SudokuBoard.clear_affected_by_possibilities_conflicts
        (SudokuBoard.modify_possibilities S1 idx fun poss =>
          { poss with conflicting_numbers := poss.conflicting_numbers.del_number pos })
        idx pos) :=
    FrEq.fr_trans
      (FrEq.modify_possibilities_fr S1 idx fun poss =>
        { poss with conflicting_numbers := poss.conflicting_numbers.del_number pos })
      (FrEq.of_statusIndexEq
        (StatusIndexEq.clear_affected_by_possibilities_conflicts
          (SudokuBoard.modify_possibilities S1 idx fun poss =>
            { poss with conflicting_numbers := poss.conflicting_numbers.del_number pos })
          idx pos))
  have hsim2 : SudokuBoard.mcp_similar
      (SudokuBoard.clear_affected_by_possibilities_conflicts
        (SudokuBoard.modify_possibilities S1 idx fun poss =>
          { poss with conflicting_numbers := poss.conflicting_numbers.del_number pos })
        idx pos) idx pos ic = [] := by
    cases ic with
    | false =>
        rw [SudokuBoard.mcp_similar_false, hS1C,
          SudokuBoard.find_mistakes_congr _ S1 (FrEq.symm hfr) idx pos]
        have h0 := hsim
        rw [SudokuBoard.mcp_similar_false, hS1] at h0
        exact h0
    | true => rfl
  rw [SudokuBoard.mark_conflicts_possibilities_some, hS1C, hsim2,
    SudokuBoard.mcp_finish_nil]
  have hcol : ({ ({ pp with
      conflicting_numbers := pp.conflicting_numbers.del_number pos } : Possibilities) with
      conflicting_numbers := ({ pp with
        conflicting_numbers :=
          pp.conflicting_numbers.del_number pos } : Possibilities).conflicting_numbers.del_number
            pos } : Possibilities) =
      { pp with conflicting_numbers := pp.conflicting_numbers.del_number pos } := by
    show ({ pp with conflicting_numbers :=
        (pp.conflicting_numbers.del_number pos).del_number pos } : Possibilities) =
      ({ pp with conflicting_numbers := pp.conflicting_numbers.del_number pos } : Possibilities)
    rw [SudokuNumbers.del_number_idem]
  have hmod : SudokuBoard.modify_possibilities
      (SudokuBoard.clear_affected_by_possibilities_conflicts
        (SudokuBoard.modify_possibilities S1 idx fun poss =>
          { poss with conflicting_numbers := poss.conflicting_numbers.del_number pos })
        idx pos) idx
      (fun poss =>
        { poss with conflicting_numbers := poss.conflicting_numbers.del_number pos }) =
      SudokuBoard.clear_affected_by_possibilities_conflicts
        (SudokuBoard.modify_possibilities S1 idx fun poss =>
          { poss with conflicting_numbers := poss.conflicting_numbers.del_number pos })
        idx pos :=
    SudokuBoard.modify_possibilities_self _ idx _ _ hCst hcol
  rw [hmod]
  rw [SudokuBoard.clear_poss_of_stable _ idx pos
    (fun p => confTagPoss_clear
      (SudokuBoard.modify_possibilities S1 idx fun poss =>
        { poss with conflicting_numbers := poss.conflicting_numbers.del_number pos })
      idx pos p)]

theorem mcp_idem_of_similar_cons (b S1 : SudokuBoard) (idx : BlockIndex)
    (pos : SudokuNumber) (pp : Possibilities) (q : BlockIndex) (rest : List BlockIndex)
    (hst : (b idx).status = .Possibilities pp)
    (hS1 : SudokuBoard.mcp_step1 b idx false = S1)
    (hsim : SudokuBoard.mcp_similar b idx pos false = q :: rest)
    (haffb : SudokuBoard.possibilities_count b idx = 1 →
      ∀ p, confTagAff idx ((S1 p).conflicting) = false) :
    SudokuBoard.mark_conflicts_possibilities
        (SudokuBoard.mark_conflicts_possibilities b idx (some (pos, false))).1 idx
        (some (pos, false)) =
      SudokuBoard.mark_conflicts_possibilities b idx (some (pos, false)) := by
  have hstS1 : (S1 idx).status = .Possibilities pp := by
    rw [← hS1]
    exact ((StatusIndexEq.mcp_step1_sie b idx false) idx).1.trans hst
  have hfind : SudokuBoard.find_mistakes S1 idx pos = some (q :: rest) := by
    have h0 := hsim
    rw [SudokuBoard.mcp_similar_false, hS1] at h0
    cases hf0 : SudokuBoard.find_mistakes S1 idx pos with
    | none =>
        rw [hf0] at h0
        simp at h0
    | some l =>
        rw [hf0] at h0
        simp only [Option.getD_some] at h0
        rw [h0]
  have hfirst : SudokuBoard.mark_conflicts_possibilities b idx (some (pos, false)) =
      ((q :: rest).foldl
        (fun bd block_index =>
          SudokuBoard.set_block bd block_index
            { SudokuBoard.get_block bd block_index with
              conflicting := some (.AffectedByPossibilities idx pos) })
        (SudokuBoard.modify_possibilities S1 idx fun poss =>
          { poss with conflicting_numbers := poss.conflicting_numbers.set_number pos }),
        false) := by
    rw [SudokuBoard.mark_conflicts_possibilities_some, hS1, hsim,
      SudokuBoard.mcp_finish_cons]
  rw [hfirst]
  show SudokuBoard.mark_conflicts_possibilities
      ((q :: rest).foldl
        (fun bd block_index =>
          SudokuBoard.set_block bd block_index
            { SudokuBoard.get_block bd block_index with
              conflicting := some (.AffectedByPossibilities idx pos) })
        (SudokuBoard.modify_possibilities S1 idx fun poss =>
          { poss with conflicting_numbers := poss.conflicting_numbers.set_number pos }))
      idx (some (pos, false)) =
    ((q :: rest).foldl
      (fun bd block_index =>
        SudokuBoard.set_block bd block_index
          { SudokuBoard.get_block bd block_index with
            conflicting := some (.AffectedByPossibilities idx pos) })
      (SudokuBoard.modify_possibilities S1 idx fun poss =>
        { poss with conflicting_numbers := poss.conflicting_numbers.set_number pos }),
      false)
  have hCp : ∀ p,
      ((q :: rest).foldl
        (fun bd block_index =>
          SudokuBoard.set_block bd block_index
            { SudokuBoard.get_block bd block_index with
              conflicting := some (.AffectedByPossibilities idx pos) })
        (SudokuBoard.modify_possibilities S1 idx fun poss =>
          { poss with conflicting_numbers := poss.conflicting_numbers.set_number pos })) p =
      if p ∈ q :: rest then
        { (SudokuBoard.modify_possibilities S1 idx fun poss =>
            { poss with conflicting_numbers := poss.conflicting_numbers.set_number pos }) p with
          conflicting := some (.AffectedByPossibilities idx pos) }
      else
        (SudokuBoard.modify_possibilities S1 idx fun poss =>
          { poss with conflicting_numbers := poss.conflicting_numbers.set_number pos }) p :=
    fun p => tag_fold_eval (some (.AffectedByPossibilities idx pos)) (q :: rest) _ p
  have hsie : StatusIndexEq
      (SudokuBoard.modify_possibilities S1 idx fun poss =>
        { poss with conflicting_numbers := poss.conflicting_numbers.set_number pos })
      ((q :: rest).foldl
        (fun bd block_index =>
          SudokuBoard.set_block bd block_index
            { SudokuBoard.get_block bd block_index with
              conflicting := some (.AffectedByPossibilities idx pos) })
        (SudokuBoard.modify_possibilities S1 idx fun poss =>
          { poss with conflicting_numbers := poss.conflicting_numbers.set_number pos })) :=
    StatusIndexEq.tag_foldl (q :: rest) id (fun _ => true)
      (fun _ => some (.AffectedByPossibilities idx pos)) _
      (fun bd block_index =>
        SudokuBoard.set_block bd block_index
          { SudokuBoard.get_block bd block_index with
            conflicting := some (.AffectedByPossibilities idx pos) })
      (fun bd x => rfl)
  have hCst : (((q :: rest).foldl
      (fun bd block_index =>
        SudokuBoard.set_block bd block_index
          { SudokuBoard.get_block bd block_index with
            conflicting := some (.AffectedByPossibilities idx pos) })
      (SudokuBoard.modify_possibilities S1 idx fun poss =>
        { poss with conflicting_numbers := poss.conflicting_numbers.set_number pos })) idx).status =
      .Possibilities { pp with
        conflicting_numbers := pp.conflicting_numbers.set_number pos } :=
    ((hsie idx).1).trans (SudokuBoard.modify_status_at S1 idx _ pp hstS1)
  have hcnt : SudokuBoard.possibilities_count
      ((q :: rest).foldl
        (fun bd block_index =>
          SudokuBoard.set_block bd block_index
            { SudokuBoard.get_block bd block_index with
              conflicting := some (.AffectedByPossibilities idx pos) })
        (SudokuBoard.modify_possibilities S1 idx fun poss =>
          { poss with conflicting_numbers := poss.conflicting_numbers.set_number pos })) idx =
      SudokuBoard.possibilities_count b idx :=
    (SudokuBoard.possibilities_count_eq _ idx _ hCst).trans
      (SudokuBoard.possibilities_count_eq b idx pp hst).symm
  have haffC : false = false → SudokuBoard.possibilities_count
      ((q :: rest).foldl
        (fun bd block_index =>
          SudokuBoard.set_block bd block_index
            { SudokuBoard.get_block bd block_index with
              conflicting := some (.AffectedByPossibilities idx pos) })
        (SudokuBoard.modify_possibilities S1 idx fun poss =>
          { poss with conflicting_numbers := poss.conflicting_numbers.set_number pos })) idx = 1 →
      ∀ p, confTagAff idx
        ((((q :: rest).foldl
          (fun bd block_index =>
            SudokuBoard.set_block bd block_index
              { SudokuBoard.get_block bd block_index with
                conflicting := some (.AffectedByPossibilities idx pos) })
          (SudokuBoard.modify_possibilities S1 idx fun poss =>
            { poss with conflicting_numbers :=
              poss.conflicting_numbers.set_number pos })) p).conflicting) = false := by
    intro hic h1 p
    have h1b : SudokuBoard.possibilities_count b idx = 1 := by rw [← hcnt]; exact h1
    by_cases hm : p ∈ q :: rest
    · rw [hCp p, if_pos hm]
      rfl
    · rw [hCp p, if_neg hm, SudokuBoard.modify_conflicting]
      exact haffb h1b p
  have hS1C : SudokuBoard.mcp_step1
      ((q :: rest).foldl
        (fun bd block_index =>
          SudokuBoard.set_block bd block_index
            { SudokuBoard.get_block bd block_index with
              conflicting := some (.AffectedByPossibilities idx pos) })
        (SudokuBoard.modify_possibilities S1 idx fun poss =>
          { poss with conflicting_numbers := poss.conflicting_numbers.set_number pos }))
      idx false =
      (q :: rest).foldl
        (fun bd block_index =>
          SudokuBoard.set_block bd block_index
            { SudokuBoard.get_block bd block_index with
              conflicting := some (.AffectedByPossibilities idx pos) })
        (SudokuBoard.modify_possibilities S1 idx fun poss =>
          { poss with conflicting_numbers := poss.conflicting_numbers.set_number pos }) :=
    SudokuBoard.mcp_step1_stable _ idx false haffC
  have hfr : FrEq S1
      ((q :: rest).foldl
        (fun bd block_index =>
          SudokuBoard.set_block bd block_index
            { SudokuBoard.get_block bd block_index with
              conflicting := some (.AffectedByPossibilities idx pos) })
        (SudokuBoard.modify_possibilities S1 idx fun poss =>
          { poss with conflicting_numbers := poss.conflicting_numbers.set_number pos })) :=
    FrEq.fr_trans
      (FrEq.modify_possibilities_fr S1 idx fun poss =>
        { poss with conflicting_numbers := poss.conflicting_numbers.set_number pos })
      (FrEq.of_statusIndexEq hsie)
  have hsim2 : SudokuBoard.mcp_similar
      ((q :: rest).foldl
        (fun bd block_index =>
          SudokuBoard.set_block bd block_index
            { SudokuBoard.get_block bd block_index with
              conflicting := some (.AffectedByPossibilities idx pos) })
        (SudokuBoard.modify_possibilities S1 idx fun poss =>
          { poss with conflicting_numbers := poss.conflicting_numbers.set_number pos }))
      idx pos false = q :: rest := by
    rw [SudokuBoard.mcp_similar_false, hS1C,
      SudokuBoard.find_mistakes_congr _ S1 (FrEq.symm hfr) idx pos, hfind]
    rfl
  rw [SudokuBoard.mark_conflicts_possibilities_some, hS1C, hsim2,
    SudokuBoard.mcp_finish_cons]
  have hcol : ({ ({ pp with
      conflicting_numbers := pp.conflicting_numbers.set_number pos } : Possibilities) with
      conflicting_numbers := ({ pp with
        conflicting_numbers :=
          pp.conflicting_numbers.set_number pos } : Possibilities).conflicting_numbers.set_number
            pos } : Possibilities) =
      { pp with conflicting_numbers := pp.conflicting_numbers.set_number pos } := by
    show ({ pp with conflicting_numbers :=
        (pp.conflicting_numbers.set_number pos).set_number pos } : Possibilities) =
      ({ pp with conflicting_numbers := pp.conflicting_numbers.set_number pos } : Possibilities)
    rw [SudokuNumbers.set_number_idem]
  have hmod : SudokuBoard.modify_possibilities
      ((q :: rest).foldl
        (fun bd block_index =>
          SudokuBoard.set_block bd block_index
            { SudokuBoard.get_block bd block_index with
              conflicting := some (.AffectedByPossibilities idx pos) })
        (SudokuBoard.modify_possibilities S1 idx fun poss =>
          { poss with conflicting_numbers := poss.conflicting_numbers.set_number pos })) idx
      (fun poss =>
        { poss with conflicting_numbers := poss.conflicting_numbers.set_number pos }) =
      (q :: rest).foldl
        (fun bd block_index =>
          SudokuBoard.set_block bd block_index
            { SudokuBoard.get_block bd block_index with
              conflicting := some (.AffectedByPossibilities idx pos) })
        (SudokuBoard.modify_possibilities S1 idx fun poss =>
          { poss with conflicting_numbers := poss.conflicting_numbers.set_number pos }) :=
    SudokuBoard.modify_possibilities_self _ idx _ _ hCst hcol
  rw [hmod]
  refine congrArg (fun x => (x, false)) ?_
  funext p
  rw [tag_fold_eval]
  by_cases hm : p ∈ q :: rest
  · rw [if_pos hm, hCp p, if_pos hm]
  · rw [if_neg hm]

theorem SudokuBoard.mark_conflicts_possibilities_idem (b : SudokuBoard) (idx : BlockIndex)
    (info : Option (SudokuNumber × Bool)) (pp : Possibilities)
    (hst : (b idx).status = .Possibilities pp) :
    SudokuBoard.mark_conflicts_possibilities
        (SudokuBoard.mark_conflicts_possibilities b idx info).1 idx info =
      SudokuBoard.mark_conflicts_possibilities b idx info := by
  cases info with
  | none => rfl
  | some pic =>
      obtain ⟨pos, ic⟩ := pic
      cases ic with
      | false =>
          by_cases hcnt1 : SudokuBoard.possibilities_count b idx = 1
          · have hS1 : SudokuBoard.mcp_step1 b idx false =
                SudokuBoard.clear_affected_by_conflicts b idx := by
              rw [SudokuBoard.mcp_step1_false, if_pos hcnt1]
            cases hsim : SudokuBoard.mcp_similar b idx pos false with
            | nil =>
                exact mcp_idem_of_similar_nil b _ idx pos false pp hst hS1 hsim
                  (fun _ _ p => confTagAff_clear b idx p)
            | cons q rest =>
                exact mcp_idem_of_similar_cons b _ idx pos pp q rest hst hS1 hsim
                  (fun _ p => confTagAff_clear b idx p)
          · have hS1 : SudokuBoard.mcp_step1 b idx false = b := by
              rw [SudokuBoard.mcp_step1_false, if_neg hcnt1]
            cases hsim : SudokuBoard.mcp_similar b idx pos false with
            | nil =>
                exact mcp_idem_of_similar_nil b b idx pos false pp hst hS1 hsim
                  (fun _ h1 _ => absurd h1 hcnt1)
            | cons q rest =>
                exact mcp_idem_of_similar_cons b b idx pos pp q rest hst hS1 hsim
                  (fun h1 _ => absurd h1 hcnt1)
      | true =>
          exact mcp_idem_of_similar_nil b b idx pos true pp hst rfl rfl
            (fun hic _ _ => Bool.noConfusion hic)

/-- C7: mark_conflicts is idempotent: for every board, cell address and
candidate-change argument, running it twice with the same arguments
yields the same board and the same return value as running it once. -/
theorem c7_mark_conflicts_idempotent (b : SudokuBoard) (idx : BlockIndex)
    (info : Option (SudokuNumber × Bool)) :
    SudokuBoard.mark_conflicts (SudokuBoard.mark_conflicts b idx info).1 idx info =
      SudokuBoard.mark_conflicts b idx info := by
  cases hst : (b idx).status with
  | Fixed n =>
      have h1 : SudokuBoard.mark_conflicts b idx info = (b, true) := by
        unfold SudokuBoard.mark_conflicts SudokuBoard.get_block
        rw [hst]
      rw [h1]
      show SudokuBoard.mark_conflicts b idx info = (b, true)
      exact h1
  | Unresolved =>
      have h1 : SudokuBoard.mark_conflicts b idx info =
          SudokuBoard.mark_conflicts_unresolved b idx := by
        unfold SudokuBoard.mark_conflicts SudokuBoard.get_block
        rw [hst]
      have hstB : ((SudokuBoard.mark_conflicts_unresolved b idx).1 idx).status =
          SudokuBlockStatus.Unresolved :=
        ((StatusIndexEq.mark_conflicts_unresolved b idx) idx).1.trans hst
      have h2 : SudokuBoard.mark_conflicts
          (SudokuBoard.mark_conflicts_unresolved b idx).1 idx info =
          SudokuBoard.mark_conflicts_unresolved
            (SudokuBoard.mark_conflicts_unresolved b idx).1 idx := by
        unfold SudokuBoard.mark_conflicts SudokuBoard.get_block
        rw [hstB]
      rw [h1, h2]
      exact SudokuBoard.mark_conflicts_unresolved_idem b idx
  | Resolved n =>
      have h1 : SudokuBoard.mark_conflicts b idx info =
          SudokuBoard.mark_conflicts_resolved b idx := by
        unfold SudokuBoard.mark_conflicts SudokuBoard.get_block
        rw [hst]
      have hstB : ((SudokuBoard.mark_conflicts_resolved b idx).1 idx).status =
          SudokuBlockStatus.Resolved n :=
        ((StatusIndexEq.mark_conflicts_resolved b idx) idx).1.trans hst
      have h2 : SudokuBoard.mark_conflicts
          (SudokuBoard.mark_conflicts_resolved b idx).1 idx info =
          SudokuBoard.mark_conflicts_resolved
            (SudokuBoard.mark_conflicts_resolved b idx).1 idx := by
        unfold SudokuBoard.mark_conflicts SudokuBoard.get_block
        rw [hstB]
      rw [h1, h2]
      exact SudokuBoard.mark_conflicts_resolved_idem b idx
  | Possibilities pp =>
      have h1 : SudokuBoard.mark_conflicts b idx info =
          SudokuBoard.mark_conflicts_possibilities b idx info := by
        unfold SudokuBoard.mark_conflicts SudokuBoard.get_block
        rw [hst]
      have hstB : ∃ pq,
          ((SudokuBoard.mark_conflicts_possibilities b idx info).1 idx).status =
            SudokuBlockStatus.Possibilities pq := by
        cases info with
        | none => exact ⟨pp, hst⟩
        | some pic =>
            obtain ⟨pos, ic⟩ := pic
            exact SudokuBoard.mcp_board_status b idx pos ic pp hst
      obtain ⟨pq, hpq⟩ := hstB
      have h2 : SudokuBoard.mark_conflicts
          (SudokuBoard.mark_conflicts_possibilities b idx info).1 idx info =
          SudokuBoard.mark_conflicts_possibilities
            (SudokuBoard.mark_conflicts_possibilities b idx info).1 idx info := by
        unfold SudokuBoard.mark_conflicts SudokuBoard.get_block
        rw [hpq]
      rw [h1, h2]
      exact SudokuBoard.mark_conflicts_possibilities_idem b idx info pp hst

end Sudoku
